import Mathlib

/-!
# tosync: async-to-sync rendezvous over a callback URL

A shallow embedding of `huaiyann/tosync` (Go).  Go `string` and `[]byte` values are byte
sequences; the pieces of the Go standard library and of the third-party packages that the
repository calls (`crypto/md5`, `crypto/sha512`, `fmt`, `encoding/base64`, `encoding/json`,
`net/url`, `io`, `reflect`, `google/uuid`, `go-playground/validator`, `redis/go-redis`) are
embedded to the extent the repository uses them.
-/

set_option autoImplicit false

/-! ## Byte strings -/

/-- One byte. -/
abbrev Byte := Fin 256

/-- Go `[]byte` and Go `string`: a finite sequence of bytes. -/
abbrev Bytes := List Byte

/-- The bytes of an ASCII source literal. -/
def str (s : String) : Bytes := s.data.map (fun c => Fin.ofNat c.toNat)

/-! ## `fmt` verbs used by the repository -/

namespace fmt

/-- The digits of `n` in base ten, most significant first (`fuel` bounds the number of digits). -/
def decDigits : Nat → Nat → Bytes
  | 0, _ => []
  | fuel + 1, n =>
    if n < 10 then [Fin.ofNat (48 + n)] else decDigits fuel (n / 10) ++ [Fin.ofNat (48 + n % 10)]

/-- Verb `%d` on an integer: `fmt.Sprintf("%d", n)`. -/
def d (n : Int) : Bytes :=
  if n < 0 then Fin.ofNat 45 :: decDigits (n.natAbs + 1) n.natAbs else decDigits (n.natAbs + 1) n.natAbs

/-- One upper-case hexadecimal digit. -/
def hexDigitUpper (n : Nat) : Byte :=
  if n < 10 then Fin.ofNat (48 + n) else Fin.ofNat (55 + n)

/-- Verb `%X` on a byte array: two upper-case hexadecimal digits per byte. -/
def X (bs : Bytes) : Bytes :=
  bs.flatMap (fun b => [hexDigitUpper (b.val / 16), hexDigitUpper (b.val % 16)])

end fmt

/-! ## `crypto/md5` (RFC 1321) -/

namespace md5

/-- Rotate a 32-bit word left by `c` bits. -/
def rotl32 (x c : Nat) : Nat := ((x <<< c) ||| (x >>> (32 - c))) % 2 ^ 32

/-- Per-round shift amounts. -/
def shifts : List Nat :=
  [7, 12, 17, 22, 7, 12, 17, 22, 7, 12, 17, 22, 7, 12, 17, 22,
   5, 9, 14, 20, 5, 9, 14, 20, 5, 9, 14, 20, 5, 9, 14, 20,
   4, 11, 16, 23, 4, 11, 16, 23, 4, 11, 16, 23, 4, 11, 16, 23,
   6, 10, 15, 21, 6, 10, 15, 21, 6, 10, 15, 21, 6, 10, 15, 21]

/-- The sine-derived round constants. -/
def K : List Nat :=
  [3614090360, 3905402710, 606105819, 3250441966, 4118548399, 1200080426, 2821735955, 4249261313,
   1770035416, 2336552879, 4294925233, 2304563134, 1804603682, 4254626195, 2792965006, 1236535329,
   4129170786, 3225465664, 643717713, 3921069994, 3593408605, 38016083, 3634488961, 3889429448,
   568446438, 3275163606, 4107603335, 1163531501, 2850285829, 4243563512, 1735328473, 2368359562,
   4294588738, 2272392833, 1839030562, 4259657740, 2763975236, 1272893353, 4139469664, 3200236656,
   681279174, 3936430074, 3572445317, 76029189, 3654602809, 3873151461, 530742520, 3299628645,
   4096336452, 1126891415, 2878612391, 4237533241, 1700485571, 2399980690, 4293915773, 2240044497,
   1873313359, 4264355552, 2734768916, 1309151649, 4149444226, 3174756917, 718787259, 3951481745]

/-- The four chaining words. -/
structure State where
  a : Nat
  b : Nat
  c : Nat
  d : Nat
  deriving DecidableEq, Repr

/-- The initial chaining value. -/
def init : State := ⟨0x67452301, 0xefcdab89, 0x98badcfe, 0x10325476⟩

/-- A little-endian word from its bytes. -/
def leWord (bs : Bytes) : Nat := bs.foldr (fun b acc => b.val + 256 * acc) 0

/-- The `n` low bytes of `w`, least significant first. -/
def leBytes : Nat → Nat → Bytes
  | 0, _ => []
  | n + 1, w => Fin.ofNat (w % 256) :: leBytes n (w / 256)

/-- Cut a byte string into consecutive groups of `n` bytes (`fuel` bounds the number of groups). -/
def groups (n : Nat) : Nat → Bytes → List Bytes
  | 0, _ => []
  | fuel + 1, bs => if bs.isEmpty then [] else bs.take n :: groups n fuel (bs.drop n)

/-- Message padding: a `0x80` byte, zeros up to 56 modulo 64, the bit length on 8 bytes. -/
def pad (msg : Bytes) : Bytes :=
  msg ++ [Fin.ofNat 0x80] ++ List.replicate ((119 - msg.length % 64) % 64) 0
    ++ leBytes 8 ((8 * msg.length) % 2 ^ 64)

/-- One of the 64 steps on block words `m`. -/
def step (m : List Nat) (s : State) (i : Nat) : State :=
  let nb := s.b ^^^ 0xffffffff
  let nd := s.d ^^^ 0xffffffff
  let f := if i < 16 then (s.b &&& s.c) ||| (nb &&& s.d)
    else if i < 32 then (s.d &&& s.b) ||| (nd &&& s.c)
    else if i < 48 then s.b ^^^ s.c ^^^ s.d
    else s.c ^^^ (s.b ||| nd)
  let g := if i < 16 then i
    else if i < 32 then (5 * i + 1) % 16
    else if i < 48 then (3 * i + 5) % 16
    else (7 * i) % 16
  let f2 := (f + s.a + K.getD i 0 + m.getD g 0) % 2 ^ 32
  ⟨s.d, (s.b + rotl32 f2 (shifts.getD i 0)) % 2 ^ 32, s.b, s.c⟩

/-- Absorb one 64-byte block. -/
def block (s : State) (blk : Bytes) : State :=
  let m := (groups 4 16 blk).map leWord
  let r := (List.range 64).foldl (step m) s
  ⟨(s.a + r.a) % 2 ^ 32, (s.b + r.b) % 2 ^ 32, (s.c + r.c) % 2 ^ 32, (s.d + r.d) % 2 ^ 32⟩

/-- The 16-byte digest: `md5.Sum`. -/
def Sum (data : Bytes) : Bytes :=
  let p := pad data
  let s := (groups 64 (p.length / 64 + 1) p).foldl block init
  leBytes 4 s.a ++ leBytes 4 s.b ++ leBytes 4 s.c ++ leBytes 4 s.d

end md5

/-! ## `crypto/sha512` (FIPS 180-4) -/

namespace sha512

/-- Rotate a 64-bit word right by `c` bits. -/
def rotr64 (x c : Nat) : Nat := ((x >>> c) ||| (x <<< (64 - c))) % 2 ^ 64

/-- The cube-root-derived round constants. -/
def K : List Nat :=
  [0x428a2f98d728ae22, 0x7137449123ef65cd, 0xb5c0fbcfec4d3b2f, 0xe9b5dba58189dbbc,
   0x3956c25bf348b538, 0x59f111f1b605d019, 0x923f82a4af194f9b, 0xab1c5ed5da6d8118,
   0xd807aa98a3030242, 0x12835b0145706fbe, 0x243185be4ee4b28c, 0x550c7dc3d5ffb4e2,
   0x72be5d74f27b896f, 0x80deb1fe3b1696b1, 0x9bdc06a725c71235, 0xc19bf174cf692694,
   0xe49b69c19ef14ad2, 0xefbe4786384f25e3, 0x0fc19dc68b8cd5b5, 0x240ca1cc77ac9c65,
   0x2de92c6f592b0275, 0x4a7484aa6ea6e483, 0x5cb0a9dcbd41fbd4, 0x76f988da831153b5,
   0x983e5152ee66dfab, 0xa831c66d2db43210, 0xb00327c898fb213f, 0xbf597fc7beef0ee4,
   0xc6e00bf33da88fc2, 0xd5a79147930aa725, 0x06ca6351e003826f, 0x142929670a0e6e70,
   0x27b70a8546d22ffc, 0x2e1b21385c26c926, 0x4d2c6dfc5ac42aed, 0x53380d139d95b3df,
   0x650a73548baf63de, 0x766a0abb3c77b2a8, 0x81c2c92e47edaee6, 0x92722c851482353b,
   0xa2bfe8a14cf10364, 0xa81a664bbc423001, 0xc24b8b70d0f89791, 0xc76c51a30654be30,
   0xd192e819d6ef5218, 0xd69906245565a910, 0xf40e35855771202a, 0x106aa07032bbd1b8,
   0x19a4c116b8d2d0c8, 0x1e376c085141ab53, 0x2748774cdf8eeb99, 0x34b0bcb5e19b48a8,
   0x391c0cb3c5c95a63, 0x4ed8aa4ae3418acb, 0x5b9cca4f7763e373, 0x682e6ff3d6b2b8a3,
   0x748f82ee5defb2fc, 0x78a5636f43172f60, 0x84c87814a1f0ab72, 0x8cc702081a6439ec,
   0x90befffa23631e28, 0xa4506cebde82bde9, 0xbef9a3f7b2c67915, 0xc67178f2e372532b,
   0xca273eceea26619c, 0xd186b8c721c0c207, 0xeada7dd6cde0eb1e, 0xf57d4f7fee6ed178,
   0x06f067aa72176fba, 0x0a637dc5a2c898a6, 0x113f9804bef90dae, 0x1b710b35131c471b,
   0x28db77f523047d84, 0x32caab7b40c72493, 0x3c9ebe0a15c9bebc, 0x431d67c49c100d4c,
   0x4cc5d4becb3e42b6, 0x597f299cfc657e2a, 0x5fcb6fab3ad6faec, 0x6c44198c4a475817]

/-- The eight chaining words. -/
structure State where
  a : Nat
  b : Nat
  c : Nat
  d : Nat
  e : Nat
  f : Nat
  g : Nat
  h : Nat
  deriving DecidableEq, Repr

/-- The initial chaining value. -/
def init : State :=
  ⟨0x6a09e667f3bcc908, 0xbb67ae8584caa73b, 0x3c6ef372fe94f82b, 0xa54ff53a5f1d36f1,
   0x510e527fade682d1, 0x9b05688c2b3e6c1f, 0x1f83d9abfb41bd6b, 0x5be0cd19137e2179⟩

/-- A big-endian word from its bytes. -/
def beWord (bs : Bytes) : Nat := bs.foldl (fun acc b => 256 * acc + b.val) 0

/-- The `n` low bytes of `w`, most significant first. -/
def beBytes (n w : Nat) : Bytes := (md5.leBytes n w).reverse

/-- Message padding: a `0x80` byte, zeros up to 112 modulo 128, the bit length on 16 bytes. -/
def pad (msg : Bytes) : Bytes :=
  msg ++ [Fin.ofNat 0x80] ++ List.replicate ((239 - msg.length % 128) % 128) 0
    ++ beBytes 16 ((8 * msg.length) % 2 ^ 128)

/-- Extend the message schedule by word `t` (for `16 ≤ t`). -/
def extend (w : List Nat) (t : Nat) : List Nat :=
  let x := w.getD (t - 15) 0
  let y := w.getD (t - 2) 0
  let s0 := rotr64 x 1 ^^^ rotr64 x 8 ^^^ (x >>> 7)
  let s1 := rotr64 y 19 ^^^ rotr64 y 61 ^^^ (y >>> 6)
  w ++ [(s1 + w.getD (t - 7) 0 + s0 + w.getD (t - 16) 0) % 2 ^ 64]

/-- One of the 80 rounds on schedule `w`. -/
def round (w : List Nat) (s : State) (t : Nat) : State :=
  let S1 := rotr64 s.e 14 ^^^ rotr64 s.e 18 ^^^ rotr64 s.e 41
  let ch := (s.e &&& s.f) ^^^ ((s.e ^^^ 0xffffffffffffffff) &&& s.g)
  let t1 := (s.h + S1 + ch + K.getD t 0 + w.getD t 0) % 2 ^ 64
  let S0 := rotr64 s.a 28 ^^^ rotr64 s.a 34 ^^^ rotr64 s.a 39
  let maj := (s.a &&& s.b) ^^^ (s.a &&& s.c) ^^^ (s.b &&& s.c)
  let t2 := (S0 + maj) % 2 ^ 64
  ⟨(t1 + t2) % 2 ^ 64, s.a, s.b, s.c, (s.d + t1) % 2 ^ 64, s.e, s.f, s.g⟩

/-- Absorb one 128-byte block. -/
def block (s : State) (blk : Bytes) : State :=
  let w := ((List.range 64).map (· + 16)).foldl extend ((md5.groups 8 16 blk).map beWord)
  let r := (List.range 80).foldl (round w) s
  ⟨(s.a + r.a) % 2 ^ 64, (s.b + r.b) % 2 ^ 64, (s.c + r.c) % 2 ^ 64, (s.d + r.d) % 2 ^ 64,
   (s.e + r.e) % 2 ^ 64, (s.f + r.f) % 2 ^ 64, (s.g + r.g) % 2 ^ 64, (s.h + r.h) % 2 ^ 64⟩

/-- The 64-byte digest: `sha512.Sum512`. -/
def Sum512 (data : Bytes) : Bytes :=
  let p := pad data
  let s := (md5.groups 128 (p.length / 128 + 1) p).foldl block init
  beBytes 8 s.a ++ beBytes 8 s.b ++ beBytes 8 s.c ++ beBytes 8 s.d
    ++ beBytes 8 s.e ++ beBytes 8 s.f ++ beBytes 8 s.g ++ beBytes 8 s.h

end sha512

/-! ## `internal/signature` -/

namespace signature

/-- The shared secret. -/
def signSalt : Bytes := str "GMswFuu1oyP3iNk9ceqiciLp6dBKs8hO"

/-- `GenSign(asyncID)`; `random` is the value that `rand.Int63n(10000000)` returned. -/
def GenSign (asyncID : Bytes) (random : Int) : Int × Bytes :=
  let data := asyncID ++ str "_" ++ fmt.d random ++ str "_" ++ signSalt
  let sign := fmt.X (sha512.Sum512 data)
  (random, sign)

/-- `CheckSign(asyncID, random, sign)`. -/
def CheckSign (asyncID : Bytes) (random : Bytes) (sign : Bytes) : Bool :=
  let data := asyncID ++ str "_" ++ random ++ str "_" ++ signSalt
  let wantOld := fmt.X (md5.Sum data)
  let want := fmt.X (sha512.Sum512 data)
  wantOld == sign || want == sign

end signature

/-! ## Go errors -/

/-- A Go `error` value. -/
inductive GoError where
  /-- The `errors.New(text)` and `errors.Errorf(...)` values. -/
  | new (text : Bytes)
  /-- The `errors.Wrap(cause, text)` values. -/
  | wrap (cause : GoError) (text : Bytes)
  /-- An error value made outside the repository; `origin` names where (its text is not
  modelled). -/
  | ext (origin : String)
  deriving DecidableEq, Repr

/-- The `Error()` text: a wrapped error reads `text: cause`. -/
def GoError.Error : GoError → Bytes
  | .new text => text
  | .wrap cause text => text ++ str ": " ++ cause.Error
  | .ext origin => str origin

/-- How a Go call ends: it returns normally, returns a non-nil `error`, or panics. -/
inductive Ret (α : Type) where
  | ok (a : α)
  | error (e : GoError)
  | panic (text : Bytes)
  deriving DecidableEq, Repr

/-! ## Go maps keyed by strings -/

/-- A Go `map[string]V`: an association list that `insert` keeps ordered by key. -/
abbrev GoMap (V : Type) := List (Bytes × V)

namespace GoMap

/-- Read `m[k]`. -/
def lookup {V : Type} : GoMap V → Bytes → Option V
  | [], _ => none
  | (k', v) :: t, k => if k' = k then some v else lookup t k

/-- Write `m[k] = v`. -/
def insert {V : Type} : GoMap V → Bytes → V → GoMap V
  | [], k, v => [(k, v)]
  | (k', v') :: t, k, v =>
    if k < k' then (k, v) :: (k', v') :: t
    else if k = k' then (k, v) :: t
    else (k', v') :: insert t k v

/-- Remove a key: `delete(m, k)`. -/
def delete {V : Type} (m : GoMap V) (k : Bytes) : GoMap V :=
  m.filter (fun e => !decide (e.1 = k))

end GoMap

/-! ## `strings` -/

namespace strings

/-- The call `strings.Cut(s, sep)` for a one-byte separator: text before the first `sep`, text
after it, and whether `sep` occurs. -/
def Cut : Bytes → Byte → Bytes × Bytes × Bool
  | [], _ => ([], [], false)
  | c :: t, sep =>
    if c = sep then ([], t, true)
    else ((c :: (Cut t sep).1), (Cut t sep).2.1, (Cut t sep).2.2)

end strings

/-! ## `net/url` -/

namespace url

/-- Hexadecimal digit test `ishex`. -/
def ishex (c : Byte) : Bool :=
  (48 ≤ c.val && c.val ≤ 57) || (97 ≤ c.val && c.val ≤ 102) || (65 ≤ c.val && c.val ≤ 70)

/-- Digit value `unhex`. -/
def unhex (c : Byte) : Nat :=
  if 48 ≤ c.val ∧ c.val ≤ 57 then c.val - 48
  else if 97 ≤ c.val ∧ c.val ≤ 102 then c.val - 97 + 10
  else if 65 ≤ c.val ∧ c.val ≤ 70 then c.val - 65 + 10
  else 0

/-- The test `shouldEscape(c, encodeQueryComponent)`: everything but letters, digits and
`-`, `_`, `.`, `~`. -/
def shouldEscape (c : Byte) : Bool :=
  !((97 ≤ c.val && c.val ≤ 122) || (65 ≤ c.val && c.val ≤ 90) || (48 ≤ c.val && c.val ≤ 57)
    || c.val = 45 || c.val = 95 || c.val = 46 || c.val = 126)

/-- The call `url.QueryEscape(s)`: a space becomes `+`, an escaped byte `%XX`. -/
def QueryEscape (s : Bytes) : Bytes :=
  s.flatMap (fun c =>
    if c.val = 32 then [Fin.ofNat 43]
    else if shouldEscape c then
      [Fin.ofNat 37, fmt.hexDigitUpper (c.val / 16), fmt.hexDigitUpper (c.val % 16)]
    else [c])

/-- The call `url.QueryUnescape(s)`; `none` stands for an `EscapeError`. -/
def QueryUnescape : Bytes → Option Bytes
  | [] => some []
  | c :: t =>
    if c.val = 37 then
      match t with
      | h1 :: h2 :: rest =>
        if ishex h1 && ishex h2 then
          (QueryUnescape rest).map (fun r => Fin.ofNat (unhex h1 * 16 + unhex h2) :: r)
        else none
      | _ => none
    else if c.val = 43 then (QueryUnescape t).map (fun r => Fin.ofNat 32 :: r)
    else (QueryUnescape t).map (fun r => c :: r)

/-- Query parameters `url.Values`, a `map[string][]string`. -/
abbrev Values := GoMap (List Bytes)

/-- The call `v.Get(key)`: the first value of the key, or the empty string. -/
def Values.Get (v : Values) (key : Bytes) : Bytes :=
  match GoMap.lookup v key with
  | some (x :: _) => x
  | _ => []

/-- The call `v.Add(key, value)`: append to the values of the key. -/
def Values.Add (v : Values) (key value : Bytes) : Values :=
  GoMap.insert v key ((GoMap.lookup v key).getD [] ++ [value])

/-- The call `v.Encode()`: `key=value` pairs joined by `&`, in key order. -/
def Values.Encode (v : Values) : Bytes :=
  v.foldl (fun buf e =>
    e.2.foldl (fun buf x =>
      (if buf.length > 0 then buf ++ [Fin.ofNat 38] else buf)
        ++ QueryEscape e.1 ++ [Fin.ofNat 61] ++ QueryEscape x) buf) []

/-- The loop of `parseQuery(m, query)`; `fuel` bounds the number of `&`-separated pieces. -/
def parseQuery : Nat → Values → Bytes → Values
  | 0, m, _ => m
  | fuel + 1, m, query =>
    if query = [] then m
    else
      let key := (strings.Cut query (Fin.ofNat 38)).1
      let rest := (strings.Cut query (Fin.ofNat 38)).2.1
      if (Fin.ofNat 59 : Byte) ∈ key then parseQuery fuel m rest
      else if key = [] then parseQuery fuel m rest
      else
        match QueryUnescape (strings.Cut key (Fin.ofNat 61)).1,
            QueryUnescape (strings.Cut key (Fin.ofNat 61)).2.1 with
        | some k, some v => parseQuery fuel (Values.Add m k v) rest
        | _, _ => parseQuery fuel m rest

/-- The call `url.ParseQuery(query)` with its error dropped, as `URL.Query()` does. -/
def ParseQuery (query : Bytes) : Values := parseQuery (query.length + 1) [] query

/-- A parsed `url.URL`. `Head` holds scheme, authority and path the way `URL.String()` writes
them; `Fragment` holds the fragment the way `EscapedFragment()` writes it. -/
structure URL where
  Head : Bytes
  ForceQuery : Bool
  RawQuery : Bytes
  Fragment : Bytes
  deriving DecidableEq, Repr

/-- What `net/url` does outside the query string: `head` reads scheme, authority and path from the
text before the query (`getScheme`, `parseAuthority`, `setPath`) and gives them back as
`URL.String()` writes them; `fragment` does the same for the text after `#`. -/
structure Syntax where
  head : Bytes → Except GoError Bytes
  fragment : Bytes → Except GoError Bytes

/-- The call `url.Parse(rawURL)`: cut the fragment at the first `#`, refuse control bytes, cut the
query at the first `?` (a lone trailing `?` sets `ForceQuery`), then read the rest. A scheme holds
no `?`, so cutting the query before reading the scheme gives what `parse` gives. -/
def Parse (syn : Syntax) (rawURL : Bytes) : Except GoError URL :=
  let u := (strings.Cut rawURL (Fin.ofNat 35)).1
  let frag := (strings.Cut rawURL (Fin.ofNat 35)).2.1
  if u.any (fun b => decide (b.val < 32) || decide (b.val = 127)) then
    .error (GoError.ext "net/url: invalid control character in URL")
  else
    let force := u.getLast? = some (Fin.ofNat 63) && u.count (Fin.ofNat 63) = 1
    let rest := if force then u.dropLast else (strings.Cut u (Fin.ofNat 63)).1
    let rawQuery := if force then [] else (strings.Cut u (Fin.ofNat 63)).2.1
    match syn.head rest with
    | .error e => .error e
    | .ok h =>
      if frag = [] then .ok ⟨h, force, rawQuery, []⟩
      else
        match syn.fragment frag with
        | .error e => .error e
        | .ok f => .ok ⟨h, force, rawQuery, f⟩

/-- The call `u.Query()`. -/
def URL.Query (u : URL) : Values := ParseQuery u.RawQuery

/-- The call `u.String()`. -/
def URL.String (u : URL) : Bytes :=
  u.Head
    ++ (if u.ForceQuery || !decide (u.RawQuery = []) then Fin.ofNat 63 :: u.RawQuery else [])
    ++ (if u.Fragment = [] then [] else Fin.ofNat 35 :: u.Fragment)

end url

/-! ## `encoding/base64`, the padded standard encoding -/

namespace base64

/-- The character of a 6-bit value in the standard alphabet. -/
def enc6 (n : Nat) : Byte :=
  if n < 26 then Fin.ofNat (65 + n)
  else if n < 52 then Fin.ofNat (97 + (n - 26))
  else if n < 62 then Fin.ofNat (48 + (n - 52))
  else if n = 62 then Fin.ofNat 43
  else Fin.ofNat 47

/-- The 6-bit value of a character of the standard alphabet (`decodeMap`). -/
def dec6 (c : Byte) : Option Nat :=
  if 65 ≤ c.val ∧ c.val ≤ 90 then some (c.val - 65)
  else if 97 ≤ c.val ∧ c.val ≤ 122 then some (c.val - 97 + 26)
  else if 48 ≤ c.val ∧ c.val ≤ 57 then some (c.val - 48 + 52)
  else if c.val = 43 then some 62
  else if c.val = 47 then some 63
  else none

/-- The call `base64.StdEncoding.EncodeToString(src)`. -/
def EncodeToString : Bytes → Bytes
  | a :: b :: c :: rest =>
    enc6 (a.val / 4) :: enc6 (a.val % 4 * 16 + b.val / 16)
      :: enc6 (b.val % 16 * 4 + c.val / 64) :: enc6 (c.val % 64) :: EncodeToString rest
  | [a, b] =>
    [enc6 (a.val / 4), enc6 (a.val % 4 * 16 + b.val / 16), enc6 (b.val % 16 * 4), Fin.ofNat 61]
  | [a] => [enc6 (a.val / 4), enc6 (a.val % 4 * 16), Fin.ofNat 61, Fin.ofNat 61]
  | [] => []

/-- Decode quanta of four characters; padding may only close the input (`decodeQuantum`). -/
def decodeQuanta : Bytes → Option Bytes
  | [] => some []
  | a :: b :: c :: d :: rest =>
    match dec6 a, dec6 b with
    | some x, some y =>
      if c.val = 61 then
        if d.val = 61 ∧ rest = [] then some [Fin.ofNat (x * 4 + y / 16)] else none
      else
        match dec6 c with
        | none => none
        | some z =>
          if d.val = 61 then
            if rest = [] then
              some [Fin.ofNat (x * 4 + y / 16), Fin.ofNat (y % 16 * 16 + z / 4)]
            else none
          else
            match dec6 d with
            | none => none
            | some w =>
              (decodeQuanta rest).map (fun r =>
                Fin.ofNat (x * 4 + y / 16) :: Fin.ofNat (y % 16 * 16 + z / 4)
                  :: Fin.ofNat (z % 4 * 64 + w) :: r)
    | _, _ => none
  | _ => none

/-- The call `base64.StdEncoding.DecodeString(s)`: line breaks are skipped wherever they stand;
`none` stands for a `CorruptInputError`. -/
def DecodeString (s : Bytes) : Option Bytes :=
  decodeQuanta (s.filter (fun c => !(decide (c.val = 10) || decide (c.val = 13))))

end base64

/-! ## `io` -/

namespace io

/-- A byte stream such as an HTTP request body: it yields `data`, then ends, either cleanly
(`err = none`) or with a read error reported by the read that follows the last byte. -/
structure Reader where
  data : Bytes
  err : Option GoError
  deriving DecidableEq, Repr

/-- The call `io.ReadAll(io.LimitReader(r, n))`. A limit `n ≤ 0` reads nothing; a stream holding
at least `n` bytes is cut at `n` before its end is seen. -/
def ReadAllLimit (r : Reader) (n : Int) : Except GoError Bytes :=
  if n ≤ 0 then .ok []
  else if n.toNat ≤ r.data.length then .ok (r.data.take n.toNat)
  else
    match r.err with
    | some e => .error e
    | none => .ok r.data

end io

/-- Signed 64-bit wrap-around: the `int64` value of an integer result. -/
def wrapInt64 (x : Int) : Int := (x + 2 ^ 63) % 2 ^ 64 - 2 ^ 63

/-! ## `github.com/google/uuid` -/

namespace uuid

/-- One lower-case hexadecimal digit. -/
def hexDigitLower (n : Nat) : Byte :=
  if n < 10 then Fin.ofNat (48 + n) else Fin.ofNat (87 + n)

/-- Lower-case hexadecimal rendering, two digits per byte. -/
def encodeHex (bs : Bytes) : Bytes :=
  bs.flatMap (fun b => [hexDigitLower (b.val / 16), hexDigitLower (b.val % 16)])

/-- The call `uuid.NewString()`; `rnd` holds the 16 bytes read from the random source. Version 4
and the RFC 4122 variant are stamped on bytes 6 and 8; the text has the 8-4-4-4-12 form. -/
def NewString (rnd : Bytes) : Bytes :=
  let b := fun (i : Nat) => rnd.getD i 0
  let b6 : Byte := Fin.ofNat ((b 6).val % 16 + 64)
  let b8 : Byte := Fin.ofNat ((b 8).val % 64 + 128)
  encodeHex [b 0, b 1, b 2, b 3] ++ str "-" ++ encodeHex [b 4, b 5] ++ str "-"
    ++ encodeHex [b6, b 7] ++ str "-" ++ encodeHex [b8, b 9] ++ str "-"
    ++ encodeHex [b 10, b 11, b 12, b 13, b 14, b 15]

end uuid

/-! ## `reflect` -/

namespace reflect

/-- The kinds of Go types, `reflect.Kind`. -/
inductive Kind where
  | Invalid | Bool | Int | Int8 | Int16 | Int32 | Int64
  | Uint | Uint8 | Uint16 | Uint32 | Uint64 | Uintptr
  | Float32 | Float64 | Complex64 | Complex128
  | Array | Chan | Func | Interface | Map | Pointer | Slice | String | Struct | UnsafePointer
  deriving DecidableEq, Repr

/-- A Go type as `reflect.Type` shows it: its kind, its `String()` text and, for a type with an
element type, that element type. -/
inductive GoType where
  | mk (kind : Kind) (name : Bytes) (elem : Option GoType)
  deriving Repr

/-- The call `t.Kind()`. -/
def GoType.Kind : GoType → Kind
  | .mk kind _ _ => kind

/-- The call `t.String()`, which is what the verb `%v` prints for a `reflect.Type`. -/
def GoType.String : GoType → Bytes
  | .mk _ name _ => name

/-- The call `t.Elem()`; `none` where Go panics (the type has no element type). -/
def GoType.Elem : GoType → Option GoType
  | .mk _ _ elem => elem

/-- The call `reflect.TypeOf(null)` on the zero value `null` of type `T`: the zero value of an
interface type is the nil interface, for which `TypeOf` returns nil (`none`). -/
def TypeOfZero (T : GoType) : Option GoType :=
  if T.Kind = Kind.Interface then none else some T

end reflect

/-! ## `unicode/utf8` -/

namespace utf8

/-- The replacement rune U+FFFD, `utf8.RuneError`. -/
def RuneError : Nat := 0xFFFD

/-- Continuation byte test (`0x80 ≤ b ≤ 0xBF`). -/
def isCont (b : Byte) : Bool := decide (128 ≤ b.val) && decide (b.val ≤ 191)

/-- The call `utf8.DecodeRune(p)` on a non-empty `p`: the rune and the number of bytes it takes;
a malformed sequence gives `(RuneError, 1)`. -/
def DecodeRune (p : Bytes) : Nat × Nat :=
  match p with
  | [] => (RuneError, 0)
  | p0 :: t =>
    if p0.val < 128 then (p0.val, 1)
    else if p0.val < 194 ∨ 244 < p0.val then (RuneError, 1)
    else
      let lo := if p0.val = 224 then 160 else if p0.val = 240 then 144 else 128
      let hi := if p0.val = 237 then 159 else if p0.val = 244 then 143 else 191
      match t with
      | [] => (RuneError, 1)
      | b1 :: t1 =>
        if b1.val < lo ∨ hi < b1.val then (RuneError, 1)
        else if p0.val < 224 then ((p0.val % 32) * 64 + b1.val % 64, 2)
        else
          match t1 with
          | [] => (RuneError, 1)
          | b2 :: t2 =>
            if !isCont b2 then (RuneError, 1)
            else if p0.val < 240 then
              ((p0.val % 16) * 4096 + (b1.val % 64) * 64 + b2.val % 64, 3)
            else
              match t2 with
              | [] => (RuneError, 1)
              | b3 :: _ =>
                if !isCont b3 then (RuneError, 1)
                else ((p0.val % 8) * 262144 + (b1.val % 64) * 4096 + (b2.val % 64) * 64
                  + b3.val % 64, 4)

/-- The call `utf8.EncodeRune(r)`; a surrogate or out-of-range rune is written as U+FFFD. -/
def EncodeRune (r : Nat) : Bytes :=
  if r < 128 then [Fin.ofNat r]
  else if r < 2048 then [Fin.ofNat (192 + r / 64), Fin.ofNat (128 + r % 64)]
  else if 0x10FFFF < r ∨ (0xD800 ≤ r ∧ r ≤ 0xDFFF) then [Fin.ofNat 239, Fin.ofNat 191, Fin.ofNat 189]
  else if r < 65536 then
    [Fin.ofNat (224 + r / 4096), Fin.ofNat (128 + r / 64 % 64), Fin.ofNat (128 + r % 64)]
  else
    [Fin.ofNat (240 + r / 262144), Fin.ofNat (128 + r / 4096 % 64),
     Fin.ofNat (128 + r / 64 % 64), Fin.ofNat (128 + r % 64)]

end utf8

/-! ## `encoding/json` -/

namespace json

/-- A parsed JSON value (the text of a number is not kept). -/
inductive Value where
  | null
  | bool (b : Bool)
  | number
  | string (s : Bytes)
  | array (xs : List Value)
  | object (members : List (Bytes × Value))
  deriving Repr

/-- The nesting bound of the scanner, `maxNestingDepth`. -/
def maxNestingDepth : Nat := 10000

/-- JSON white space. -/
def isSpace (c : Byte) : Bool :=
  decide (c.val = 32) || decide (c.val = 9) || decide (c.val = 13) || decide (c.val = 10)

/-- Drop leading white space. -/
def skipSpace : Bytes → Bytes
  | [] => []
  | c :: t => if isSpace c then skipSpace t else c :: t

/-- Decimal digit test. -/
def isDigit (c : Byte) : Bool := decide (48 ≤ c.val) && decide (c.val ≤ 57)

/-- Drop leading digits. -/
def skipDigits : Bytes → Bytes
  | [] => []
  | c :: t => if isDigit c then skipDigits t else c :: t

/-- The value of four hexadecimal digits, `getu4` without its `\u` prefix. -/
def hex4 (a b c d : Byte) : Option Nat :=
  if url.ishex a && url.ishex b && url.ishex c && url.ishex d then
    some (url.unhex a * 4096 + url.unhex b * 256 + url.unhex c * 16 + url.unhex d)
  else none

/-- The call `getu4(s)`: the code unit of a leading `\uXXXX`, if there is one. -/
def getu4 : Bytes → Option Nat
  | e :: u :: a :: b :: c :: d :: _ =>
    if e.val = 92 ∧ u.val = 117 then hex4 a b c d else none
  | _ => none

/-- One step of `unquoteBytes` inside a string literal: the bytes written for the item at the
head of the input and the number of input bytes the item takes; `none` where the scanner rejects
the input (a control byte, a bad escape). Raw bytes that are not UTF-8 and unpaired surrogate
escapes are coerced to U+FFFD. -/
def unquoteStep (s : Bytes) : Option (Bytes × Nat) :=
  match s with
  | [] => none
  | c :: t =>
    if c.val < 32 then none
    else if c.val = 92 then
      match t with
      | [] => none
      | e :: t1 =>
        if e.val = 117 then
          match t1 with
          | a :: b :: c1 :: d :: t2 =>
            match hex4 a b c1 d with
            | none => none
            | some rr =>
              if 0xD800 ≤ rr ∧ rr < 0xE000 then
                match getu4 t2 with
                | some rr1 =>
                  if rr < 0xDC00 ∧ 0xDC00 ≤ rr1 ∧ rr1 < 0xE000 then
                    some (utf8.EncodeRune ((rr - 0xD800) * 1024 + (rr1 - 0xDC00) + 0x10000), 12)
                  else some (utf8.EncodeRune utf8.RuneError, 6)
                | none => some (utf8.EncodeRune utf8.RuneError, 6)
              else some (utf8.EncodeRune rr, 6)
          | _ => none
        else if e.val = 34 ∨ e.val = 92 ∨ e.val = 47 then some ([e], 2)
        else if e.val = 98 then some ([Fin.ofNat 8], 2)
        else if e.val = 102 then some ([Fin.ofNat 12], 2)
        else if e.val = 110 then some ([Fin.ofNat 10], 2)
        else if e.val = 114 then some ([Fin.ofNat 13], 2)
        else if e.val = 116 then some ([Fin.ofNat 9], 2)
        else none
    else if c.val < 128 then some ([c], 1)
    else some (utf8.EncodeRune (utf8.DecodeRune (c :: t)).1, (utf8.DecodeRune (c :: t)).2)

/-- Scan a string literal past its opening quote and unquote it: the decoded text and the input
after the closing quote (`fuel` bounds the number of items). -/
def parseString : Nat → Bytes → Option (Bytes × Bytes)
  | 0, _ => none
  | fuel + 1, s =>
    match s with
    | [] => none
    | c :: t =>
      if c.val = 34 then some ([], t)
      else
        match unquoteStep (c :: t) with
        | none => none
        | some step =>
          (parseString fuel ((c :: t).drop step.2)).map (fun r => (step.1 ++ r.1, r.2))

/-- Scan a number literal; the input after it. -/
def parseNumber (s : Bytes) : Option Bytes :=
  let s1 := match s with
    | c :: t => if c.val = 45 then t else s
    | [] => s
  let afterInt : Option Bytes := match s1 with
    | c :: t => if c.val = 48 then some t else if isDigit c then some (skipDigits t) else none
    | [] => none
  match afterInt with
  | none => none
  | some s2 =>
    let afterFrac : Option Bytes := match s2 with
      | c :: t =>
        if c.val = 46 then
          match t with
          | d :: t' => if isDigit d then some (skipDigits t') else none
          | [] => none
        else some s2
      | [] => some s2
    match afterFrac with
    | none => none
    | some s3 =>
      match s3 with
      | c :: t =>
        if c.val = 101 ∨ c.val = 69 then
          let t1 := match t with
            | g :: t' => if g.val = 43 ∨ g.val = 45 then t' else t
            | [] => t
          match t1 with
          | d :: t' => if isDigit d then some (skipDigits t') else none
          | [] => none
        else some s3
      | [] => some s3

/-- Strip a literal word from the front of the input. -/
def stripPrefix : Bytes → Bytes → Option Bytes
  | [], s => some s
  | _ :: _, [] => none
  | p :: ps, c :: t => if p = c then stripPrefix ps t else none

mutual

/-- Scan one value at nesting `depth`, leading white space skipped (`fuel` bounds the work). -/
def parseValue : Nat → Nat → Bytes → Option (Value × Bytes)
  | 0, _, _ => none
  | fuel + 1, depth, s =>
    match skipSpace s with
    | [] => none
    | c :: t =>
      if c.val = 34 then (parseString (t.length + 1) t).map (fun r => (Value.string r.1, r.2))
      else if c.val = 123 then
        if maxNestingDepth < depth + 1 then none
        else
          match skipSpace t with
          | c1 :: t1 =>
            if c1.val = 125 then some (Value.object [], t1)
            else (parseMembers fuel (depth + 1) (c1 :: t1)).map (fun r => (Value.object r.1, r.2))
          | [] => none
      else if c.val = 91 then
        if maxNestingDepth < depth + 1 then none
        else
          match skipSpace t with
          | c1 :: t1 =>
            if c1.val = 93 then some (Value.array [], t1)
            else (parseElements fuel (depth + 1) (c1 :: t1)).map (fun r => (Value.array r.1, r.2))
          | [] => none
      else if c.val = 116 then (stripPrefix (str "rue") t).map (fun r => (Value.bool true, r))
      else if c.val = 102 then (stripPrefix (str "alse") t).map (fun r => (Value.bool false, r))
      else if c.val = 110 then (stripPrefix (str "ull") t).map (fun r => (Value.null, r))
      else (parseNumber (c :: t)).map (fun r => (Value.number, r))

/-- Scan the members of an object up to its closing brace; the input starts at a key. -/
def parseMembers : Nat → Nat → Bytes → Option (List (Bytes × Value) × Bytes)
  | 0, _, _ => none
  | fuel + 1, depth, s =>
    match skipSpace s with
    | c :: t =>
      if c.val = 34 then
        match parseString (t.length + 1) t with
        | none => none
        | some (key, s1) =>
          match skipSpace s1 with
          | c1 :: t1 =>
            if c1.val = 58 then
              match parseValue fuel depth t1 with
              | none => none
              | some (v, s2) =>
                match skipSpace s2 with
                | c2 :: t2 =>
                  if c2.val = 125 then some ([(key, v)], t2)
                  else if c2.val = 44 then
                    (parseMembers fuel depth t2).map (fun r => ((key, v) :: r.1, r.2))
                  else none
                | [] => none
            else none
          | [] => none
      else none
    | [] => none

/-- Scan the elements of an array up to its closing bracket. -/
def parseElements : Nat → Nat → Bytes → Option (List Value × Bytes)
  | 0, _, _ => none
  | fuel + 1, depth, s =>
    match parseValue fuel depth s with
    | none => none
    | some (v, s1) =>
      match skipSpace s1 with
      | c :: t =>
        if c.val = 93 then some ([v], t)
        else if c.val = 44 then (parseElements fuel depth t).map (fun r => (v :: r.1, r.2))
        else none
      | [] => none

end

/-- The syntax check and scan of a whole document: one value, white space around it. -/
def parse (data : Bytes) : Option Value :=
  match parseValue (data.length + 1) 0 data with
  | some (v, rest) => if skipSpace rest = [] then some v else none
  | none => none

/-- The call `foldName(key)` as far as ASCII names can tell: ASCII letters go to upper case, the
long s (U+017F) and the Kelvin sign (U+212A), whose case orbits hold an ASCII letter, go to `S`
and `K`; other bytes stay. -/
def foldName : Bytes → Bytes
  | [] => []
  | [c] => if 97 ≤ c.val ∧ c.val ≤ 122 then [Fin.ofNat (c.val - 32)] else [c]
  | [c, d] =>
    if 97 ≤ c.val ∧ c.val ≤ 122 then Fin.ofNat (c.val - 32) :: foldName [d]
    else if c.val = 197 ∧ d.val = 191 then [Fin.ofNat 83]
    else c :: foldName [d]
  | c :: d :: e :: t =>
    if 97 ≤ c.val ∧ c.val ≤ 122 then Fin.ofNat (c.val - 32) :: foldName (d :: e :: t)
    else if c.val = 197 ∧ d.val = 191 then Fin.ofNat 83 :: foldName (e :: t)
    else if c.val = 226 ∧ d.val = 132 ∧ e.val = 170 then Fin.ofNat 75 :: foldName t
    else c :: foldName (d :: e :: t)

/-- Whether an object key selects the struct field tagged `name`: exactly, or else folded. -/
def keyMatches (name key : Bytes) : Bool :=
  decide (key = name) || decide (foldName key = foldName name)

/-- The body of `appendString` with HTML escaping on: the text between the quotes. -/
def escapeString : Nat → Bytes → Bytes
  | 0, _ => []
  | _ + 1, [] => []
  | fuel + 1, b :: t =>
    if b.val < 128 then
      if b.val = 92 ∨ b.val = 34 then Fin.ofNat 92 :: b :: escapeString fuel t
      else if b.val = 8 then str "\\b" ++ escapeString fuel t
      else if b.val = 12 then str "\\f" ++ escapeString fuel t
      else if b.val = 10 then str "\\n" ++ escapeString fuel t
      else if b.val = 13 then str "\\r" ++ escapeString fuel t
      else if b.val = 9 then str "\\t" ++ escapeString fuel t
      else if b.val < 32 ∨ b.val = 60 ∨ b.val = 62 ∨ b.val = 38 then
        str "\\u00" ++ [uuid.hexDigitLower (b.val / 16), uuid.hexDigitLower (b.val % 16)]
          ++ escapeString fuel t
      else b :: escapeString fuel t
    else
      let dr := utf8.DecodeRune (b :: t)
      if dr.1 = utf8.RuneError ∧ dr.2 = 1 then str "\\ufffd" ++ escapeString fuel t
      else if dr.1 = 0x2028 then str "\\u2028" ++ escapeString fuel (t.drop (dr.2 - 1))
      else if dr.1 = 0x2029 then str "\\u2029" ++ escapeString fuel (t.drop (dr.2 - 1))
      else (b :: t).take dr.2 ++ escapeString fuel (t.drop (dr.2 - 1))

/-- A Go string as a JSON string literal (`appendString`). -/
def quote (s : Bytes) : Bytes := str "\"" ++ escapeString (s.length + 1) s ++ str "\""

end json

/-! ## `context` and `net/http`, as far as the package reads them -/

/-- A `context.Context`: its deadline, if it has one (a time in nanoseconds). -/
structure Context where
  deadline : Option Int
  deriving DecidableEq, Repr

/-- The call `context.WithTimeout(parent, timeout)` made at time `now`: the earlier of the
parent's deadline and `now + timeout`. -/
def Context.WithTimeout (parent : Context) (now timeout : Int) : Context :=
  match parent.deadline with
  | some cur => if cur < now + timeout then parent else ⟨some (now + timeout)⟩
  | none => ⟨some (now + timeout)⟩

namespace http

/-- An incoming `http.Request`: its URL and its body stream. -/
structure Request where
  URL : url.URL
  Body : io.Reader
  deriving DecidableEq, Repr

end http

/-! ## Package `tosync` -/

namespace tosync

/-- The sentinel `ErrInvalidSign`. -/
def ErrInvalidSign : GoError := GoError.new (str "invalid sign")

/-- A call to a collaborator outside the package, in the order the calls are made. -/
inductive Event where
  /-- The request's `SetCallbackURL(url)`. -/
  | SetCallbackURL (url : Bytes)
  /-- The user's submission function, with the context and the callback URL it sees. -/
  | Async (ctx : Context) (callbackURL : Bytes)
  /-- The Messager's `Pub(ctx, data)`. -/
  | Pub (data : Bytes)
  /-- The Messager's `Ack(ctx, msgID)`. -/
  | Ack (msgID : Bytes)
  deriving DecidableEq, Repr

/-- The interface `ReqI` over a request whose state has type `σ`. -/
structure ReqI (σ : Type) where
  SetCallbackURL : σ → Bytes → σ
  GetCallbackURL : σ → Bytes

/-- The interface `Messager` over a messager whose state has type `μ`. -/
structure Messager (μ : Type) where
  Pub : μ → Bytes → Except GoError Bytes × μ
  DupSub : μ → Except GoError (List (Bytes × Bytes)) × μ
  Ack : μ → Bytes → Option GoError × μ

/-- The struct `CallbackInfoParsed`. -/
structure CallbackInfoParsed where
  MsgID : Bytes
  Body : Bytes
  deriving DecidableEq, Repr

/-- The struct `WaiterInfo`; `ResultC` names a channel of the channel store. -/
structure WaiterInfo where
  AsyncID : Bytes
  State : Bytes
  ResultC : Nat
  deriving DecidableEq, Repr

/-- The struct `CallbackInfo`, the envelope put on the stream. -/
structure CallbackInfo where
  AsyncID : Bytes
  Base64Body : Bytes
  deriving DecidableEq, Repr

/-- The channels made so far, each with the values it buffers (oldest first). Every channel of
the package is made by `make(chan *CallbackInfoParsed, 1)`. -/
abbrev Chans := List (List CallbackInfoParsed)

/-- The struct `Client` (its lock apart). -/
structure Client (μ : Type) where
  messager : μ
  waiters : GoMap WaiterInfo
  callbackURL : Bytes
  maxSize : Int
  timeout : Int

/-- The struct `Option` of per-call options; `Client = none` is the nil client. -/
structure CallOption (μ : Type) where
  Client : Option (Client μ)
  Timeout : Int

/-- The call `json.Marshal(callbackInfo)`; it cannot fail on this struct. -/
def marshalCallbackInfo (info : CallbackInfo) : Bytes :=
  str "\x7b\"async_id\":" ++ json.quote info.AsyncID ++ str ",\"base64_body\":"
    ++ json.quote info.Base64Body ++ str "\x7d"

/-- Store the members of a JSON object into a `CallbackInfo`, as `decodeState.object` does: a
string sets the field its key selects, `null` leaves it, any other value is a type error that is
remembered while decoding goes on; members with other keys are skipped. -/
def storeMembers : List (Bytes × json.Value) → CallbackInfo → Bool → CallbackInfo × Bool
  | [], info, bad => (info, bad)
  | (key, v) :: rest, info, bad =>
    if json.keyMatches (str "async_id") key then
      match v with
      | .string s => storeMembers rest { info with AsyncID := s } bad
      | .null => storeMembers rest info bad
      | _ => storeMembers rest info true
    else if json.keyMatches (str "base64_body") key then
      match v with
      | .string s => storeMembers rest { info with Base64Body := s } bad
      | .null => storeMembers rest info bad
      | _ => storeMembers rest info true
    else storeMembers rest info bad

/-- The call `json.Unmarshal(buf, callbackInfo)` on a fresh `CallbackInfo`. -/
def unmarshalCallbackInfo (buf : Bytes) : Except GoError CallbackInfo :=
  match json.parse buf with
  | none => .error (GoError.ext "encoding/json: SyntaxError")
  | some .null => .ok ⟨[], []⟩
  | some (.object members) =>
    if (storeMembers members ⟨[], []⟩ false).2 then
      .error (GoError.ext "encoding/json: UnmarshalTypeError")
    else .ok (storeMembers members ⟨[], []⟩ false).1
  | some _ => .error (GoError.ext "encoding/json: UnmarshalTypeError")

/-- What `Client.CallbackHandler` leaves behind. -/
structure HandlerResult (μ : Type) where
  err : Option GoError
  client : Client μ
  trace : List Event

/-- The method `(*Client).CallbackHandler(ctx, r)`. -/
def Client.CallbackHandler {μ : Type} (M : Messager μ) (c : Client μ) (r : http.Request) :
    HandlerResult μ :=
  let asyncID := r.URL.Query.Get (str "async_id")
  let sign := r.URL.Query.Get (str "sign")
  let random := r.URL.Query.Get (str "random")
  if !signature.CheckSign asyncID random sign then ⟨some ErrInvalidSign, c, []⟩
  else
    match io.ReadAllLimit r.Body (wrapInt64 (c.maxSize + 1)) with
    | .error e => ⟨some (GoError.wrap e (str "read body")), c, []⟩
    | .ok buf =>
      if (buf.length : Int) > c.maxSize then
        ⟨some (GoError.new (str "body limited to " ++ fmt.d c.maxSize ++ str " bytes")), c, []⟩
      else
        let infoBuf := marshalCallbackInfo ⟨asyncID, base64.EncodeToString buf⟩
        match M.Pub c.messager infoBuf with
        | (.error e, m) =>
          ⟨some (GoError.wrap e (str "pub")), { c with messager := m }, [Event.Pub infoBuf]⟩
        | (.ok _, m) => ⟨none, { c with messager := m }, [Event.Pub infoBuf]⟩

/-- The package function `CallbackHandler(ctx, r)` on the default client. -/
def CallbackHandler {μ : Type} (M : Messager μ) (defaultClient : Option (Client μ))
    (r : http.Request) : Option GoError × Option (Client μ) × List Event :=
  match defaultClient with
  | none => (some (GoError.new (str "client not inited")), none, [])
  | some client =>
    ((client.CallbackHandler M r).err, some (client.CallbackHandler M r).client,
      (client.CallbackHandler M r).trace)

/-- The method `(*Client).processMsg(msgID, buf)`: the note it returns, its error and the
channels afterwards. The send in `select` with a `default` goes through exactly when the
one-slot buffer is empty. -/
def Client.processMsg {μ : Type} (c : Client μ) (chans : Chans) (msgID buf : Bytes) :
    (Bytes × Option GoError) × Chans :=
  match unmarshalCallbackInfo buf with
  | .error e => (([], some (GoError.wrap e (str "unmarshal callbackInfo"))), chans)
  | .ok callbackInfo =>
    match base64.DecodeString callbackInfo.Base64Body with
    | none =>
      (([], some (GoError.wrap (GoError.ext "encoding/base64: CorruptInputError")
        (str "decode base64 body"))), chans)
    | some callbackBody =>
      match GoMap.lookup c.waiters callbackInfo.AsyncID with
      | none => ((str "AsyncID not registed in this client", none), chans)
      | some waitInfo =>
        match chans.get? waitInfo.ResultC with
        | some [] => ((str "success", none), chans.set waitInfo.ResultC [⟨msgID, callbackBody⟩])
        | _ => ((str "duplicated msg and channel full", none), chans)

/-- What `Client.Regist` leaves behind. -/
structure RegistResult (σ μ : Type) where
  ret : Ret WaiterInfo
  client : Client μ
  chans : Chans
  req : σ
  trace : List Event

/-- The method `(*Client).Regist(req)`; `rnd` feeds `uuid.NewString()` and `random` is the nonce
drawn by `GenSign`. -/
def Client.Regist {σ μ : Type} (syn : url.Syntax) (R : ReqI σ) (c : Client μ) (chans : Chans)
    (req : σ) (rnd : Bytes) (random : Int) : RegistResult σ μ :=
  if R.GetCallbackURL req ≠ [] then
    ⟨.error (GoError.new (str "callbackURL should be empty")), c, chans, req, []⟩
  else
    let asyncID := uuid.NewString rnd
    let gen := signature.GenSign asyncID random
    match url.Parse syn c.callbackURL with
    | .error e =>
      ⟨.error (GoError.wrap e (str "parse callbackURL " ++ c.callbackURL)), c, chans, req, []⟩
    | .ok newURL =>
      let values := ((newURL.Query.Add (str "random") (fmt.d gen.1)).Add (str "sign") gen.2).Add
        (str "async_id") asyncID
      let newURLStr := ({ newURL with RawQuery := values.Encode } : url.URL).String
      let req1 := R.SetCallbackURL req newURLStr
      if R.GetCallbackURL req1 ≠ newURLStr then
        ⟨.error (GoError.new (str "callbackURL should be " ++ newURLStr ++ str " but "
          ++ R.GetCallbackURL req1)), c, chans, req1, [Event.SetCallbackURL newURLStr]⟩
      else
        let info : WaiterInfo := ⟨asyncID, [], chans.length⟩
        ⟨.ok info, { c with waiters := GoMap.insert c.waiters asyncID info }, chans ++ [[]],
          req1, [Event.SetCallbackURL newURLStr]⟩

/-- The method `(*Client).Release(info)`. -/
def Client.Release {μ : Type} (c : Client μ) (info : WaiterInfo) : Client μ :=
  { c with waiters := GoMap.delete c.waiters info.AsyncID }

/-- The function `checkType[T]()`. On an interface type `reflect.TypeOf(null)` is nil and the
call `tt.Kind()` on it panics. -/
def checkType (T : reflect.GoType) : Ret Unit :=
  match reflect.TypeOfZero T with
  | none => .panic (str "runtime error: invalid memory address or nil pointer dereference")
  | some tt =>
    if tt.Kind = reflect.Kind.Pointer then
      match tt.Elem with
      | none => .panic (str "reflect: Elem of invalid type")
      | some el =>
        match el.Kind with
        | .Map | .Slice | .Array | .Struct => .ok ()
        | _ => .error (GoError.new (str "unexpected type: " ++ str "*" ++ el.String))
    else
      match tt.Kind with
      | .Map | .Slice | .Array | .Struct => .ok ()
      | _ => .error (GoError.new (str "unexpected type: " ++ tt.String))

/-- The function `mergeOptions(opts...)`, folded over the list with the option built so far; a
nil `*Option` in the list (`none`) is dereferenced and panics. -/
def mergeOptionsFrom {μ : Type} : List (Option (CallOption μ)) → CallOption μ → Ret (CallOption μ)
  | [], opt => .ok opt
  | none :: _, _ =>
    .panic (str "runtime error: invalid memory address or nil pointer dereference")
  | some o :: rest, opt =>
    mergeOptionsFrom rest
      ⟨if o.Client.isSome then o.Client else opt.Client,
       if o.Timeout > 0 then o.Timeout else opt.Timeout⟩

/-- The function `mergeOptions(opts...)`. -/
def mergeOptions {μ : Type} (opts : List (Option (CallOption μ))) : Ret (CallOption μ) :=
  mergeOptionsFrom opts ⟨none, 0⟩

/-- What the environment decides during one `ToSync` call. -/
structure Env where
  /-- The time at which the deadline is installed. -/
  now : Int
  /-- The 16 bytes `uuid.NewString()` reads. -/
  rnd : Bytes
  /-- The nonce `rand.Int63n(10000000)` returns. -/
  random : Int
  /-- The stream messages `(msgID, buf)` that the Listener hands to `processMsg` on this client
  between the submission and the moment the `select` wakes up. -/
  deliveries : List (Bytes × Bytes)
  /-- The value of `ctx.Err()` when the `select` wakes up (`none`: the context is not done). -/
  ctxErr : Option GoError
  /-- The choice of the scheduler when both cases of the `select` are ready. -/
  preferDone : Bool

/-- What `ToSync` leaves behind: the decoded data (`none` is the zero value), how the call ended,
the request, the client it worked on (`none`: there was none), the channels and the calls made. -/
structure ToSyncResult (σ μ V : Type) where
  data : Option V
  ret : Ret Unit
  req : σ
  client : Option (Client μ)
  chans : Chans
  trace : List Event

/-- How the `select` of `ToSync` wakes up. -/
inductive Wake where
  /-- The case `<-ctx.Done()`, with the value of `ctx.Err()`. -/
  | done (err : GoError)
  /-- The case `<-waitInfo.ResultC`, with the value received. -/
  | recv (callbackInfo : CallbackInfoParsed)
  deriving DecidableEq, Repr

/-- The `select` of `ToSync`: `ready` is the value waiting in the channel, `ctxErr` the error of
a context that is done. With neither ready the call sleeps until the installed deadline passes;
with both ready the scheduler picks. -/
def wake (ready : Option CallbackInfoParsed) (ctxErr : Option GoError) (preferDone : Bool) :
    Wake :=
  match ready, ctxErr with
  | none, none => .done (GoError.ext "context deadline exceeded")
  | none, some e => .done e
  | some v, none => .recv v
  | some v, some e => if preferDone then .done e else .recv v

/-- Run the Listener's `processMsg` over a batch of stream messages, one call after the other:
the results of the calls and the channels afterwards. -/
def Client.processMsgs {μ : Type} (c : Client μ) :
    Chans → List (Bytes × Bytes) → List (Bytes × Option GoError) × Chans
  | chans, [] => ([], chans)
  | chans, (msgID, buf) :: rest =>
    ((c.processMsg chans msgID buf).1 :: (processMsgs c (c.processMsg chans msgID buf).2 rest).1,
      (processMsgs c (c.processMsg chans msgID buf).2 rest).2)

/-- The body carried by a well-formed envelope addressed to `asyncID`: `buf` decodes as a
`CallbackInfo` with that correlation ID and a base64 body that decodes (`none` otherwise). -/
def envelopeFor (asyncID buf : Bytes) : Option Bytes :=
  match unmarshalCallbackInfo buf with
  | .ok info => if info.AsyncID = asyncID then base64.DecodeString info.Base64Body else none
  | .error _ => none

/-- The generic function `ToSync[Req, CallbackData](ctx, req, async, opts...)`. `decode` stands
for `json.Unmarshal` into a fresh `CallbackData`; the deferred `Release` runs on every path that
follows a successful `Regist`. -/
def ToSync {σ μ V : Type} (syn : url.Syntax) (M : Messager μ) (R : ReqI σ)
    (CallbackData : reflect.GoType) (decode : Bytes → Except GoError V)
    (defaultClient : Option (Client μ)) (chans : Chans) (env : Env)
    (ctx : Context) (req : σ) (async : Context → σ → σ × Option GoError)
    (opts : List (Option (CallOption μ))) : ToSyncResult σ μ V :=
  match mergeOptions opts with
  | .panic t => ⟨none, .panic t, req, none, chans, []⟩
  | .error e => ⟨none, .error e, req, none, chans, []⟩
  | .ok opt =>
    match (if opt.Client.isSome then opt.Client else defaultClient) with
    | none => ⟨none, .error (GoError.new (str "client not inited")), req, none, chans, []⟩
    | some client =>
      let timeout := if opt.Timeout > 0 then opt.Timeout else client.timeout
      let ctx1 := ctx.WithTimeout env.now timeout
      match checkType CallbackData with
      | .panic t => ⟨none, .panic t, req, some client, chans, []⟩
      | .error e =>
        ⟨none, .error (GoError.wrap e (str "check CallbackData type")), req, some client, chans, []⟩
      | .ok _ =>
        let reg := client.Regist syn R chans req env.rnd env.random
        match reg.ret with
        | .panic t => ⟨none, .panic t, reg.req, some reg.client, reg.chans, reg.trace⟩
        | .error e =>
          ⟨none, .error (GoError.wrap e (str "regist req")), reg.req, some reg.client, reg.chans,
            reg.trace⟩
        | .ok waitInfo =>
          let sub := async ctx1 reg.req
          let trace1 := reg.trace ++ [Event.Async ctx1 (R.GetCallbackURL reg.req)]
          match sub.2 with
          | some e =>
            ⟨none, .error (GoError.wrap e (str "exec async func")), sub.1,
              some (reg.client.Release waitInfo), reg.chans, trace1⟩
          | none =>
            let chans1 := (reg.client.processMsgs reg.chans env.deliveries).2
            match wake ((chans1.getD waitInfo.ResultC []).head?) env.ctxErr env.preferDone with
            | .done e =>
              ⟨none, .error e, sub.1, some (reg.client.Release waitInfo), chans1, trace1⟩
            | .recv callbackInfo =>
              let chans2 := chans1.set waitInfo.ResultC ((chans1.getD waitInfo.ResultC []).tail)
              let ack := M.Ack reg.client.messager callbackInfo.MsgID
              let client2 := ({ reg.client with messager := ack.2 } : Client μ).Release waitInfo
              let trace2 := trace1 ++ [Event.Ack callbackInfo.MsgID]
              match ack.1 with
              | some e =>
                ⟨none, .error (GoError.wrap e (str "ack")), sub.1, some client2, chans2, trace2⟩
              | none =>
                match decode callbackInfo.Body with
                | .error e =>
                  ⟨none, .error (GoError.wrap e (str "unmarshal callback body")), sub.1,
                    some client2, chans2, trace2⟩
                | .ok v => ⟨some v, .ok (), sub.1, some client2, chans2, trace2⟩

/-- The request type `TestReq` of the package tests. -/
structure TestReq where
  CallbackURL : Bytes
  deriving DecidableEq, Repr

/-- The method `(*TestReq).SetCallbackURL(url)`. -/
def TestReq.SetCallbackURL (_t : TestReq) (url : Bytes) : TestReq := ⟨url⟩

/-- The method `(*TestReq).GetCallbackURL()`. -/
def TestReq.GetCallbackURL (t : TestReq) : Bytes := t.CallbackURL

/-- The type `*TestReq` as a `ReqI`. -/
def TestReq.reqI : ReqI TestReq := ⟨TestReq.SetCallbackURL, TestReq.GetCallbackURL⟩

/-- A client set up as the package tests set it up: callback limit 10 bytes, timeout 10 s. -/
def testClient : Client (List Bytes) :=
  ⟨[], [], str "http://localhost/callback", 10, 10000000000⟩

/-- The environment of a call in which nothing is delivered and the context is not cancelled. -/
def quietEnv : Env := ⟨0, List.replicate 16 0, 1, [], none, false⟩

/-- The query of the test's signed callback: correlation ID "async_id", nonce 1 and the token
`GenSign` gives for them. -/
def signedTestQuery : Bytes :=
  str ("async_id=async_id&random=1&sign="
    ++ "BB213A00BDA4307585D00BC8291E993E90A9F05A6D6D9D8F0BB8BA4BA64C49AB"
    ++ "6787277C4EF41ACF112A7B92A57681A0D0FEDD98E012878A8F6EFD9C3B6AB13F")

/-- The test's oversized callback: 11 bytes posted with a valid signature. -/
def oversizedCallback : http.Request :=
  ⟨⟨str "http://localhost/callback", false, signedTestQuery, []⟩, ⟨str "12345678901", none⟩⟩

/-- The waiter that `Regist` makes on `testClient` from 16 zero bytes of entropy. -/
def testWaiter : WaiterInfo := ⟨str "00000000-0000-4000-8000-000000000000", [], 0⟩

/-- The test client with `testWaiter` registered. -/
def waitingClient : Client (List Bytes) :=
  { testClient with waiters := [(testWaiter.AsyncID, testWaiter)] }

/-- An envelope addressed to `testWaiter` that carries the body `{"msg":1}`. -/
def testEnvelope : Bytes :=
  str ("\x7b\"async_id\":\"00000000-0000-4000-8000-000000000000\","
    ++ "\"base64_body\":\"eyJtc2ciOjF9\"\x7d")

/-- The client with `testWaiter` registered and the largest limit an `int64` holds. -/
def maxLimitClient : Client (List Bytes) :=
  { waitingClient with maxSize := 9223372036854775807 }

/-- A callback signed for `testWaiter` (nonce 1) that posts the one byte "A". -/
def signedWaiterCallback : http.Request :=
  ⟨⟨str "http://localhost/callback", false,
      str ("async_id=00000000-0000-4000-8000-000000000000&random=1&sign="
        ++ "67BBFD92B6EF5AB61697CCA3F86B591EB3FBAD071D513BA388106683A04E6847"
        ++ "20CD80CC8E9332F70121F7946F4FD2914D602CC3D03C9E4C10753AEDD79B690A"), []⟩,
    ⟨str "A", none⟩⟩

/-- A callback signed for `testWaiter` (nonce 1) whose body has exactly 9223372036854775807
bytes, the largest `maxSize` there is. -/
def fullSizeCallback : http.Request :=
  ⟨signedWaiterCallback.URL, ⟨List.replicate 9223372036854775807 (Fin.ofNat 65), none⟩⟩

/-- A Messager for closed examples: it keeps the payloads it is given and names each one by its
position in the stream. -/
def logMessager : Messager (List Bytes) :=
  ⟨fun m data => (.ok (fmt.d m.length ++ str "-0"), m ++ [data]),
   fun m => (.ok [], m),
   fun m _ => (none, m)⟩

end tosync

namespace url

/-- Lower-case letter, digit or `/`. -/
def isPlain (b : Byte) : Bool :=
  (decide (97 ≤ b.val) && decide (b.val ≤ 122)) || (decide (48 ≤ b.val) && decide (b.val ≤ 57))
    || decide (b.val = 47)

/-- A `Syntax` for closed examples. It reads the heads `http://` followed by lower-case letters,
digits and `/` (not starting with `/`) and the fragments of lower-case letters and digits, which
`net/url` writes back unchanged, and it reads nothing else. -/
def plain : Syntax :=
  ⟨fun pre =>
      if (pre.take 7 = str "http://" ∧ (pre.drop 7).all isPlain
          ∧ ((pre.drop 7).head?.map (fun b => decide (b.val ≠ 47))) = some true) then .ok pre
      else .error (GoError.ext "net/url: head outside the plain syntax"),
   fun frag =>
      if frag.all (fun b => isPlain b && decide (b.val ≠ 47)) then .ok frag
      else .error (GoError.ext "net/url: fragment outside the plain syntax")⟩

end url

/-! ## Vocabulary of the proofs about query strings -/

/-- The bytes `QueryEscape` writes: letters, digits and `-`, `_`, `.`, `~`, `+`, `%`. -/
def url.isEscaped (b : Byte) : Bool :=
  !url.shouldEscape b || decide (b.val = 43) || decide (b.val = 37)

/-- What `QueryEscape` writes for one byte. -/
def url.escapeByte (c : Byte) : Bytes :=
  if c.val = 32 then [Fin.ofNat 43]
  else if url.shouldEscape c then
    [Fin.ofNat 37, fmt.hexDigitUpper (c.val / 16), fmt.hexDigitUpper (c.val % 16)]
  else [c]

/-- The pairs of a `Values`, key by key, in the order `Encode` writes them. -/
def url.pairsOf (v : url.Values) : List (Bytes × Bytes) :=
  v.flatMap (fun e => e.2.map (fun x => (e.1, x)))

/-- One `key=value` piece of `Encode`. -/
def url.encPair (p : Bytes × Bytes) : Bytes :=
  url.QueryEscape p.1 ++ [Fin.ofNat 61] ++ url.QueryEscape p.2

/-- The pieces after the first one, each behind its `&`. -/
def url.tailJoin (ps : List (Bytes × Bytes)) : Bytes :=
  ps.flatMap (fun p => Fin.ofNat 38 :: url.encPair p)

/-- The buffer step of `Encode`. -/
def url.encStep (buf : Bytes) (p : Bytes × Bytes) : Bytes :=
  (if buf.length > 0 then buf ++ [Fin.ofNat 38] else buf) ++ url.encPair p

/-- Add pairs to a `Values` one after the other, as the loop of `parseQuery` does. -/
def url.addAll (m : url.Values) (ps : List (Bytes × Bytes)) : url.Values :=
  ps.foldl (fun m p => url.Values.Add m p.1 p.2) m

/-- The value of the first pair with key `k`. -/
def url.firstVal : List (Bytes × Bytes) → Bytes → Option Bytes
  | [], _ => none
  | p :: ps, k => if p.1 = k then some p.2 else url.firstVal ps k

/-- The bytes `Encode` writes: those of `QueryEscape`, `&` and `=`. -/
def url.isQueryByte (b : Byte) : Bool :=
  url.isEscaped b || decide (b.val = 38) || decide (b.val = 61)

/-! ## Vocabulary of the proofs about envelopes -/

/-- The bytes that `appendString` writes as they are and the scanner reads as they are: ASCII
from the space on, except `"`, `\`, `<`, `>` and `&`. -/
def json.isPlain (c : Byte) : Bool :=
  decide (32 ≤ c.val) && decide (c.val < 128) && !decide (c.val = 34) && !decide (c.val = 92)
    && !decide (c.val = 60) && !decide (c.val = 62) && !decide (c.val = 38)

/-! ## Vocabulary of the statements about result shapes -/

/-- The kind of a result type after at most one leading pointer level is removed (`Invalid` for
a pointer type without element type, which Go does not have). -/
def tosync.resultKind (T : reflect.GoType) : reflect.Kind :=
  if T.Kind = reflect.Kind.Pointer then (T.Elem.map reflect.GoType.Kind).getD reflect.Kind.Invalid
  else T.Kind

/-- The kinds `checkType` accepts: map, slice, array and struct. -/
def tosync.acceptedKind (k : reflect.Kind) : Bool :=
  decide (k = reflect.Kind.Map) || decide (k = reflect.Kind.Slice)
    || decide (k = reflect.Kind.Array) || decide (k = reflect.Kind.Struct)

/-- The keys of a map stand in strictly increasing order (bytewise, as Go orders strings). -/
def GoMap.Ordered {V : Type} (m : GoMap V) : Prop :=
  m.Pairwise (fun a b => a.1 < b.1)

/-! ## `fmt.Sscanf`, as far as `ParseMsgID` uses it -/

namespace fmt

/-- The test `isSpace(r)` of package `fmt`, read off its table `space`. -/
def isSpace (r : Nat) : Bool :=
  (decide (0x0009 ≤ r) && decide (r ≤ 0x000d)) || decide (r = 0x0020) || decide (r = 0x0085)
    || decide (r = 0x00a0) || decide (r = 0x1680) || (decide (0x2000 ≤ r) && decide (r ≤ 0x200a))
    || (decide (0x2028 ≤ r) && decide (r ≤ 0x2029)) || decide (r = 0x202f) || decide (r = 0x205f)
    || decide (r = 0x3000)

/-- The method `(*ss).SkipSpace()` inside `Sscanf`, where a newline is not a space: the input
left after the leading spaces, or the error `unexpected newline`. A carriage return that a newline
follows is passed over, and the newline then stops the scan. `fuel` bounds the number of runes. -/
def SkipSpace : Nat → Bytes → Except GoError Bytes
  | 0, s => .ok s
  | fuel + 1, s =>
    match s with
    | [] => .ok []
    | _ :: _ =>
      let r := (utf8.DecodeRune s).1
      let t := s.drop (utf8.DecodeRune s).2
      if r = 13 ∧ t.head? = some (Fin.ofNat 10) then SkipSpace fuel t
      else if r = 10 then .error (GoError.new (str "unexpected newline"))
      else if !isSpace r then .ok s
      else SkipSpace fuel t

/-- The bytes `(*ss).scanNumber` accepts after verb `%d`: the decimal digits (`getBase` gives
`decimalDigits` for this verb). -/
def isNumberByte (c : Byte) : Bool := decide (48 ≤ c.val) && decide (c.val ≤ 57)

/-- Verb `%d` of `Sscanf` into an `int64`, `(*ss).scanInt(verb, 64)`: skip spaces, take one
optional sign, take the run of decimal digits that follows (`scanNumber`, which stops at the first
other byte), and hand sign and digits to `strconv.ParseInt(tok, 10, 64)`, which refuses a value
outside `int64`. At the end of the input `notEOF` gives `io.EOF`. Gives the number and the input
left. The scan is taken to stay below the width limit `hugeWid` of 2^30 runes. -/
def scanInt (s : Bytes) : Except GoError (Int × Bytes) :=
  match SkipSpace s.length s with
  | .error e => .error e
  | .ok [] => .error (GoError.ext "io.EOF")
  | .ok (c :: t) =>
    let signed := decide (c.val = 43) || decide (c.val = 45)
    let body := if signed then t else c :: t
    let tok := body.takeWhile isNumberByte
    if body = [] then .error (GoError.ext "io.EOF")
    else if tok = [] then .error (GoError.new (str "expected integer"))
    else
      let n : Int := ((tok.foldl (fun a b => a * 10 + (b.val - 48)) 0 : Nat) : Int)
      let v := if c.val = 45 then -n else n
      if v < -(2 : Int) ^ 63 ∨ (2 : Int) ^ 63 ≤ v then
        .error (GoError.ext "strconv.ParseInt: value out of range")
      else .ok (v, body.dropWhile isNumberByte)

/-- Verb `%t`. -/
def t (b : Bool) : Bytes := if b then str "true" else str "false"

/-- Verb `%v` on a `[]byte`: the bytes in decimal between brackets. -/
def vBytes (bs : Bytes) : Bytes :=
  str "[" ++ ((bs.map (fun b => d (b.val : Int))).intersperse (str " ")).flatten ++ str "]"

end fmt

/-! ## Package `internal/messager` -/

namespace messager

/-- The package variable `MsgRetainDur = time.Minute * 10`, in nanoseconds. -/
def MsgRetainDur : Int := 600000000000

/-- The package variable `ReadBlockDur = time.Second * 1`, in nanoseconds. -/
def ReadBlockDur : Int := 1000000000

/-- The struct `MsgID`; both fields are `int64`. -/
structure MsgID where
  MsTimestamp : Int
  Seq : Int
  deriving DecidableEq, Repr

/-- The method `(*MsgID).String()`: `fmt.Sprintf("%d-%d", m.MsTimestamp, m.Seq)`. -/
def MsgID.String (m : MsgID) : Bytes := fmt.d m.MsTimestamp ++ str "-" ++ fmt.d m.Seq

/-- The method `(*MsgID).Gt(v)`. -/
def MsgID.Gt (m v : MsgID) : Bool :=
  if m.MsTimestamp = v.MsTimestamp then decide (m.Seq > v.Seq)
  else decide (m.MsTimestamp > v.MsTimestamp)

/-- The method `(*MsgID).Add(t)`; `t` is a `time.Duration` in nanoseconds and
`t.Milliseconds()` rounds toward zero. -/
def MsgID.Add (m : MsgID) (t : Int) : MsgID :=
  let newTs := wrapInt64 (m.MsTimestamp + Int.tdiv t 1000000)
  if newTs ≤ 0 then ⟨0, 0⟩ else ⟨newTs, m.Seq⟩

/-- The function `ParseMsgID(s)`: `fmt.Sscanf(s, "%d-%d", &msTimestamp, &seq)`. The `-` of the
format is read with `mustReadRune`, which gives `io.ErrUnexpectedEOF` at the end of the input.
Input left after the second number is not looked at. -/
def ParseMsgID (s : Bytes) : Except GoError MsgID :=
  match fmt.scanInt s with
  | .error e => .error e
  | .ok (msTimestamp, rest) =>
    match rest with
    | [] => .error (GoError.ext "io.ErrUnexpectedEOF")
    | c :: rest1 =>
      if c.val ≠ 45 then .error (GoError.new (str "input does not match format"))
      else
        match fmt.scanInt rest1 with
        | .error e => .error e
        | .ok (seq, _) => .ok ⟨msTimestamp, seq⟩

/-- The request `redis.XAddArgs` (go-redis v9). `Values` is the map the entry is made of; the
package stores byte strings in it. -/
structure XAddArgs where
  Stream : Bytes
  NoMkStream : Bool
  MaxLen : Int
  MinID : Bytes
  Approx : Bool
  Limit : Int
  ID : Bytes
  Values : GoMap Bytes
  deriving DecidableEq, Repr

/-- Verb `%+v` on a `*redis.XAddArgs`. -/
def XAddArgs.plusV (a : XAddArgs) : Bytes :=
  str "&\x7bStream:" ++ a.Stream ++ str " NoMkStream:" ++ fmt.t a.NoMkStream
    ++ str " MaxLen:" ++ fmt.d a.MaxLen ++ str " MinID:" ++ a.MinID
    ++ str " Approx:" ++ fmt.t a.Approx ++ str " Limit:" ++ fmt.d a.Limit
    ++ str " ID:" ++ a.ID ++ str " Values:map["
    ++ ((a.Values.map (fun e => e.1 ++ str ":" ++ fmt.vBytes e.2)).intersperse (str " ")).flatten
    ++ str "]\x7d"

/-- The request `redis.XReadArgs`. -/
structure XReadArgs where
  Streams : List Bytes
  Count : Int
  Block : Int
  ID : Bytes
  deriving DecidableEq, Repr

/-- A field value of a stream entry as go-redis hands it over (an `interface{}`): a byte slice, a
string, or a value of some other type. -/
inductive FieldValue where
  | bytes (b : Bytes)
  | string (s : Bytes)
  | other (goType : String)
  deriving DecidableEq, Repr

/-- A stream entry, `redis.XMessage`. -/
structure XMessage where
  ID : Bytes
  Values : GoMap FieldValue
  deriving DecidableEq, Repr

/-- One stream of an `XREAD` reply, `redis.XStream`. -/
structure XStream where
  Stream : Bytes
  Messages : List XMessage
  deriving DecidableEq, Repr

/-- What `r.cli.XRead(ctx, args).Result()` gives: the error `redis.Nil` (nothing arrived within
the block time), another error, or the streams read. -/
inductive XReadReply where
  | Nil
  | error (e : GoError)
  | ok (data : List XStream)
  deriving DecidableEq, Repr

/-- The struct `RedisMessager`; the two IDs are pointers and `none` is the nil pointer. -/
structure RedisMessager where
  stream : Bytes
  lastPubID : Option MsgID
  lastSubID : Option MsgID
  deriving DecidableEq, Repr

/-- The constructor `NewRedisMessager(cli, stream)`; `redisTime` is what `cli.Time` gives, the
server's clock in Unix nanoseconds. The cursor starts one second before it. -/
def NewRedisMessager (stream : Bytes) (redisTime : Except GoError Int) :
    Except GoError RedisMessager :=
  match redisTime with
  | .error e => .error (GoError.wrap e (str "get redis time"))
  | .ok t => .ok ⟨stream, none, some ⟨Int.tdiv (wrapInt64 (t - 1000000000)) 1000000, 0⟩⟩

/-- What `Pub` leaves behind: the two results, the messager, and the request it sent. -/
structure PubResult where
  msgID : Bytes
  err : Option GoError
  r : RedisMessager
  item : XAddArgs
  deriving DecidableEq, Repr

/-- The method `(*RedisMessager).Pub(ctx, data)`; `xadd` is what `r.cli.XAdd(ctx, item).Result()`
gives. The request holds the stream, the entry and `Approx: true`; the lines that would set
`item.MinID` are commented out in the source. -/
def RedisMessager.Pub (r : RedisMessager) (data : Bytes) (xadd : Except GoError Bytes) :
    PubResult :=
  let item : XAddArgs := ⟨r.stream, false, 0, [], true, 0, [], [(str "data", data)]⟩
  match xadd with
  | .error e => ⟨[], some (GoError.wrap e (str "redis xadd, args: " ++ item.plusV)), r, item⟩
  | .ok msgID =>
    match ParseMsgID msgID with
    | .error e => ⟨[], some (GoError.wrap e (str "parse msgid " ++ msgID)), r, item⟩
    | .ok newPubID =>
      let last :=
        match r.lastPubID with
        | none => some newPubID
        | some old => if newPubID.Gt old then some newPubID else some old
      ⟨msgID, none, { r with lastPubID := last }, item⟩

/-- The first loop of `DupSub` (the cursor update): every message ID is parsed in turn and the
cursor moves to it when it is greater; a message ID that does not parse ends the call with the
cursor where the messages before it left it. -/
def advanceCursor : Option MsgID → List XMessage → Option GoError × Option MsgID
  | cur, [] => (none, cur)
  | cur, msg :: rest =>
    match ParseMsgID msg.ID with
    | .error e => (some (GoError.wrap e (str "parse msgid " ++ msg.ID)), cur)
    | .ok newSubID =>
      advanceCursor
        (match cur with
         | none => some newSubID
         | some old => if newSubID.Gt old then some newSubID else some old)
        rest

/-- The second loop of `DupSub`: `result[msg.ID]` is the field `data` when it is a byte slice or
a string, and empty otherwise (absent, or of another type; that is logged). -/
def collectData : GoMap Bytes → List XMessage → GoMap Bytes
  | result, [] => result
  | result, msg :: rest =>
    let msgData : Bytes :=
      match GoMap.lookup msg.Values (str "data") with
      | some (.bytes b) => b
      | some (.string s) => s
      | _ => []
    collectData (GoMap.insert result msg.ID msgData) rest

/-- What `DupSub` leaves behind: the result or error (or the panic), the messager, and the
request it sent. -/
structure DupSubResult where
  ret : Ret (GoMap Bytes)
  r : RedisMessager
  args : Option XReadArgs
  deriving DecidableEq, Repr

/-- The method `(*RedisMessager).DupSub(ctx)`; `xread` is what `r.cli.XRead(ctx, args).Result()`
gives. Building the request calls `r.lastSubID.String()`, which dereferences the cursor. -/
def RedisMessager.DupSub (r : RedisMessager) (xread : XReadReply) : DupSubResult :=
  match r.lastSubID with
  | none =>
    ⟨.panic (str "runtime error: invalid memory address or nil pointer dereference"), r, none⟩
  | some cur =>
    let args : XReadArgs := ⟨[r.stream], 5, ReadBlockDur, cur.String⟩
    match xread with
    | .Nil => ⟨.ok [], r, some args⟩
    | .error e => ⟨.error (GoError.wrap e (str "redis xread")), r, some args⟩
    | .ok [] => ⟨.ok [], r, some args⟩
    | .ok (first :: _) =>
      match advanceCursor r.lastSubID first.Messages with
      | (some e, cur1) => ⟨.error e, { r with lastSubID := cur1 }, some args⟩
      | (none, cur1) =>
        ⟨.ok (collectData [] first.Messages), { r with lastSubID := cur1 }, some args⟩

/-- The method `(*RedisMessager).Ack(ctx, msgID)`: nothing to do, it returns nil. -/
def RedisMessager.Ack (_r : RedisMessager) (_msgID : Bytes) : Option GoError := none

end messager


namespace utf8

/-- The count of runes in `s`, one `DecodeRune` at a time; `fuel` bounds the number of runes. -/
def RuneCount : Nat → Bytes → Nat
  | 0, _ => 0
  | _ + 1, [] => 0
  | fuel + 1, c :: t => 1 + RuneCount fuel ((c :: t).drop (DecodeRune (c :: t)).2)

/-- The call `utf8.RuneCountInString(s)`. -/
def RuneCountInString (s : Bytes) : Nat := RuneCount s.length s

end utf8

namespace url

/-- The loop of `getScheme(rawURL)` at index `i`, with `rest = rawURL[i:]`. -/
def getSchemeFrom (rawURL : Bytes) : Nat → Bytes → Except GoError (Bytes × Bytes)
  | _, [] => .ok ([], rawURL)
  | i, c :: t =>
    if (97 ≤ c.val ∧ c.val ≤ 122) ∨ (65 ≤ c.val ∧ c.val ≤ 90) then getSchemeFrom rawURL (i + 1) t
    else if (48 ≤ c.val ∧ c.val ≤ 57) ∨ c.val = 43 ∨ c.val = 45 ∨ c.val = 46 then
      if i = 0 then .ok ([], rawURL) else getSchemeFrom rawURL (i + 1) t
    else if c.val = 58 then
      if i = 0 then .error (GoError.new (str "missing protocol scheme"))
      else .ok (rawURL.take i, t)
    else .ok ([], rawURL)

/-- The function `getScheme(rawURL)`: the scheme before the first `:` and the text after it; an
empty scheme and the whole text when the text does not start with a scheme. -/
def getScheme (rawURL : Bytes) : Except GoError (Bytes × Bytes) := getSchemeFrom rawURL 0 rawURL

/-- Whether `rawURL` is written with a scheme: `getScheme`, which `url.Parse` runs on the text
before the first `#`, finds a non-empty one. -/
def hasScheme (rawURL : Bytes) : Bool :=
  match getScheme (strings.Cut rawURL (Fin.ofNat 35)).1 with
  | .ok (scheme, _) => !decide (scheme = [])
  | .error _ => false

end url

/-! ## `github.com/go-playground/validator/v10`, the rules named in the tags of `Config` -/

namespace validator

/-- Rule `gt=p` on an integer field: the value is greater than `p`. -/
def isGtInt (v p : Int) : Bool := decide (v > p)

/-- Rule `gt=p` on a string field: the string has more than `p` runes. -/
def isGtString (s : Bytes) (p : Int) : Bool := decide ((utf8.RuneCountInString s : Int) > p)

end validator

namespace tosync

/-- The struct `Config`. -/
structure Config where
  CallbackURL : Bytes
  MaxCallbackBytes : Int
  Stream : Bytes
  TimeoutSeconds : Int
  deriving DecidableEq, Repr

/-- The call `validator.New().Struct(c)` on a `Config`, by the tags of its fields: `url` on
`CallbackURL` and `gt=0` on the three others. `urlRule` is the library's rule `url` on a string.
Every field that breaks its rule adds to the `ValidationErrors` returned. -/
def Config.validateStruct (urlRule : Bytes → Bool) (c : Config) : Option GoError :=
  if urlRule c.CallbackURL && validator.isGtInt c.MaxCallbackBytes 0
      && validator.isGtString c.Stream 0 && validator.isGtInt c.TimeoutSeconds 0 then none
  else some (GoError.ext "validator.ValidationErrors")

/-- The method `Config.Validate()`. -/
def Config.Validate (syn : url.Syntax) (urlRule : Bytes → Bool) (c : Config) : Option GoError :=
  match url.Parse syn c.CallbackURL with
  | .error e => some e
  | .ok _ => c.validateStruct urlRule

/-- One step of a method on the client's `lock` or on its map `waiters`. -/
inductive LockOp where
  | Lock
  | Unlock
  | RLock
  | RUnlock
  | ReadWaiters
  | WriteWaiters
  deriving DecidableEq, Repr

/-- What `Regist` does with `c.lock` and `c.waiters`, in program order: nothing on the paths that
return an error, and `c.lock.Lock()`, `c.waiters[asyncID] = info`, `c.lock.Unlock()` on the path
that registers. -/
def Client.RegistLocking {σ μ : Type} (syn : url.Syntax) (R : ReqI σ) (c : Client μ)
    (chans : Chans) (req : σ) (rnd : Bytes) (random : Int) : List LockOp :=
  match (c.Regist syn R chans req rnd random).ret with
  | .ok _ => [.Lock, .WriteWaiters, .Unlock]
  | _ => []

/-- What `Release` does with `c.lock` and `c.waiters`, in program order: `c.lock.Lock()`,
`delete(c.waiters, info.AsyncID)`, and the deferred `c.lock.Unlock()`. -/
def Client.ReleaseLocking : List LockOp := [.Lock, .WriteWaiters, .Unlock]

/-- What `processMsg` does with `c.lock` and `c.waiters`, in program order: nothing when the
envelope does not decode, and otherwise the one read `c.waiters[callbackInfo.AsyncID]`; the
method never touches `c.lock`. -/
def Client.processMsgLocking (buf : Bytes) : List LockOp :=
  match unmarshalCallbackInfo buf with
  | .error _ => []
  | .ok callbackInfo =>
    match base64.DecodeString callbackInfo.Base64Body with
    | none => []
    | some _ => [.ReadWaiters]

end tosync

/-! ## Vocabulary of the statements about locking -/

/-- How the running method holds an `RWMutex`. -/
inductive tosync.Held where
  | no
  | read
  | write
  deriving DecidableEq, Repr

/-- Lock discipline of one method run that starts holding the lock as `h`: the lock is taken only
when not held and given back in the mode it was taken, the map is written only under the write
lock and read only under the read or the write lock, and the run ends with the lock given back. -/
def tosync.guarded : tosync.Held → List tosync.LockOp → Bool
  | h, [] => decide (h = .no)
  | .no, .Lock :: t => guarded .write t
  | .write, .Unlock :: t => guarded .no t
  | .no, .RLock :: t => guarded .read t
  | .read, .RUnlock :: t => guarded .no t
  | .read, .ReadWaiters :: t => guarded .read t
  | .write, .ReadWaiters :: t => guarded .write t
  | .write, .WriteWaiters :: t => guarded .write t
  | _, _ :: _ => false

/-! ## Fixtures of the statements about the messager and the configuration -/

/-- A messager for closed examples: it published 1700000000000-0 and its cursor stands at
5-0. -/
def messager.testMessager : messager.RedisMessager :=
  ⟨str "tosync", some ⟨1700000000000, 0⟩, some ⟨5, 0⟩⟩

/-- A batch for closed examples: the IDs 7-1, 6-1 and 7-0, the first with a string field
`data`. -/
def messager.testBatch : messager.XReadReply :=
  .ok [⟨str "tosync", [⟨str "7-1", [(str "data", .string (str "a"))]⟩, ⟨str "6-1", []⟩,
    ⟨str "7-0", []⟩]⟩]

/-- A `Syntax` for closed examples on texts that need no escaping: it reads every head and every
fragment as it is written. -/
def url.asWritten : url.Syntax := ⟨fun pre => .ok pre, fun frag => .ok frag⟩

/-- A `url` rule for closed examples: it accepts the texts written with a scheme. -/
def tosync.testURLRule (s : Bytes) : Bool := url.hasScheme s

/-- The configuration that `TestConfig_Validate` expects to pass. -/
def tosync.testConfig : tosync.Config := ⟨str "http://mhapi.com?", 1, str "123", 10⟩


/-! ## Vocabulary of the statements about per-call options -/

/-- The spec's reading of the merged client: the last non-nil `Client` in the list, nil when there
is none. -/
def tosync.lastClient {μ : Type} (os : List (tosync.CallOption μ)) : Option (tosync.Client μ) :=
  (os.filterMap (fun o => o.Client)).getLast?

/-- The spec's reading of the merged timeout: the last strictly positive `Timeout` in the list,
zero when there is none. -/
def tosync.lastTimeout {μ : Type} (os : List (tosync.CallOption μ)) : Int :=
  ((os.map (fun o => o.Timeout)).filter (fun t => decide (t > 0))).getLast?.getD 0

/-! # Theorems -/

open tosync

set_option linter.unusedTactic false
set_option linter.unreachableTactic false

/-! ## Digests and hexadecimal rendering -/

/-- `md5.Sum` reproduces the RFC 1321 digest of "abc". -/
theorem md5_Sum_abc :
    fmt.X (md5.Sum (str "abc")) = str "900150983CD24FB0D6963F7D28E17F72" := by
  decide!

/-- `sha512.Sum512` reproduces the FIPS 180-4 digest of "abc". -/
theorem sha512_Sum512_abc :
    fmt.X (sha512.Sum512 (str "abc")) =
      str ("DDAF35A193617ABACC417349AE20413112E6FA4E89A97EA20A9EEEE64B55D39A"
        ++ "2192992A274FC1A836BA3C23A3FEEBBD454D4423643CE80E2A9AC94FA54CA49F") := by
  decide!

theorem leBytes_length (n w : Nat) : (md5.leBytes n w).length = n := by
  induction n generalizing w with
  | zero => rfl
  | succ n ih => simp [md5.leBytes, ih]

theorem md5_Sum_length (data : Bytes) : (md5.Sum data).length = 16 := by
  simp [md5.Sum, leBytes_length]

theorem sha512_Sum512_length (data : Bytes) : (sha512.Sum512 data).length = 64 := by
  simp [sha512.Sum512, sha512.beBytes, leBytes_length]

theorem fmt_X_length (bs : Bytes) : (fmt.X bs).length = 2 * bs.length := by
  induction bs with
  | nil => rfl
  | cons b bs ih =>
    have : fmt.X (b :: bs) =
        fmt.hexDigitUpper (b.val / 16) :: fmt.hexDigitUpper (b.val % 16) :: fmt.X bs := by
      simp [fmt.X]
    rw [this]
    simp [ih]
    omega

theorem hexDigitUpper_inj16 : ∀ a b : Fin 16,
    fmt.hexDigitUpper a.val = fmt.hexDigitUpper b.val → a = b := by
  decide

theorem hexDigitUpper_pair_inj (a b : Byte)
    (h1 : fmt.hexDigitUpper (a.val / 16) = fmt.hexDigitUpper (b.val / 16))
    (h2 : fmt.hexDigitUpper (a.val % 16) = fmt.hexDigitUpper (b.val % 16)) : a = b := by
  have e1 := hexDigitUpper_inj16 ⟨a.val / 16, by omega⟩ ⟨b.val / 16, by omega⟩ h1
  have e2 := hexDigitUpper_inj16 ⟨a.val % 16, by omega⟩ ⟨b.val % 16, by omega⟩ h2
  simp only [Fin.mk.injEq] at e1 e2
  apply Fin.ext
  omega

theorem fmt_X_injective : ∀ xs ys : Bytes, fmt.X xs = fmt.X ys → xs = ys := by
  intro xs
  induction xs with
  | nil =>
    intro ys h
    cases ys with
    | nil => rfl
    | cons y ys =>
      have := congrArg List.length h
      rw [fmt_X_length, fmt_X_length] at this
      simp at this
  | cons x xs ih =>
    intro ys h
    cases ys with
    | nil =>
      have := congrArg List.length h
      rw [fmt_X_length, fmt_X_length] at this
      simp at this
    | cons y ys =>
      have hx : fmt.X (x :: xs) =
          fmt.hexDigitUpper (x.val / 16) :: fmt.hexDigitUpper (x.val % 16) :: fmt.X xs := by
        simp [fmt.X]
      have hy : fmt.X (y :: ys) =
          fmt.hexDigitUpper (y.val / 16) :: fmt.hexDigitUpper (y.val % 16) :: fmt.X ys := by
        simp [fmt.X]
      rw [hx, hy] at h
      injection h with h1 h
      injection h with h2 h
      rw [hexDigitUpper_pair_inj x y h1 h2, ih ys h]

/-- The legacy MD5 token and the SHA-512 token of any two concatenations differ (32 against 128
hexadecimal digits). -/
theorem md5_token_ne_sha512_token (d1 d2 : Bytes) :
    fmt.X (md5.Sum d1) ≠ fmt.X (sha512.Sum512 d2) := by
  intro h
  have := congrArg List.length h
  rw [fmt_X_length, fmt_X_length, md5_Sum_length, sha512_Sum512_length] at this
  omega

/-! ## Signature -/

/-- What `GenSign` returns passes `CheckSign`, whatever the nonce. -/
theorem CheckSign_of_GenSign (asyncID : Bytes) (random : Int) :
    signature.CheckSign asyncID (fmt.d random) (signature.GenSign asyncID random).2 = true := by
  simp [signature.CheckSign, signature.GenSign]

/-- C1. Signature round trip: for every correlation ID and every nonce in `[0, 10^7)`, the pair
that `GenSign` returns, with the nonce rendered in decimal, is accepted by `CheckSign`. -/
theorem GenSign_CheckSign (asyncID : Bytes) (random : Int)
    (_h0 : 0 ≤ random) (_h1 : random < 10000000) :
    signature.CheckSign asyncID (fmt.d (signature.GenSign asyncID random).1)
      (signature.GenSign asyncID random).2 = true :=
  CheckSign_of_GenSign asyncID random

/-- C1 at the test's correlation ID with nonce 1234567. -/
theorem GenSign_CheckSign_witness :
    (0 : Int) ≤ 1234567 ∧ (1234567 : Int) < 10000000 ∧
    signature.CheckSign (str "async_id") (fmt.d (signature.GenSign (str "async_id") 1234567).1)
      (signature.GenSign (str "async_id") 1234567).2 = true :=
  ⟨by decide, by decide, GenSign_CheckSign (str "async_id") 1234567 (by decide) (by decide)⟩

/-- Refutes C2 as stated: at correlation ID "async_id" and nonce 1, replacing the token by the
legacy MD5-derived token (a different value) still makes `CheckSign` return true. -/
theorem CheckSign_accepts_md5_token :
    str "1127907A621BA926E3F69189F868A8BF" ≠ (signature.GenSign (str "async_id") 1).2 ∧
    signature.CheckSign (str "async_id") (fmt.d (signature.GenSign (str "async_id") 1).1)
      (str "1127907A621BA926E3F69189F868A8BF") = true := by
  decide!

/-- The concatenation that both `GenSign` and `CheckSign` digest. -/
theorem CheckSign_eq (asyncID random sign : Bytes) :
    signature.CheckSign asyncID random sign =
      (fmt.X (md5.Sum (asyncID ++ str "_" ++ random ++ str "_" ++ signature.signSalt)) == sign ||
       fmt.X (sha512.Sum512 (asyncID ++ str "_" ++ random ++ str "_" ++ signature.signSalt))
         == sign) := rfl

/-- C2 (amended). For every pair produced by `GenSign`: a replaced token is accepted only when it
is the legacy MD5-derived token of the same concatenation; a replaced correlation ID or random
string is accepted only when the SHA-512 digest of the altered concatenation equals that of the
original one. -/
theorem CheckSign_tamper (asyncID : Bytes) (random : Int)
    (_h0 : 0 ≤ random) (_h1 : random < 10000000) :
    (∀ t : Bytes, t ≠ (signature.GenSign asyncID random).2 →
      (signature.CheckSign asyncID (fmt.d random) t = true ↔
        t = fmt.X (md5.Sum (asyncID ++ str "_" ++ fmt.d random ++ str "_" ++ signature.signSalt))))
    ∧ (∀ id' : Bytes, id' ≠ asyncID →
      (signature.CheckSign id' (fmt.d random) (signature.GenSign asyncID random).2 = true ↔
        sha512.Sum512 (id' ++ str "_" ++ fmt.d random ++ str "_" ++ signature.signSalt) =
        sha512.Sum512 (asyncID ++ str "_" ++ fmt.d random ++ str "_" ++ signature.signSalt)))
    ∧ (∀ rs : Bytes, rs ≠ fmt.d random →
      (signature.CheckSign asyncID rs (signature.GenSign asyncID random).2 = true ↔
        sha512.Sum512 (asyncID ++ str "_" ++ rs ++ str "_" ++ signature.signSalt) =
        sha512.Sum512 (asyncID ++ str "_" ++ fmt.d random ++ str "_" ++ signature.signSalt))) := by
  refine ⟨?_, ?_, ?_⟩
  · intro t ht
    rw [CheckSign_eq]
    simp only [signature.GenSign] at ht
    simp only [Bool.or_eq_true, beq_iff_eq]
    constructor
    · rintro (h | h)
      · exact h.symm
      · exact absurd h.symm ht
    · intro h
      exact Or.inl h.symm
  · intro id' _
    rw [CheckSign_eq]
    simp only [signature.GenSign, Bool.or_eq_true, beq_iff_eq]
    constructor
    · rintro (h | h)
      · exact absurd h (md5_token_ne_sha512_token _ _)
      · exact fmt_X_injective _ _ h
    · intro h
      exact Or.inr (by rw [h])
  · intro rs _
    rw [CheckSign_eq]
    simp only [signature.GenSign, Bool.or_eq_true, beq_iff_eq]
    constructor
    · rintro (h | h)
      · exact absurd h (md5_token_ne_sha512_token _ _)
      · exact fmt_X_injective _ _ h
    · intro h
      exact Or.inr (by rw [h])

/-- C2 (amended) at the test's correlation ID with nonce 1234567. -/
theorem CheckSign_tamper_witness :
    (0 : Int) ≤ 1234567 ∧ (1234567 : Int) < 10000000 ∧
    (∀ t : Bytes, t ≠ (signature.GenSign (str "async_id") 1234567).2 →
      (signature.CheckSign (str "async_id") (fmt.d 1234567) t = true ↔
        t = fmt.X (md5.Sum (str "async_id" ++ str "_" ++ fmt.d 1234567 ++ str "_"
          ++ signature.signSalt)))) :=
  ⟨by decide, by decide, (CheckSign_tamper (str "async_id") 1234567 (by decide) (by decide)).1⟩

/-- Digest equality cannot be dropped from C2 (amended): the digest has 64 bytes while correlation
IDs are unbounded, so some replaced correlation ID is accepted. -/
theorem CheckSign_some_replaced_id_accepted :
    ¬ ∀ asyncID id' : Bytes, id' ≠ asyncID →
      signature.CheckSign id' (fmt.d 1) (signature.GenSign asyncID 1).2 = false := by
  intro H
  let f : Bytes → {l : Bytes // l.length = 64} := fun a =>
    ⟨sha512.Sum512 (a ++ str "_" ++ fmt.d 1 ++ str "_" ++ signature.signSalt),
      sha512_Sum512_length _⟩
  have hf : Function.Injective f := by
    intro a b hab
    by_contra hne
    have hd : sha512.Sum512 (a ++ str "_" ++ fmt.d 1 ++ str "_" ++ signature.signSalt) =
        sha512.Sum512 (b ++ str "_" ++ fmt.d 1 ++ str "_" ++ signature.signSalt) :=
      congrArg Subtype.val hab
    have h := H b a hne
    rw [CheckSign_eq] at h
    simp only [signature.GenSign, hd, beq_self_eq_true, Bool.or_true] at h
    exact Bool.noConfusion h
  haveI : Finite {l : Bytes // l.length = 64} := (List.finite_length_eq (Fin 256) 64).to_subtype
  haveI : Finite Bytes := Finite.of_injective f hf
  exact not_finite Bytes

/-! ## Result shapes -/

theorem checkType_interface (T : reflect.GoType) (h : T.Kind = reflect.Kind.Interface) :
    checkType T =
      .panic (str "runtime error: invalid memory address or nil pointer dereference") := by
  simp [checkType, reflect.TypeOfZero, h]

/-- C4 (failing input). On the interface type `any` the function `checkType` returns neither nil
nor the error "unexpected type: interface {}": it panics on the nil `reflect.Type`. -/
theorem checkType_any_panics :
    checkType (reflect.GoType.mk reflect.Kind.Interface (str "interface \x7b\x7d") none) =
      .panic (str "runtime error: invalid memory address or nil pointer dereference") :=
  checkType_interface _ rfl

/-- Kinds that `checkType` lets through. -/
theorem checkType_plain (T : reflect.GoType) (hi : T.Kind ≠ reflect.Kind.Interface)
    (hp : T.Kind ≠ reflect.Kind.Pointer) :
    checkType T =
      if T.Kind = reflect.Kind.Map ∨ T.Kind = reflect.Kind.Slice ∨ T.Kind = reflect.Kind.Array
          ∨ T.Kind = reflect.Kind.Struct then .ok ()
      else .error (GoError.new (str "unexpected type: " ++ T.String)) := by
  simp only [checkType, reflect.TypeOfZero, hi, hp, if_false]
  cases h : T.Kind <;> simp_all

/-- Away from interface types `checkType` does what C4 says: with at most one pointer level
removed, the kinds map, slice, array and struct give nil and every other kind gives the error
"unexpected type: ", a "*" if a pointer level was removed, and the text of the remaining type. -/
theorem checkType_pointer (T el : reflect.GoType) (hp : T.Kind = reflect.Kind.Pointer)
    (he : T.Elem = some el) :
    checkType T =
      if el.Kind = reflect.Kind.Map ∨ el.Kind = reflect.Kind.Slice ∨ el.Kind = reflect.Kind.Array
          ∨ el.Kind = reflect.Kind.Struct then .ok ()
      else .error (GoError.new (str "unexpected type: " ++ str "*" ++ el.String)) := by
  simp only [checkType, reflect.TypeOfZero, hp, he]
  cases h : el.Kind <;> simp_all

/-- The first half of C4 holds for every type: `checkType` returns nil exactly when the kind,
after at most one leading pointer level is removed, is map, slice, array or struct. -/
theorem checkType_ok_iff (T : reflect.GoType) :
    checkType T = .ok () ↔ acceptedKind (resultKind T) = true := by
  obtain ⟨kind, name, elem⟩ := T
  by_cases hi : kind = reflect.Kind.Interface
  · subst hi
    simp [checkType, reflect.TypeOfZero, reflect.GoType.Kind, resultKind, acceptedKind]
  · by_cases hp : kind = reflect.Kind.Pointer
    · subst hp
      cases elem with
      | none =>
        simp [checkType, reflect.TypeOfZero, reflect.GoType.Kind, reflect.GoType.Elem,
          resultKind, acceptedKind]
      | some el =>
        obtain ⟨k2, n2, e2⟩ := el
        cases k2 <;>
          simp [checkType, reflect.TypeOfZero, reflect.GoType.Kind, reflect.GoType.Elem,
            resultKind, acceptedKind]
    · cases kind <;>
        simp_all [checkType, reflect.TypeOfZero, reflect.GoType.Kind, resultKind, acceptedKind]

/-- C3 (failing input, in general). With an interface type as result type and a client at hand,
`ToSync` does not return an error: `checkType` panics. Nothing is registered and nothing is
submitted before that. -/
theorem ToSync_interface_panics {σ μ V : Type} (syn : url.Syntax) (M : Messager μ) (R : ReqI σ)
    (T : reflect.GoType) (decode : Bytes → Except GoError V)
    (defaultClient : Option (Client μ)) (chans : Chans) (env : Env) (ctx : Context) (req : σ)
    (async : Context → σ → σ × Option GoError) (opts : List (Option (CallOption μ)))
    (opt : CallOption μ) (client : Client μ)
    (hT : T.Kind = reflect.Kind.Interface)
    (hopts : mergeOptions opts = .ok opt)
    (hclient : (if opt.Client.isSome then opt.Client else defaultClient) = some client) :
    ToSync syn M R T decode defaultClient chans env ctx req async opts =
      ⟨none, .panic (str "runtime error: invalid memory address or nil pointer dereference"),
        req, some client, chans, []⟩ := by
  unfold ToSync
  simp only [hopts]
  rw [hclient]
  simp only [checkType_interface T hT]

/-- C3 at the test's client and request with `any` as result type. -/
theorem ToSync_interface_panics_witness :
    ToSync (V := Bytes) url.plain logMessager TestReq.reqI
        (reflect.GoType.mk reflect.Kind.Interface (str "interface \x7b\x7d") none) (fun b => .ok b)
        (some testClient) [] quietEnv ⟨none⟩ ⟨[]⟩ (fun _ r => (r, none)) [] =
      ⟨none, .panic (str "runtime error: invalid memory address or nil pointer dereference"),
        ⟨[]⟩, some testClient, [], []⟩ :=
  ToSync_interface_panics url.plain logMessager TestReq.reqI _ _ (some testClient) [] quietEnv
    ⟨none⟩ ⟨[]⟩ _ [] ⟨none, 0⟩ testClient rfl rfl rfl

/-- The shape gate away from interface types: a result type whose kind is a scalar, a function,
a channel or an unsafe pointer makes `ToSync` return the wrapped error "unexpected type: <type>"
with the request, the client and the channels as they were and no call made. -/
theorem ToSync_shape_gate {σ μ V : Type} (syn : url.Syntax) (M : Messager μ) (R : ReqI σ)
    (T : reflect.GoType) (decode : Bytes → Except GoError V)
    (defaultClient : Option (Client μ)) (chans : Chans) (env : Env) (ctx : Context) (req : σ)
    (async : Context → σ → σ × Option GoError) (opts : List (Option (CallOption μ)))
    (opt : CallOption μ) (client : Client μ)
    (hi : T.Kind ≠ reflect.Kind.Interface) (hp : T.Kind ≠ reflect.Kind.Pointer)
    (hm : T.Kind ≠ reflect.Kind.Map) (hs : T.Kind ≠ reflect.Kind.Slice)
    (ha : T.Kind ≠ reflect.Kind.Array) (hst : T.Kind ≠ reflect.Kind.Struct)
    (hopts : mergeOptions opts = .ok opt)
    (hclient : (if opt.Client.isSome then opt.Client else defaultClient) = some client) :
    ToSync syn M R T decode defaultClient chans env ctx req async opts =
      ⟨none, .error (GoError.wrap (GoError.new (str "unexpected type: " ++ T.String))
          (str "check CallbackData type")), req, some client, chans, []⟩ := by
  unfold ToSync
  simp only [hopts]
  rw [hclient]
  simp only [checkType_plain T hi hp, hm, hs, ha, hst, or_self, if_false]

/-- The shape gate on the test's input: result type `string`. -/
theorem ToSync_shape_gate_witness :
    (ToSync (V := Bytes) url.plain logMessager TestReq.reqI
        (reflect.GoType.mk reflect.Kind.String (str "string") none) (fun b => .ok b)
        (some testClient) [] quietEnv ⟨none⟩ ⟨[]⟩ (fun _ r => (r, none)) []).ret =
      .error (GoError.wrap (GoError.new (str "unexpected type: string"))
        (str "check CallbackData type")) :=
  congrArg ToSyncResult.ret
    (ToSync_shape_gate url.plain logMessager TestReq.reqI _ _ (some testClient) [] quietEnv
      ⟨none⟩ ⟨[]⟩ _ [] ⟨none, 0⟩ testClient (by decide) (by decide) (by decide) (by decide)
      (by decide) (by decide) rfl rfl)

/-! ## Registration -/

/-- C5. A request that already carries a callback URL is refused by `Regist`: it returns the error
"callbackURL should be empty", the waiter index, the channels and the request stay as they were
and `SetCallbackURL` is not called. -/
theorem Regist_requires_empty_callbackURL {σ μ : Type} (syn : url.Syntax) (R : ReqI σ)
    (c : Client μ) (chans : Chans) (req : σ) (rnd : Bytes) (random : Int)
    (h : R.GetCallbackURL req ≠ []) :
    (c.Regist syn R chans req rnd random).ret =
        .error (GoError.new (str "callbackURL should be empty"))
    ∧ (c.Regist syn R chans req rnd random).client.waiters = c.waiters
    ∧ (c.Regist syn R chans req rnd random).chans = chans
    ∧ (c.Regist syn R chans req rnd random).req = req
    ∧ R.GetCallbackURL (c.Regist syn R chans req rnd random).req = R.GetCallbackURL req
    ∧ (c.Regist syn R chans req rnd random).trace = [] := by
  simp [Client.Regist, h]

/-- C5 on a test request that carries the URL "http://x". -/
theorem Regist_requires_empty_callbackURL_witness :
    (testClient.Regist url.plain TestReq.reqI [] ⟨str "http://x"⟩ (List.replicate 16 0) 1).ret =
      .error (GoError.new (str "callbackURL should be empty")) :=
  (Regist_requires_empty_callbackURL url.plain TestReq.reqI testClient [] ⟨str "http://x"⟩
    (List.replicate 16 0) 1 (by decide)).1

/-! ## The callback endpoint -/

/-- C10. A callback whose `async_id`, `random` and `sign` parameters fail `CheckSign` gets
`ErrInvalidSign` whatever its body is; the client is untouched and `Pub` is not called. -/
theorem CallbackHandler_bad_sign {μ : Type} (M : Messager μ) (c : Client μ) (r : http.Request)
    (h : signature.CheckSign (r.URL.Query.Get (str "async_id")) (r.URL.Query.Get (str "random"))
      (r.URL.Query.Get (str "sign")) = false) :
    (c.CallbackHandler M r).err = some ErrInvalidSign
    ∧ (c.CallbackHandler M r).err.map GoError.Error = some (str "invalid sign")
    ∧ (c.CallbackHandler M r).trace = []
    ∧ (c.CallbackHandler M r).client.messager = c.messager := by
  simp [Client.CallbackHandler, h, ErrInvalidSign, GoError.Error]

/-- C10 on the test's request: 11 bytes posted without query parameters. -/
theorem CallbackHandler_bad_sign_witness :
    signature.CheckSign (url.Values.Get (url.ParseQuery []) (str "async_id"))
      (url.Values.Get (url.ParseQuery []) (str "random"))
      (url.Values.Get (url.ParseQuery []) (str "sign")) = false
    ∧ (testClient.CallbackHandler logMessager
        ⟨⟨str "http://localhost/callback", false, [], []⟩, ⟨str "12345678901", none⟩⟩).err
      = some ErrInvalidSign :=
  ⟨by decide!, (CallbackHandler_bad_sign logMessager testClient
    ⟨⟨str "http://localhost/callback", false, [], []⟩, ⟨str "12345678901", none⟩⟩
    (by decide!)).1⟩

theorem wrapInt64_small (x : Int) (h0 : 0 ≤ x) (h1 : x < 2 ^ 63) : wrapInt64 x = x := by
  unfold wrapInt64
  omega

/-- The size check of the handler. For a client with `0 < maxSize` (an `int64`) and a validly
signed callback whose body is readable and of a length an `int` can hold: the handler fails with
"body limited to <maxSize> bytes" and publishes nothing exactly when the body is longer than
`maxSize` bytes. -/
theorem CallbackHandler_body_limit {μ : Type} (M : Messager μ) (c : Client μ) (r : http.Request)
    (hpos : 0 < c.maxSize) (hmax : c.maxSize < 2 ^ 63)
    (hsign : signature.CheckSign (r.URL.Query.Get (str "async_id"))
      (r.URL.Query.Get (str "random")) (r.URL.Query.Get (str "sign")) = true)
    (hread : r.Body.err = none) (hlen : (r.Body.data.length : Int) < 2 ^ 63) :
    ((c.CallbackHandler M r).err =
          some (GoError.new (str "body limited to " ++ fmt.d c.maxSize ++ str " bytes"))
        ∧ (c.CallbackHandler M r).trace = [])
      ↔ c.maxSize < (r.Body.data.length : Int) := by
  have hcases : c.maxSize < (r.Body.data.length : Int) ∨ (r.Body.data.length : Int) ≤ c.maxSize :=
    by omega
  rcases hcases with hlong | hshort
  · -- too long: the limit does not wrap and one byte over the limit is read
    have hw : wrapInt64 (c.maxSize + 1) = c.maxSize + 1 := wrapInt64_small _ (by omega) (by omega)
    have hn : (c.maxSize + 1).toNat ≤ r.Body.data.length := by omega
    have hbuf : io.ReadAllLimit r.Body (c.maxSize + 1) =
        .ok (r.Body.data.take (c.maxSize + 1).toNat) := by
      unfold io.ReadAllLimit
      rw [if_neg (by omega), if_pos hn]
    have hbl : ((r.Body.data.take (c.maxSize + 1).toNat).length : Int) > c.maxSize := by
      rw [List.length_take]
      omega
    have hres : c.CallbackHandler M r =
        ⟨some (GoError.new (str "body limited to " ++ fmt.d c.maxSize ++ str " bytes")), c, []⟩ := by
      unfold Client.CallbackHandler
      simp only [hsign, hw, hbuf, Bool.not_true, Bool.false_eq_true, if_false]
      rw [if_pos hbl]
    rw [hres]
    simp [hlong]
  · -- short enough: whatever is read is at most `maxSize` bytes long and is published
    have hex : ∃ buf : Bytes, io.ReadAllLimit r.Body (wrapInt64 (c.maxSize + 1)) = .ok buf
        ∧ (buf.length : Int) ≤ c.maxSize := by
      unfold io.ReadAllLimit
      by_cases h1 : wrapInt64 (c.maxSize + 1) ≤ 0
      · exact ⟨[], by rw [if_pos h1], by simp; omega⟩
      · rw [if_neg h1]
        by_cases h2 : (wrapInt64 (c.maxSize + 1)).toNat ≤ r.Body.data.length
        · refine ⟨_, by rw [if_pos h2], ?_⟩
          rw [List.length_take]
          omega
        · refine ⟨r.Body.data, by rw [if_neg h2, hread], hshort⟩
    obtain ⟨buf, hbuf, hbl⟩ := hex
    have hnot : ¬ ((buf.length : Int) > c.maxSize) := by omega
    have hres : c.CallbackHandler M r =
        (match M.Pub c.messager (marshalCallbackInfo
            ⟨r.URL.Query.Get (str "async_id"), base64.EncodeToString buf⟩) with
          | (.error e, m) =>
            ⟨some (GoError.wrap e (str "pub")), { c with messager := m },
              [Event.Pub (marshalCallbackInfo
                ⟨r.URL.Query.Get (str "async_id"), base64.EncodeToString buf⟩)]⟩
          | (.ok _, m) =>
            ⟨none, { c with messager := m },
              [Event.Pub (marshalCallbackInfo
                ⟨r.URL.Query.Get (str "async_id"), base64.EncodeToString buf⟩)]⟩) := by
      unfold Client.CallbackHandler
      simp only [hsign, hbuf, Bool.not_true, Bool.false_eq_true, if_false]
      rw [if_neg hnot]
      all_goals rfl
    constructor
    · rintro ⟨_, htr⟩
      rw [hres] at htr
      rcases hp : M.Pub c.messager (marshalCallbackInfo
          ⟨r.URL.Query.Get (str "async_id"), base64.EncodeToString buf⟩) with ⟨res, m⟩
      rw [hp] at htr
      cases res <;> simp at htr
    · intro h
      omega

/-- The size check on the test's oversized callback: 11 bytes against a limit of 10. -/
theorem CallbackHandler_body_limit_witness :
    (testClient.CallbackHandler logMessager oversizedCallback).err =
        some (GoError.new (str "body limited to " ++ fmt.d testClient.maxSize ++ str " bytes"))
    ∧ (testClient.CallbackHandler logMessager oversizedCallback).trace = [] :=
  (CallbackHandler_body_limit logMessager testClient oversizedCallback (by decide) (by decide)
    (by decide!) rfl (by decide)).mpr (by decide)

/-- The text of the error of the test's oversized callback. -/
theorem CallbackHandler_oversized_text :
    (testClient.CallbackHandler logMessager oversizedCallback).err.map GoError.Error =
      some (str "body limited to 10 bytes") := by
  decide!

/-! ## Delivery to waiters -/

theorem GoMap_lookup_delete_self {V : Type} (m : GoMap V) (k : Bytes) :
    GoMap.lookup (GoMap.delete m k) k = none := by
  induction m with
  | nil => rfl
  | cons e t ih =>
    obtain ⟨k', v⟩ := e
    by_cases h : k' = k
    · simpa [GoMap.delete, List.filter, h] using ih
    · simp only [GoMap.delete, List.filter, h, decide_False, Bool.not_false, GoMap.lookup,
        if_false]
      simpa [GoMap.delete] using ih

theorem processMsg_of_envelope {μ : Type} (c : Client μ) (chans : Chans) (asyncID msgID buf
    body : Bytes) (h : envelopeFor asyncID buf = some body) :
    c.processMsg chans msgID buf =
      (match GoMap.lookup c.waiters asyncID with
        | none => ((str "AsyncID not registed in this client", none), chans)
        | some waitInfo =>
          match chans.get? waitInfo.ResultC with
          | some [] => ((str "success", none), chans.set waitInfo.ResultC [⟨msgID, body⟩])
          | _ => ((str "duplicated msg and channel full", none), chans)) := by
  unfold envelopeFor at h
  unfold Client.processMsg
  cases hu : unmarshalCallbackInfo buf with
  | error e => simp [hu] at h
  | ok info =>
    simp only [hu] at h
    by_cases hid : info.AsyncID = asyncID
    · simp only [hid, if_true] at h
      simp only [h, hid]
      all_goals rfl
    · simp [hid] at h

/-- C8. Idempotent callback drop. For a waiter registered with an empty channel, the first
`processMsg` on a well-formed envelope with the waiter's correlation ID is delivered into the
waiter's channel; every later such call returns a nil error with the note of a full channel and
leaves all channels as they are, so the channel holds the first delivery only; and after
`Release` of the waiter every such call returns a nil error and leaves all channels as they are.
`processMsg` is a total function: no call blocks. -/
theorem processMsg_idempotent_drop {μ : Type} (c : Client μ) (chans : Chans) (w : WaiterInfo)
    (msgID buf body : Bytes) (later : List (Bytes × Bytes))
    (hreg : GoMap.lookup c.waiters w.AsyncID = some w)
    (hempty : chans.get? w.ResultC = some [])
    (hfirst : envelopeFor w.AsyncID buf = some body)
    (hlater : ∀ m ∈ later, (envelopeFor w.AsyncID m.2).isSome = true) :
    c.processMsg chans msgID buf =
        ((str "success", none), chans.set w.ResultC [⟨msgID, body⟩])
    ∧ c.processMsgs (chans.set w.ResultC [⟨msgID, body⟩]) later =
        (later.map (fun _ => (str "duplicated msg and channel full", none)),
          chans.set w.ResultC [⟨msgID, body⟩])
    ∧ (∀ (chans' : Chans) (m : Bytes × Bytes), (envelopeFor w.AsyncID m.2).isSome = true →
        (c.Release w).processMsg chans' m.1 m.2 =
          ((str "AsyncID not registed in this client", none), chans')) := by
  refine ⟨?_, ?_, ?_⟩
  · rw [processMsg_of_envelope c chans w.AsyncID msgID buf body hfirst, hreg]
    simp only [hempty]
  · have hfull : (chans.set w.ResultC [⟨msgID, body⟩]).get? w.ResultC =
        some [(⟨msgID, body⟩ : CallbackInfoParsed)] := by
      have hlt : w.ResultC < chans.length := by
        rcases Nat.lt_or_ge w.ResultC chans.length with h | h
        · exact h
        · rw [List.get?_eq_none.mpr h] at hempty
          exact Option.noConfusion hempty
      simp [List.getElem?_set, hlt]
    generalize chans.set w.ResultC [⟨msgID, body⟩] = ch at hfull
    induction later with
    | nil => rfl
    | cons m rest ih =>
      obtain ⟨mid, mbuf⟩ := m
      have hm := hlater (mid, mbuf) (List.mem_cons_self _ _)
      obtain ⟨b, hb⟩ := Option.isSome_iff_exists.mp hm
      have hstep : c.processMsg ch mid mbuf =
          ((str "duplicated msg and channel full", none), ch) := by
        rw [processMsg_of_envelope c ch w.AsyncID mid mbuf b hb, hreg]
        simp only [hfull]
      have ih' := ih (fun m hm => hlater m (List.mem_cons_of_mem _ hm))
      simp only [Client.processMsgs, hstep, ih', List.map_cons]
  · intro chans' m hm
    obtain ⟨b, hb⟩ := Option.isSome_iff_exists.mp hm
    rw [processMsg_of_envelope (c.Release w) chans' w.AsyncID m.1 m.2 b hb]
    simp only [Client.Release, GoMap_lookup_delete_self]

/-! ## Query strings -/

theorem Cut_of_not_mem (a : Bytes) (sep : Byte) (h : sep ∉ a) :
    strings.Cut a sep = (a, [], false) := by
  induction a with
  | nil => rfl
  | cons c t ih =>
    have hc : c ≠ sep := fun e => h (by simp [e])
    have ht : sep ∉ t := fun e => h (by simp [e])
    simp [strings.Cut, hc, ih ht]

theorem Cut_append_of_not_mem (a b : Bytes) (sep : Byte) (h : sep ∉ a) :
    strings.Cut (a ++ sep :: b) sep = (a, b, true) := by
  induction a with
  | nil => simp [strings.Cut]
  | cons c t ih =>
    have hc : c ≠ sep := fun e => h (by simp [e])
    have ht : sep ∉ t := fun e => h (by simp [e])
    simp [strings.Cut, hc, ih ht]

theorem QueryEscape_cons (c : Byte) (s : Bytes) :
    url.QueryEscape (c :: s) = url.escapeByte c ++ url.QueryEscape s := by
  simp [url.QueryEscape, url.escapeByte]

theorem escapeByte_isEscaped : ∀ c : Byte, (url.escapeByte c).all url.isEscaped = true := by
  decide!

theorem QueryEscape_isEscaped (s : Bytes) : ∀ b ∈ url.QueryEscape s, url.isEscaped b = true := by
  induction s with
  | nil => simp [url.QueryEscape]
  | cons c t ih =>
    intro b hb
    rw [QueryEscape_cons, List.mem_append] at hb
    rcases hb with hb | hb
    · exact List.all_eq_true.mp (escapeByte_isEscaped c) b hb
    · exact ih b hb

theorem QueryUnescape_escapeByte : ∀ c : Byte,
    (c.val = 32 ∧ url.escapeByte c = [Fin.ofNat 43] ∧ c = Fin.ofNat 32)
    ∨ (url.escapeByte c = [Fin.ofNat 37, fmt.hexDigitUpper (c.val / 16),
          fmt.hexDigitUpper (c.val % 16)]
        ∧ (url.ishex (fmt.hexDigitUpper (c.val / 16))
            && url.ishex (fmt.hexDigitUpper (c.val % 16))) = true
        ∧ (Fin.ofNat (url.unhex (fmt.hexDigitUpper (c.val / 16)) * 16
            + url.unhex (fmt.hexDigitUpper (c.val % 16))) : Byte) = c)
    ∨ (url.escapeByte c = [c] ∧ c.val ≠ 37 ∧ c.val ≠ 43) := by
  decide!

theorem QueryUnescape_cons (c : Byte) (t : Bytes) :
    url.QueryUnescape (c :: t) =
      if c.val = 37 then
        match t with
        | h1 :: h2 :: rest =>
          if url.ishex h1 && url.ishex h2 then
            (url.QueryUnescape rest).map (fun r => Fin.ofNat (url.unhex h1 * 16 + url.unhex h2) :: r)
          else none
        | _ => none
      else if c.val = 43 then (url.QueryUnescape t).map (fun r => Fin.ofNat 32 :: r)
      else (url.QueryUnescape t).map (fun r => c :: r) := by
  cases t with
  | nil => rfl
  | cons a t =>
    cases t with
    | nil => rfl
    | cons b t => rfl

theorem QueryUnescape_cons_plain (c : Byte) (t : Bytes) (h1 : c.val ≠ 37) (h2 : c.val ≠ 43) :
    url.QueryUnescape (c :: t) = (url.QueryUnescape t).map (fun r => c :: r) := by
  rw [QueryUnescape_cons, if_neg h1, if_neg h2]

theorem QueryUnescape_cons_plus (t : Bytes) :
    url.QueryUnescape (Fin.ofNat 43 :: t) = (url.QueryUnescape t).map (fun r => Fin.ofNat 32 :: r) := by
  rw [QueryUnescape_cons, if_neg (by decide), if_pos (by decide)]

theorem QueryUnescape_cons_percent (a b : Byte) (t : Bytes)
    (h : (url.ishex a && url.ishex b) = true) :
    url.QueryUnescape (Fin.ofNat 37 :: a :: b :: t) =
      (url.QueryUnescape t).map (fun r => Fin.ofNat (url.unhex a * 16 + url.unhex b) :: r) := by
  rw [QueryUnescape_cons, if_pos (by decide)]
  simp only [h, if_true]

theorem QueryUnescape_QueryEscape (s : Bytes) : url.QueryUnescape (url.QueryEscape s) = some s := by
  induction s with
  | nil => rfl
  | cons c t ih =>
    rw [QueryEscape_cons]
    rcases QueryUnescape_escapeByte c with ⟨_, h, hc⟩ | ⟨h, hh, hc⟩ | ⟨h, h1, h2⟩
    · rw [h, List.singleton_append, QueryUnescape_cons_plus, ih, Option.map_some', ← hc]
    · rw [h]
      simp only [List.cons_append, List.nil_append]
      rw [QueryUnescape_cons_percent _ _ _ hh, ih, Option.map_some', hc]
    · rw [h, List.singleton_append, QueryUnescape_cons_plain c _ h1 h2, ih, Option.map_some']

theorem encPair_ne_nil (p : Bytes × Bytes) : url.encPair p ≠ [] := by
  simp [url.encPair]

theorem foldl_values_eq (vs : List Bytes) (k buf : Bytes) :
    vs.foldl (fun buf x =>
        (if buf.length > 0 then buf ++ [Fin.ofNat 38] else buf)
          ++ url.QueryEscape k ++ [Fin.ofNat 61] ++ url.QueryEscape x) buf =
      (vs.map (fun x => (k, x))).foldl url.encStep buf := by
  induction vs generalizing buf with
  | nil => rfl
  | cons x xs ihx =>
    simp only [List.foldl_cons, List.map_cons]
    rw [ihx]
    simp [url.encStep, url.encPair, List.append_assoc]

theorem foldl_entries_eq (v : url.Values) (buf : Bytes) :
    v.foldl (fun buf e =>
        e.2.foldl (fun buf x =>
          (if buf.length > 0 then buf ++ [Fin.ofNat 38] else buf)
            ++ url.QueryEscape e.1 ++ [Fin.ofNat 61] ++ url.QueryEscape x) buf) buf =
      (url.pairsOf v).foldl url.encStep buf := by
  induction v generalizing buf with
  | nil => rfl
  | cons e t ih =>
    simp only [List.foldl_cons, url.pairsOf, List.flatMap_cons, List.foldl_append]
    rw [foldl_values_eq]
    exact ih _

theorem Encode_eq_foldl (v : url.Values) :
    url.Values.Encode v = (url.pairsOf v).foldl url.encStep [] :=
  foldl_entries_eq v []

theorem foldl_encStep_of_ne_nil (ps : List (Bytes × Bytes)) (buf : Bytes) (h : buf ≠ []) :
    ps.foldl url.encStep buf = buf ++ url.tailJoin ps := by
  induction ps generalizing buf with
  | nil => simp [url.tailJoin]
  | cons p t ih =>
    have hlen : buf.length > 0 := List.length_pos.mpr h
    have hstep : url.encStep buf p = buf ++ Fin.ofNat 38 :: url.encPair p := by
      simp [url.encStep, hlen]
    rw [List.foldl_cons, hstep, ih _ (by simp [h])]
    simp [url.tailJoin, List.append_assoc]

theorem Encode_pairs (v : url.Values) :
    url.Values.Encode v =
      match url.pairsOf v with
      | [] => []
      | p :: ps => url.encPair p ++ url.tailJoin ps := by
  rw [Encode_eq_foldl]
  cases url.pairsOf v with
  | nil => rfl
  | cons p ps =>
    have h0 : url.encStep [] p = url.encPair p := by simp [url.encStep]
    rw [List.foldl_cons, h0, foldl_encStep_of_ne_nil _ _ (encPair_ne_nil p)]

theorem isEscaped_facts : ∀ b : Byte, url.isEscaped b = true →
    b.val ≠ 38 ∧ b.val ≠ 59 ∧ b.val ≠ 61 ∧ b.val ≠ 63 ∧ b.val ≠ 35 ∧ 32 ≤ b.val ∧ b.val ≠ 127 := by
  decide!

theorem not_mem_QueryEscape (s : Bytes) (x : Byte) (hx : url.isEscaped x = false) :
    x ∉ url.QueryEscape s := by
  intro h
  have := QueryEscape_isEscaped s x h
  rw [hx] at this
  exact Bool.noConfusion this

theorem not_mem_encPair (p : Bytes × Bytes) (x : Byte) (hx : url.isEscaped x = false)
    (h61 : x ≠ Fin.ofNat 61) : x ∉ url.encPair p := by
  simp only [url.encPair, List.mem_append, List.mem_singleton, not_or]
  exact ⟨⟨not_mem_QueryEscape _ _ hx, h61⟩, not_mem_QueryEscape _ _ hx⟩

theorem Cut_encPair (p : Bytes × Bytes) :
    strings.Cut (url.encPair p) (Fin.ofNat 61) = (url.QueryEscape p.1, url.QueryEscape p.2, true) := by
  have := Cut_append_of_not_mem (url.QueryEscape p.1) (url.QueryEscape p.2) (Fin.ofNat 61)
    (not_mem_QueryEscape _ _ (by decide))
  simpa [url.encPair] using this

theorem parseQuery_nil (fuel : Nat) (m : url.Values) : url.parseQuery fuel m [] = m := by
  cases fuel <;> simp [url.parseQuery]

theorem parseQuery_step (fuel : Nat) (m : url.Values) (p : Bytes × Bytes) (rest : Bytes)
    (hcut : (strings.Cut (url.encPair p ++ rest) (Fin.ofNat 38)).1 = url.encPair p) :
    url.parseQuery (fuel + 1) m (url.encPair p ++ rest) =
      url.parseQuery fuel (url.Values.Add m p.1 p.2)
        (strings.Cut (url.encPair p ++ rest) (Fin.ofNat 38)).2.1 := by
  have hne : url.encPair p ++ rest ≠ [] := by simp [encPair_ne_nil]
  have h59 : (Fin.ofNat 59 : Byte) ∉ url.encPair p := not_mem_encPair p _ (by decide) (by decide)
  rw [url.parseQuery]
  simp only [hne, if_false, hcut, h59, encPair_ne_nil, Cut_encPair, QueryUnescape_QueryEscape]

theorem parseQuery_join (ps : List (Bytes × Bytes)) (p : Bytes × Bytes) (m : url.Values)
    (fuel : Nat) (hf : ps.length + 1 ≤ fuel) :
    url.parseQuery fuel m (url.encPair p ++ url.tailJoin ps) =
      url.addAll (url.Values.Add m p.1 p.2) ps := by
  induction ps generalizing p m fuel with
  | nil =>
    obtain ⟨f, rfl⟩ : ∃ f, fuel = f + 1 := ⟨fuel - 1, by omega⟩
    have h38 : (Fin.ofNat 38 : Byte) ∉ url.encPair p ++ ([] : Bytes) := by
      simpa using not_mem_encPair p _ (by decide) (by decide)
    have hc := Cut_of_not_mem _ _ h38
    simp only [url.tailJoin, List.flatMap_nil]
    rw [parseQuery_step f m p [] (by rw [hc]; simp), hc]
    simp [parseQuery_nil, url.addAll]
  | cons q qs ih =>
    obtain ⟨f, rfl⟩ : ∃ f, fuel = f + 1 := ⟨fuel - 1, by omega⟩
    have h38 : (Fin.ofNat 38 : Byte) ∉ url.encPair p := not_mem_encPair p _ (by decide) (by decide)
    have hc := Cut_append_of_not_mem (url.encPair p) (url.encPair q ++ url.tailJoin qs) _ h38
    have hj : url.tailJoin (q :: qs) = Fin.ofNat 38 :: (url.encPair q ++ url.tailJoin qs) := by
      simp [url.tailJoin]
    rw [hj, parseQuery_step f m p _ (by rw [hc]), hc]
    simp only
    rw [ih q _ f (by simp at hf; omega)]
    simp [url.addAll]

theorem length_tailJoin_ge (ps : List (Bytes × Bytes)) : ps.length ≤ (url.tailJoin ps).length := by
  induction ps with
  | nil => simp
  | cons p t ih =>
    simp only [url.tailJoin, List.flatMap_cons, List.length_append, List.length_cons] at *
    omega

/-- Parsing what `Encode` wrote adds the pairs back in order. -/
theorem ParseQuery_Encode (v : url.Values) :
    url.ParseQuery (url.Values.Encode v) = url.addAll [] (url.pairsOf v) := by
  rw [Encode_pairs]
  cases url.pairsOf v with
  | nil => simp [url.ParseQuery, url.parseQuery, url.addAll]
  | cons p ps =>
    simp only
    unfold url.ParseQuery
    rw [parseQuery_join ps p [] _ (by
      have := length_tailJoin_ge ps
      have h1 : 0 < (url.encPair p).length := List.length_pos.mpr (encPair_ne_nil p)
      simp only [List.length_append]
      omega)]
    simp [url.addAll]

theorem GoMap_lookup_insert_self {V : Type} (m : GoMap V) (k : Bytes) (v : V) :
    GoMap.lookup (GoMap.insert m k v) k = some v := by
  induction m with
  | nil => simp [GoMap.insert, GoMap.lookup]
  | cons e t ih =>
    obtain ⟨k', v'⟩ := e
    by_cases h1 : k < k'
    · simp [GoMap.insert, GoMap.lookup, h1]
    · by_cases h2 : k = k'
      · simp [GoMap.insert, GoMap.lookup, h1, h2]
      · have h3 : ¬ k' = k := fun e => h2 e.symm
        simp [GoMap.insert, GoMap.lookup, h1, h2, h3, ih]

theorem GoMap_lookup_insert_ne {V : Type} (m : GoMap V) (k j : Bytes) (v : V) (h : j ≠ k) :
    GoMap.lookup (GoMap.insert m k v) j = GoMap.lookup m j := by
  have hk : ¬ k = j := fun e => h e.symm
  induction m with
  | nil => simp [GoMap.insert, GoMap.lookup, hk]
  | cons e t ih =>
    obtain ⟨k', v'⟩ := e
    by_cases h1 : k < k'
    · simp [GoMap.insert, GoMap.lookup, h1, hk]
    · by_cases h2 : k = k'
      · subst h2
        simp [GoMap.insert, GoMap.lookup, h1, hk]
      · by_cases h3 : k' = j
        · subst h3
          simp [GoMap.insert, GoMap.lookup, h1, h2]
        · simp [GoMap.insert, GoMap.lookup, h1, h2, h3, ih]

theorem Get_addAll (ps : List (Bytes × Bytes)) (m : url.Values) (k : Bytes) :
    url.Values.Get (url.addAll m ps) k =
      match GoMap.lookup m k with
      | some (x :: _) => x
      | _ => (url.firstVal ps k).getD [] := by
  induction ps generalizing m with
  | nil =>
    simp only [url.addAll, List.foldl_nil, url.Values.Get, url.firstVal, Option.getD_none]
    all_goals (rcases GoMap.lookup m k with _ | (_ | ⟨x, xs⟩) <;> rfl)
  | cons p t ih =>
    have hstep : url.addAll m (p :: t) = url.addAll (url.Values.Add m p.1 p.2) t := rfl
    rw [hstep, ih]
    by_cases hk : p.1 = k
    · have hl : GoMap.lookup (url.Values.Add m p.1 p.2) k =
          some ((GoMap.lookup m k).getD [] ++ [p.2]) := by
        rw [← hk]
        exact GoMap_lookup_insert_self _ _ _
      rw [hl]
      rcases GoMap.lookup m k with _ | (_ | ⟨x, xs⟩) <;> simp [url.firstVal, hk]
    · have hl : GoMap.lookup (url.Values.Add m p.1 p.2) k = GoMap.lookup m k :=
        GoMap_lookup_insert_ne _ _ _ _ (fun e => hk e.symm)
      rw [hl]
      simp [url.firstVal, hk]

theorem firstVal_append (a b : List (Bytes × Bytes)) (k : Bytes) :
    url.firstVal (a ++ b) k =
      match url.firstVal a k with
      | some x => some x
      | none => url.firstVal b k := by
  induction a with
  | nil => rfl
  | cons p t ih =>
    by_cases h : p.1 = k
    · simp [url.firstVal, h]
    · simp [url.firstVal, h, ih]

theorem firstVal_map_ne (vs : List Bytes) (k' k : Bytes) (h : k' ≠ k) :
    url.firstVal (vs.map (fun x => (k', x))) k = none := by
  induction vs with
  | nil => rfl
  | cons x xs ih => simp [url.firstVal, h, ih]

theorem pairsOf_cons (e : Bytes × List Bytes) (t : url.Values) :
    url.pairsOf (e :: t) = e.2.map (fun x => (e.1, x)) ++ url.pairsOf t := by
  simp [url.pairsOf]

theorem firstVal_pairsOf_insert_self (m : url.Values) (k x : Bytes) (xs : List Bytes) :
    url.firstVal (url.pairsOf (GoMap.insert m k (x :: xs))) k = some x := by
  induction m with
  | nil => simp [GoMap.insert, pairsOf_cons, url.firstVal]
  | cons e t ih =>
    obtain ⟨k', v'⟩ := e
    by_cases h1 : k < k'
    · simp [GoMap.insert, h1, pairsOf_cons, url.firstVal]
    · by_cases h2 : k = k'
      · simp [GoMap.insert, h1, h2, pairsOf_cons, url.firstVal]
      · have h3 : k' ≠ k := fun e => h2 e.symm
        simp only [GoMap.insert, h1, h2, if_false, pairsOf_cons]
        rw [firstVal_append, firstVal_map_ne _ _ _ h3]
        exact ih

theorem firstVal_pairsOf_insert_ne (m : url.Values) (k j : Bytes) (vs : List Bytes) (h : j ≠ k) :
    url.firstVal (url.pairsOf (GoMap.insert m k vs)) j = url.firstVal (url.pairsOf m) j := by
  have hk : k ≠ j := fun e => h e.symm
  induction m with
  | nil =>
    simp only [GoMap.insert, pairsOf_cons]
    rw [firstVal_append, firstVal_map_ne _ _ _ hk]
  | cons e t ih =>
    obtain ⟨k', v'⟩ := e
    by_cases h1 : k < k'
    · simp only [GoMap.insert, h1, if_true]
      rw [pairsOf_cons, firstVal_append, firstVal_map_ne _ _ _ hk]
    · by_cases h2 : k = k'
      · subst h2
        simp only [GoMap.insert, h1, if_false, if_true, pairsOf_cons]
        rw [firstVal_append, firstVal_map_ne _ _ _ hk, firstVal_append,
          firstVal_map_ne _ _ _ hk]
      · simp only [GoMap.insert, h1, h2, if_false, pairsOf_cons]
        rw [firstVal_append, firstVal_append, ih]

/-- Reading a key back from an encoded query gives the first value the key has among the
pairs. -/
theorem Get_ParseQuery_Encode (v : url.Values) (k : Bytes) :
    url.Values.Get (url.ParseQuery (url.Values.Encode v)) k =
      (url.firstVal (url.pairsOf v) k).getD [] := by
  rw [ParseQuery_Encode, Get_addAll]
  rfl

/-- After `Add` of a key that had no value, the key reads back as the added value. -/
theorem Get_roundtrip_Add_new (m : url.Values) (k x : Bytes) (h : GoMap.lookup m k = none) :
    url.Values.Get (url.ParseQuery (url.Values.Encode (url.Values.Add m k x))) k = x := by
  rw [Get_ParseQuery_Encode]
  simp only [url.Values.Add, h, Option.getD_none, List.nil_append]
  rw [firstVal_pairsOf_insert_self]
  rfl

/-- An `Add` under another key does not change what a key reads back as. -/
theorem Get_roundtrip_Add_other (m : url.Values) (k j x : Bytes) (h : j ≠ k) :
    url.Values.Get (url.ParseQuery (url.Values.Encode (url.Values.Add m k x))) j =
      url.Values.Get (url.ParseQuery (url.Values.Encode m)) j := by
  rw [Get_ParseQuery_Encode, Get_ParseQuery_Encode]
  simp only [url.Values.Add]
  rw [firstVal_pairsOf_insert_ne _ _ _ _ h]

theorem isQueryByte_facts : ∀ b : Byte, url.isQueryByte b = true → b.val ≠ 63 ∧ b.val ≠ 35 := by
  decide!

theorem encPair_isQueryByte (p : Bytes × Bytes) : ∀ b ∈ url.encPair p, url.isQueryByte b = true := by
  intro b hb
  simp only [url.encPair, List.mem_append, List.mem_singleton] at hb
  rcases hb with (hb | hb) | hb
  · simp [url.isQueryByte, QueryEscape_isEscaped _ b hb]
  · subst hb
    decide
  · simp [url.isQueryByte, QueryEscape_isEscaped _ b hb]

theorem tailJoin_isQueryByte (ps : List (Bytes × Bytes)) :
    ∀ b ∈ url.tailJoin ps, url.isQueryByte b = true := by
  induction ps with
  | nil => simp [url.tailJoin]
  | cons p t ih =>
    intro b hb
    have hj : url.tailJoin (p :: t) = Fin.ofNat 38 :: (url.encPair p ++ url.tailJoin t) := by
      simp [url.tailJoin]
    rw [hj, List.mem_cons, List.mem_append] at hb
    rcases hb with hb | hb | hb
    · subst hb
      decide
    · exact encPair_isQueryByte p b hb
    · exact ih b hb

theorem Encode_isQueryByte (v : url.Values) : ∀ b ∈ url.Values.Encode v, url.isQueryByte b = true := by
  rw [Encode_pairs]
  cases url.pairsOf v with
  | nil => simp
  | cons p ps =>
    intro b hb
    simp only [List.mem_append] at hb
    rcases hb with hb | hb
    · exact encPair_isQueryByte p b hb
    · exact tailJoin_isQueryByte ps b hb

theorem Encode_Add_ne_nil (m : url.Values) (k x : Bytes) :
    url.Values.Encode (url.Values.Add m k x) ≠ [] := by
  rw [Encode_pairs]
  have hcons : ∃ z zs, (GoMap.lookup m k).getD [] ++ [x] = z :: zs := by
    cases (GoMap.lookup m k).getD [] with
    | nil => exact ⟨x, [], rfl⟩
    | cons y ys => exact ⟨y, ys ++ [x], rfl⟩
  obtain ⟨z, zs, hz⟩ := hcons
  have hf := firstVal_pairsOf_insert_self m k z zs
  unfold url.Values.Add
  rw [hz]
  cases hp : url.pairsOf (GoMap.insert m k (z :: zs)) with
  | nil => rw [hp] at hf; simp [url.firstVal] at hf
  | cons p ps => simp [encPair_ne_nil]

theorem getLast?_append_of_ne_nil (a b : Bytes) (h : b ≠ []) :
    (a ++ b).getLast? = b.getLast? := by
  cases hb : b.getLast? with
  | none => simp [List.getLast?_eq_none_iff] at hb; exact absurd hb h
  | some x =>
    obtain ⟨ys, rfl⟩ := List.getLast?_eq_some_iff.mp hb
    rw [← List.append_assoc]
    simp

/-- A URL written with a non-empty encoded query reads back with that query, whenever it reads
back at all: the head holds no `?` and no `#`, and neither does the query. -/
theorem Parse_String_RawQuery (syn : url.Syntax) (head enc frag : Bytes) (force : Bool)
    (u : url.URL)
    (hhead : ∀ b ∈ head, b.val ≠ 63 ∧ b.val ≠ 35)
    (henc : ∀ b ∈ enc, url.isQueryByte b = true) (hne : enc ≠ [])
    (hparse : url.Parse syn (url.URL.String ⟨head, force, enc, frag⟩) = .ok u) :
    u.RawQuery = enc := by
  have h35 : (Fin.ofNat 35 : Byte) ∉ head ++ Fin.ofNat 63 :: enc := by
    simp only [List.mem_append, List.mem_cons, not_or]
    refine ⟨fun h => (hhead _ h).2 (by decide), by decide, fun h => ?_⟩
    exact (isQueryByte_facts _ (henc _ h)).2 (by decide)
  have h63 : (Fin.ofNat 63 : Byte) ∉ head := fun h => (hhead _ h).1 (by decide)
  have hstr : url.URL.String ⟨head, force, enc, frag⟩ =
      (head ++ Fin.ofNat 63 :: enc) ++ (if frag = [] then [] else Fin.ofNat 35 :: frag) := by
    simp [url.URL.String, hne]
  have hcut1 : (strings.Cut (url.URL.String ⟨head, force, enc, frag⟩) (Fin.ofNat 35)).1 =
      head ++ Fin.ofNat 63 :: enc := by
    rw [hstr]
    by_cases hf : frag = []
    · simp only [hf, if_true, List.append_nil]
      rw [Cut_of_not_mem _ _ h35]
    · simp only [hf, if_false]
      rw [Cut_append_of_not_mem _ _ _ h35]
  have hlast : (head ++ Fin.ofNat 63 :: enc).getLast? ≠ some (Fin.ofNat 63) := by
    have e : head ++ Fin.ofNat 63 :: enc = (head ++ [Fin.ofNat 63]) ++ enc := by simp
    rw [e, getLast?_append_of_ne_nil _ _ hne]
    intro h
    have hm := List.mem_of_mem_getLast? h
    exact (isQueryByte_facts _ (henc _ hm)).1 (by decide)
  have hcut2 : strings.Cut (head ++ Fin.ofNat 63 :: enc) (Fin.ofNat 63) = (head, enc, true) :=
    Cut_append_of_not_mem _ _ _ h63
  have hforce : (decide ((head ++ Fin.ofNat 63 :: enc).getLast? = some (Fin.ofNat 63))
      && decide ((head ++ Fin.ofNat 63 :: enc).count (Fin.ofNat 63) = 1)) = false := by
    rw [decide_eq_false hlast, Bool.false_and]
  unfold url.Parse at hparse
  simp only [hcut1, hcut2, hforce, Bool.false_eq_true, if_false] at hparse
  by_cases hctl : ((head ++ Fin.ofNat 63 :: enc).any
      (fun b => decide (b.val < 32) || decide (b.val = 127))) = true
  · rw [if_pos hctl] at hparse
    exact Except.noConfusion hparse
  · rw [if_neg hctl] at hparse
    cases hh : syn.head head with
    | error e =>
      rw [hh] at hparse
      exact Except.noConfusion hparse
    | ok h =>
      rw [hh] at hparse
      simp only at hparse
      by_cases hfr : (strings.Cut (url.URL.String ⟨head, force, enc, frag⟩) (Fin.ofNat 35)).2.1 = []
      · rw [if_pos hfr] at hparse
        injection hparse with hu
        rw [← hu]
      · rw [if_neg hfr] at hparse
        cases hg : syn.fragment
            (strings.Cut (url.URL.String ⟨head, force, enc, frag⟩) (Fin.ofNat 35)).2.1 with
        | error e =>
          rw [hg] at hparse
          exact Except.noConfusion hparse
        | ok f =>
          rw [hg] at hparse
          injection hparse with hu
          rw [← hu]

/-- Whatever `Parse` returns carries a head that `Syntax.head` returned. -/
theorem Parse_head (syn : url.Syntax) (raw : Bytes) (u : url.URL)
    (h : url.Parse syn raw = .ok u) : ∃ pre, syn.head pre = .ok u.Head := by
  unfold url.Parse at h
  simp only at h
  split at h
  · exact Except.noConfusion h
  · split at h
    · exact Except.noConfusion h
    · rename_i hd heq
      split at h
      · injection h with hu
        exact ⟨_, by rw [← hu]; exact heq⟩
      · split at h
        · exact Except.noConfusion h
        · injection h with hu
          exact ⟨_, by rw [← hu]; exact heq⟩

/-- Refutes C6 as stated: with the template "http://localhost/callback?async_id=zzz" `Regist`
succeeds and the first `async_id` of the callback URL is the template's "zzz", not the waiter's
correlation ID; what the handler reads fails `CheckSign`. -/
theorem Regist_template_with_async_id :
    (({ testClient with callbackURL := str "http://localhost/callback?async_id=zzz" } :
        Client (List Bytes)).Regist url.plain TestReq.reqI [] ⟨[]⟩ (List.replicate 16 0) 1).ret
      = .ok ⟨str "00000000-0000-4000-8000-000000000000", [], 0⟩
    ∧ (match url.Parse url.plain
          (({ testClient with callbackURL := str "http://localhost/callback?async_id=zzz" } :
            Client (List Bytes)).Regist url.plain TestReq.reqI [] ⟨[]⟩
              (List.replicate 16 0) 1).req.GetCallbackURL with
        | .ok u =>
          some (u.Query.Get (str "async_id"),
            signature.CheckSign (u.Query.Get (str "async_id")) (u.Query.Get (str "random"))
              (u.Query.Get (str "sign")))
        | .error _ => none)
      = some (str "zzz", false) := by
  decide!

/-- C6 (amended). When the callback URL template parses and its query has no `async_id`, `random`
or `sign` parameter, and the request stores what `SetCallbackURL` is given and starts with an
empty callback URL, `Regist` succeeds, and whatever URL parsing the request's callback URL yields,
its `async_id` reads as the waiter's correlation ID and its `async_id`, `random` and `sign` pass
`CheckSign`. -/
theorem Regist_callback_authenticates {σ μ : Type} (syn : url.Syntax) (R : ReqI σ)
    (c : Client μ) (chans : Chans) (req : σ) (rnd : Bytes) (random : Int) (u0 : url.URL)
    (hclean : ∀ pre h, syn.head pre = .ok h → ∀ b ∈ h, b.val ≠ 63 ∧ b.val ≠ 35)
    (hstore : ∀ s url, R.GetCallbackURL (R.SetCallbackURL s url) = url)
    (hempty : R.GetCallbackURL req = [])
    (hparse : url.Parse syn c.callbackURL = .ok u0)
    (hk1 : GoMap.lookup u0.Query (str "async_id") = none)
    (hk2 : GoMap.lookup u0.Query (str "random") = none)
    (hk3 : GoMap.lookup u0.Query (str "sign") = none) :
    ∃ w, (c.Regist syn R chans req rnd random).ret = .ok w
      ∧ GoMap.lookup (c.Regist syn R chans req rnd random).client.waiters w.AsyncID = some w
      ∧ ∀ u, url.Parse syn (R.GetCallbackURL (c.Regist syn R chans req rnd random).req) = .ok u →
          u.Query.Get (str "async_id") = w.AsyncID
          ∧ signature.CheckSign (u.Query.Get (str "async_id")) (u.Query.Get (str "random"))
              (u.Query.Get (str "sign")) = true := by
  -- the three parameters as `Regist` adds them
  have hm1 : GoMap.lookup (u0.Query.Add (str "random") (fmt.d random)) (str "sign") = none := by
    rw [url.Values.Add, GoMap_lookup_insert_ne _ _ _ _ (by decide), hk3]
  have hm2 : GoMap.lookup ((u0.Query.Add (str "random") (fmt.d random)).Add (str "sign")
      (signature.GenSign (uuid.NewString rnd) random).2) (str "async_id") = none := by
    rw [url.Values.Add, GoMap_lookup_insert_ne _ _ _ _ (by decide), url.Values.Add,
      GoMap_lookup_insert_ne _ _ _ _ (by decide), hk1]
  obtain ⟨pre, hpre⟩ := Parse_head syn _ _ hparse
  have hhead := hclean pre _ hpre
  -- what `Regist` returns
  have hreg : c.Regist syn R chans req rnd random =
      ⟨.ok ⟨uuid.NewString rnd, [], chans.length⟩,
        { c with waiters := (GoMap.insert c.waiters (uuid.NewString rnd)
            (WaiterInfo.mk (uuid.NewString rnd) [] chans.length)) },
        chans ++ [[]],
        R.SetCallbackURL req (url.URL.String ⟨u0.Head, u0.ForceQuery,
          (((u0.Query.Add (str "random") (fmt.d random)).Add (str "sign")
            (signature.GenSign (uuid.NewString rnd) random).2).Add (str "async_id")
            (uuid.NewString rnd)).Encode, u0.Fragment⟩),
        [Event.SetCallbackURL (url.URL.String ⟨u0.Head, u0.ForceQuery,
          (((u0.Query.Add (str "random") (fmt.d random)).Add (str "sign")
            (signature.GenSign (uuid.NewString rnd) random).2).Add (str "async_id")
            (uuid.NewString rnd)).Encode, u0.Fragment⟩)]⟩ := by
    unfold Client.Regist
    rw [if_neg (by simp [hempty])]
    simp only [hparse, hstore, ne_eq, not_true_eq_false, if_false]
    all_goals rfl
  refine ⟨⟨uuid.NewString rnd, [], chans.length⟩, by rw [hreg], ?_, ?_⟩
  · rw [hreg]
    exact GoMap_lookup_insert_self _ _ _
  · intro u hu
    rw [hreg] at hu
    simp only [hstore] at hu
    have hq := Parse_String_RawQuery syn _ _ _ _ u hhead (Encode_isQueryByte _)
      (Encode_Add_ne_nil _ _ _) hu
    have ha : u.Query.Get (str "async_id") = uuid.NewString rnd := by
      rw [url.URL.Query, hq]
      exact Get_roundtrip_Add_new _ _ _ hm2
    have hs : u.Query.Get (str "sign") = (signature.GenSign (uuid.NewString rnd) random).2 := by
      rw [url.URL.Query, hq, Get_roundtrip_Add_other _ _ _ _ (by decide)]
      exact Get_roundtrip_Add_new _ _ _ hm1
    have hr : u.Query.Get (str "random") = fmt.d random := by
      rw [url.URL.Query, hq, Get_roundtrip_Add_other _ _ _ _ (by decide),
        Get_roundtrip_Add_other _ _ _ _ (by decide)]
      exact Get_roundtrip_Add_new _ _ _ hk2
    rw [ha, hs, hr]
    exact ⟨rfl, CheckSign_of_GenSign _ _⟩

theorem isPlain_facts : ∀ b : Byte, url.isPlain b = true → b.val ≠ 63 ∧ b.val ≠ 35 := by
  decide!

theorem http_prefix_facts : ∀ b : Byte, b ∈ str "http://" → b.val ≠ 63 ∧ b.val ≠ 35 := by
  decide!

theorem plain_head_clean : ∀ pre h, url.plain.head pre = .ok h →
    ∀ b ∈ h, b.val ≠ 63 ∧ b.val ≠ 35 := by
  intro pre h hp b hb
  simp only [url.plain] at hp
  split at hp
  · rename_i hc
    injection hp with hp
    subst hp
    have hsplit : pre = pre.take 7 ++ pre.drop 7 := (List.take_append_drop 7 pre).symm
    rw [hsplit, List.mem_append] at hb
    rcases hb with hb | hb
    · rw [hc.1] at hb
      exact http_prefix_facts b hb
    · exact isPlain_facts b (List.all_eq_true.mp hc.2.1 b hb)
  · exact Except.noConfusion hp

/-- C6 (amended) on the test's client and request. -/
theorem Regist_callback_authenticates_witness :
    ∃ w, (testClient.Regist url.plain TestReq.reqI [] ⟨[]⟩ (List.replicate 16 0) 1).ret = .ok w
      ∧ GoMap.lookup (testClient.Regist url.plain TestReq.reqI [] ⟨[]⟩
          (List.replicate 16 0) 1).client.waiters w.AsyncID = some w
      ∧ ∀ u, url.Parse url.plain (TestReq.reqI.GetCallbackURL
            (testClient.Regist url.plain TestReq.reqI [] ⟨[]⟩ (List.replicate 16 0) 1).req)
          = .ok u →
          u.Query.Get (str "async_id") = w.AsyncID
          ∧ signature.CheckSign (u.Query.Get (str "async_id")) (u.Query.Get (str "random"))
              (u.Query.Get (str "sign")) = true :=
  Regist_callback_authenticates url.plain TestReq.reqI testClient [] ⟨[]⟩ (List.replicate 16 0) 1
    ⟨str "http://localhost/callback", false, [], []⟩ plain_head_clean (fun _ _ => rfl) rfl
    rfl (by decide) (by decide) (by decide)

/-- The fixtures are what the code makes: `Regist` on the test client yields `testWaiter` and the
index of `waitingClient`. -/
theorem Regist_testClient :
    (testClient.Regist url.plain TestReq.reqI [] ⟨[]⟩ (List.replicate 16 0) 1).ret
      = .ok testWaiter
    ∧ (testClient.Regist url.plain TestReq.reqI [] ⟨[]⟩ (List.replicate 16 0) 1).client.waiters
      = waitingClient.waiters
    ∧ (testClient.Regist url.plain TestReq.reqI [] ⟨[]⟩ (List.replicate 16 0) 1).chans = [[]] := by
  decide!

/-- C8 on the test waiter: the envelope is delivered once, a repeat is dropped. -/
theorem processMsg_idempotent_drop_witness :
    waitingClient.processMsg [[]] (str "1-0") testEnvelope =
        ((str "success", none), [[⟨str "1-0", str "\x7b\"msg\":1\x7d"⟩]])
    ∧ waitingClient.processMsgs [[⟨str "1-0", str "\x7b\"msg\":1\x7d"⟩]] [(str "2-0", testEnvelope)] =
        ([(str "duplicated msg and channel full", none)],
          [[⟨str "1-0", str "\x7b\"msg\":1\x7d"⟩]])
    ∧ (∀ (chans' : Chans) (m : Bytes × Bytes),
        (envelopeFor testWaiter.AsyncID m.2).isSome = true →
        (waitingClient.Release testWaiter).processMsg chans' m.1 m.2 =
          ((str "AsyncID not registed in this client", none), chans')) :=
  processMsg_idempotent_drop waitingClient [[]] testWaiter (str "1-0") testEnvelope
    (str "\x7b\"msg\":1\x7d") [(str "2-0", testEnvelope)] (by decide) (by decide) (by decide!)
    (by decide!)

/-- C7 (failing input). With `maxSize = 9223372036854775807` the limit `maxSize+1` wraps to a
negative number and nothing is read: the validly signed callback that posts the byte "A" is
published with an empty body, and `processMsg` hands the waiter an empty `Body`, not "A". -/
theorem CallbackHandler_max_limit_loses_body :
    signature.CheckSign (signedWaiterCallback.URL.Query.Get (str "async_id"))
        (signedWaiterCallback.URL.Query.Get (str "random"))
        (signedWaiterCallback.URL.Query.Get (str "sign")) = true
    ∧ signedWaiterCallback.URL.Query.Get (str "async_id") = testWaiter.AsyncID
    ∧ (maxLimitClient.CallbackHandler logMessager signedWaiterCallback).err = none
    ∧ (maxLimitClient.CallbackHandler logMessager signedWaiterCallback).trace =
        [Event.Pub (str ("\x7b\"async_id\":\"00000000-0000-4000-8000-000000000000\","
          ++ "\"base64_body\":\"\"\x7d"))]
    ∧ maxLimitClient.processMsg [[]] (str "0-0")
        (str ("\x7b\"async_id\":\"00000000-0000-4000-8000-000000000000\","
          ++ "\"base64_body\":\"\"\x7d")) =
        ((str "success", none), [[⟨str "0-0", []⟩]]) := by
  decide!

/-- The same callback on the test client, whose limit is 10 bytes: the body "A" arrives. -/
theorem CallbackHandler_small_limit_keeps_body :
    (waitingClient.CallbackHandler logMessager signedWaiterCallback).trace =
        [Event.Pub (str ("\x7b\"async_id\":\"00000000-0000-4000-8000-000000000000\","
          ++ "\"base64_body\":\"QQ==\"\x7d"))]
    ∧ waitingClient.processMsg [[]] (str "0-0")
        (str ("\x7b\"async_id\":\"00000000-0000-4000-8000-000000000000\","
          ++ "\"base64_body\":\"QQ==\"\x7d")) =
        ((str "success", none), [[⟨str "0-0", str "A"⟩]]) := by
  decide!

/-! ## Base64 round trip -/

theorem dec6_enc6 : ∀ n : Fin 64, base64.dec6 (base64.enc6 n.val) = some n.val := by
  decide

theorem enc6_facts : ∀ n : Fin 64, (base64.enc6 n.val).val ≠ 61 ∧ (base64.enc6 n.val).val ≠ 10
    ∧ (base64.enc6 n.val).val ≠ 13 := by
  decide

theorem dec6_enc6_lt (n : Nat) (h : n < 64) : base64.dec6 (base64.enc6 n) = some n :=
  dec6_enc6 ⟨n, h⟩

theorem enc6_ne_pad (n : Nat) (h : n < 64) : ¬ (base64.enc6 n).val = 61 :=
  (enc6_facts ⟨n, h⟩).1

theorem decodeQuanta_full (a b c d : Byte) (rest : Bytes) (x y z w : Nat)
    (ha : base64.dec6 a = some x) (hb : base64.dec6 b = some y)
    (hc : base64.dec6 c = some z) (hd : base64.dec6 d = some w)
    (hc' : ¬ c.val = 61) (hd' : ¬ d.val = 61) :
    base64.decodeQuanta (a :: b :: c :: d :: rest) =
      (base64.decodeQuanta rest).map (fun r =>
        Fin.ofNat (x * 4 + y / 16) :: Fin.ofNat (y % 16 * 16 + z / 4)
          :: Fin.ofNat (z % 4 * 64 + w) :: r) := by
  rw [base64.decodeQuanta]
  simp only [ha, hb, hc, hd, hc', hd', if_false]

theorem decodeQuanta_pad1 (a b c : Byte) (x y z : Nat)
    (ha : base64.dec6 a = some x) (hb : base64.dec6 b = some y)
    (hc : base64.dec6 c = some z) (hc' : ¬ c.val = 61) :
    base64.decodeQuanta [a, b, c, Fin.ofNat 61] =
      some [Fin.ofNat (x * 4 + y / 16), Fin.ofNat (y % 16 * 16 + z / 4)] := by
  rw [base64.decodeQuanta]
  have e : ((Fin.ofNat 61 : Byte).val = 61) = True := by decide
  simp only [ha, hb, hc, hc', e, if_false, if_true]

theorem decodeQuanta_pad2 (a b : Byte) (x y : Nat)
    (ha : base64.dec6 a = some x) (hb : base64.dec6 b = some y) :
    base64.decodeQuanta [a, b, Fin.ofNat 61, Fin.ofNat 61] =
      some [Fin.ofNat (x * 4 + y / 16)] := by
  rw [base64.decodeQuanta]
  have e : ((Fin.ofNat 61 : Byte).val = 61) = True := by decide
  simp only [ha, hb, e, if_true, and_self]

theorem byte_ofNat_eq (a : Byte) (n : Nat) (h : n = a.val) : (Fin.ofNat n : Byte) = a := by
  apply Fin.ext
  subst h
  simp [Fin.ofNat]

theorem decodeQuanta_EncodeToString (B : Bytes) :
    base64.decodeQuanta (base64.EncodeToString B) = some B := by
  induction B using base64.EncodeToString.induct with
  | case1 a b c rest ih =>
    rw [base64.EncodeToString,
      decodeQuanta_full _ _ _ _ _ _ _ _ _ (dec6_enc6_lt _ (by omega)) (dec6_enc6_lt _ (by omega))
        (dec6_enc6_lt _ (by omega)) (dec6_enc6_lt _ (by omega)) (enc6_ne_pad _ (by omega))
        (enc6_ne_pad _ (by omega)), ih, Option.map_some',
      byte_ofNat_eq a _ (by omega), byte_ofNat_eq b _ (by omega), byte_ofNat_eq c _ (by omega)]
  | case2 a b =>
    rw [base64.EncodeToString,
      decodeQuanta_pad1 _ _ _ _ _ _ (dec6_enc6_lt _ (by omega)) (dec6_enc6_lt _ (by omega))
        (dec6_enc6_lt _ (by omega)) (enc6_ne_pad _ (by omega)),
      byte_ofNat_eq a _ (by omega), byte_ofNat_eq b _ (by omega)]
  | case3 a =>
    rw [base64.EncodeToString,
      decodeQuanta_pad2 _ _ _ _ (dec6_enc6_lt _ (by omega)) (dec6_enc6_lt _ (by omega)),
      byte_ofNat_eq a _ (by omega)]
  | case4 => rfl

/-- The bytes of the standard alphabet and the padding byte. -/
theorem EncodeToString_alphabet (B : Bytes) :
    ∀ c ∈ base64.EncodeToString B, (∃ n, n < 64 ∧ c = base64.enc6 n) ∨ c = Fin.ofNat 61 := by
  induction B using base64.EncodeToString.induct with
  | case1 a b c rest ih =>
    intro x hx
    rw [base64.EncodeToString] at hx
    simp only [List.mem_cons] at hx
    rcases hx with rfl | rfl | rfl | rfl | hx
    · exact Or.inl ⟨_, by omega, rfl⟩
    · exact Or.inl ⟨_, by omega, rfl⟩
    · exact Or.inl ⟨_, by omega, rfl⟩
    · exact Or.inl ⟨_, by omega, rfl⟩
    · exact ih x hx
  | case2 a b =>
    intro x hx
    rw [base64.EncodeToString] at hx
    simp only [List.mem_cons, List.mem_singleton, List.not_mem_nil, or_false] at hx
    rcases hx with rfl | rfl | rfl | rfl
    · exact Or.inl ⟨_, by omega, rfl⟩
    · exact Or.inl ⟨_, by omega, rfl⟩
    · exact Or.inl ⟨_, by omega, rfl⟩
    · exact Or.inr rfl
  | case3 a =>
    intro x hx
    rw [base64.EncodeToString] at hx
    simp only [List.mem_cons, List.mem_singleton, List.not_mem_nil, or_false] at hx
    rcases hx with rfl | rfl | rfl | rfl
    · exact Or.inl ⟨_, by omega, rfl⟩
    · exact Or.inl ⟨_, by omega, rfl⟩
    · exact Or.inr rfl
    · exact Or.inr rfl
  | case4 =>
    intro x hx
    simp [base64.EncodeToString] at hx

/-- Base64 round trip: `DecodeString` gives back what `EncodeToString` was given. -/
theorem DecodeString_EncodeToString (B : Bytes) :
    base64.DecodeString (base64.EncodeToString B) = some B := by
  unfold base64.DecodeString
  have hf : (base64.EncodeToString B).filter
      (fun c => !(decide (c.val = 10) || decide (c.val = 13))) = base64.EncodeToString B := by
    rw [List.filter_eq_self]
    intro c hc
    rcases EncodeToString_alphabet B c hc with ⟨n, hn, rfl⟩ | rfl
    · have := enc6_facts ⟨n, hn⟩
      simp [this.2.1, this.2.2]
    · decide
  rw [hf]
  exact decodeQuanta_EncodeToString B

/-! ## JSON round trip of an envelope -/

theorem isPlain_facts_json : ∀ c : Byte, json.isPlain c = true →
    c.val < 128 ∧ ¬ (c.val = 92 ∨ c.val = 34) ∧ ¬ c.val = 8 ∧ ¬ c.val = 12 ∧ ¬ c.val = 10
    ∧ ¬ c.val = 13 ∧ ¬ c.val = 9 ∧ ¬ (c.val < 32 ∨ c.val = 60 ∨ c.val = 62 ∨ c.val = 38)
    ∧ ¬ c.val = 34 ∧ ¬ c.val < 32 ∧ ¬ c.val = 92 := by
  decide!

theorem escapeString_plain (s : Bytes) (fuel : Nat) (hp : ∀ c ∈ s, json.isPlain c = true)
    (hf : s.length < fuel) : json.escapeString fuel s = s := by
  induction s generalizing fuel with
  | nil => cases fuel <;> simp [json.escapeString]
  | cons c t ih =>
    obtain ⟨f, rfl⟩ : ∃ f, fuel = f + 1 := ⟨fuel - 1, by simp at hf; omega⟩
    have h := isPlain_facts_json c (hp c (by simp))
    rw [json.escapeString]
    simp only [h.1, h.2.1, h.2.2.1, h.2.2.2.1, h.2.2.2.2.1, h.2.2.2.2.2.1, h.2.2.2.2.2.2.1,
      h.2.2.2.2.2.2.2.1, if_true, if_false]
    rw [ih f (fun x hx => hp x (by simp [hx])) (by simp at hf; omega)]

theorem quote_plain (s : Bytes) (hp : ∀ c ∈ s, json.isPlain c = true) :
    json.quote s = Fin.ofNat 34 :: (s ++ [Fin.ofNat 34]) := by
  rw [json.quote, escapeString_plain s _ hp (by omega)]
  rfl

theorem parseString_quote (fuel : Nat) (t : Bytes) :
    json.parseString (fuel + 1) (Fin.ofNat 34 :: t) = some ([], t) := by
  rw [json.parseString]
  have e : (Fin.ofNat 34 : Byte).val = 34 := by decide
  simp [e]

theorem parseString_cons_plain (fuel : Nat) (c : Byte) (t : Bytes)
    (h1 : ¬ c.val = 34) (h2 : ¬ c.val < 32) (h3 : ¬ c.val = 92) (h4 : c.val < 128) :
    json.parseString (fuel + 1) (c :: t) =
      (json.parseString fuel t).map (fun r => (c :: r.1, r.2)) := by
  rw [json.parseString]
  simp [json.unquoteStep, h1, h2, h3, h4]

theorem parseString_plain (s rest : Bytes) (fuel : Nat) (hp : ∀ c ∈ s, json.isPlain c = true)
    (hf : s.length < fuel) :
    json.parseString fuel (s ++ Fin.ofNat 34 :: rest) = some (s, rest) := by
  induction s generalizing fuel with
  | nil =>
    obtain ⟨f, rfl⟩ : ∃ f, fuel = f + 1 := ⟨fuel - 1, by simp at hf; omega⟩
    rw [List.nil_append, parseString_quote]
  | cons c t ih =>
    obtain ⟨f, rfl⟩ : ∃ f, fuel = f + 1 := ⟨fuel - 1, by simp at hf; omega⟩
    have h := isPlain_facts_json c (hp c (by simp))
    rw [List.cons_append, parseString_cons_plain f c _ h.2.2.2.2.2.2.2.2.1 h.2.2.2.2.2.2.2.2.2.1
      h.2.2.2.2.2.2.2.2.2.2 h.1,
      ih f (fun x hx => hp x (by simp [hx])) (by simp at hf; omega)]
    rfl

/-- Scanning a quoted plain string at the start of a value. -/
theorem parseValue_string (fuel depth : Nat) (s rest : Bytes)
    (hp : ∀ c ∈ s, json.isPlain c = true) :
    json.parseValue (fuel + 1) depth (Fin.ofNat 34 :: (s ++ Fin.ofNat 34 :: rest)) =
      some (json.Value.string s, rest) := by
  rw [json.parseValue]
  have e : json.skipSpace (Fin.ofNat 34 :: (s ++ Fin.ofNat 34 :: rest)) =
      Fin.ofNat 34 :: (s ++ Fin.ofNat 34 :: rest) := by
    rw [json.skipSpace]
    rfl
  have e34 : (Fin.ofNat 34 : Byte).val = 34 := by decide
  simp only [e, e34, if_true]
  rw [parseString_plain s rest _ hp (by simp; omega)]
  rfl

theorem skipSpace_cons (c : Byte) (t : Bytes) (h : json.isSpace c = false) :
    json.skipSpace (c :: t) = c :: t := by
  rw [json.skipSpace]
  simp [h]

/-- Scanning the last member `"key":"value"}` of an object. -/
theorem parseMembers_last (fuel depth : Nat) (key v rest : Bytes)
    (hk : ∀ c ∈ key, json.isPlain c = true) (hv : ∀ c ∈ v, json.isPlain c = true) :
    json.parseMembers (fuel + 2) depth
        (Fin.ofNat 34 :: (key ++ Fin.ofNat 34 :: Fin.ofNat 58 :: Fin.ofNat 34
          :: (v ++ Fin.ofNat 34 :: Fin.ofNat 125 :: rest))) =
      some ([(key, json.Value.string v)], rest) := by
  rw [json.parseMembers]
  have e34 : (Fin.ofNat 34 : Byte).val = 34 := by decide
  have e58 : (Fin.ofNat 58 : Byte).val = 58 := by decide
  have e125 : (Fin.ofNat 125 : Byte).val = 125 := by decide
  rw [skipSpace_cons _ _ (by decide)]
  simp only [e34, if_true]
  rw [parseString_plain key _ _ hk (by simp; omega)]
  simp only
  rw [skipSpace_cons _ _ (by decide)]
  simp only [e58, if_true]
  rw [parseValue_string fuel depth v _ hv]
  simp only
  rw [skipSpace_cons _ _ (by decide)]
  simp only [e125, if_true]

/-- Scanning a member `"key":"value",` that is followed by further members. -/
theorem parseMembers_more (fuel depth : Nat) (key v rest : Bytes)
    (hk : ∀ c ∈ key, json.isPlain c = true) (hv : ∀ c ∈ v, json.isPlain c = true) :
    json.parseMembers (fuel + 2) depth
        (Fin.ofNat 34 :: (key ++ Fin.ofNat 34 :: Fin.ofNat 58 :: Fin.ofNat 34
          :: (v ++ Fin.ofNat 34 :: Fin.ofNat 44 :: rest))) =
      (json.parseMembers (fuel + 1) depth rest).map
        (fun r => ((key, json.Value.string v) :: r.1, r.2)) := by
  rw [json.parseMembers]
  have e34 : (Fin.ofNat 34 : Byte).val = 34 := by decide
  have e58 : (Fin.ofNat 58 : Byte).val = 58 := by decide
  have e44 : (Fin.ofNat 44 : Byte).val = 44 := by decide
  have n125 : ¬ (Fin.ofNat 44 : Byte).val = 125 := by decide
  rw [skipSpace_cons _ _ (by decide)]
  simp only [e34, if_true]
  rw [parseString_plain key _ _ hk (by simp; omega)]
  simp only
  rw [skipSpace_cons _ _ (by decide)]
  simp only [e58, if_true]
  rw [parseValue_string fuel depth v _ hv]
  simp only
  rw [skipSpace_cons _ _ (by decide)]
  simp only [e44]
  rw [if_neg (by decide)]
  simp only [if_true]

/-- Scanning an object whose first member starts right after the brace. -/
theorem parseValue_object (fuel depth : Nat) (t : Bytes) (hd : depth + 1 ≤ json.maxNestingDepth) :
    json.parseValue (fuel + 1) depth (Fin.ofNat 123 :: Fin.ofNat 34 :: t) =
      (json.parseMembers fuel (depth + 1) (Fin.ofNat 34 :: t)).map
        (fun r => (json.Value.object r.1, r.2)) := by
  rw [json.parseValue]
  have e123 : (Fin.ofNat 123 : Byte).val = 123 := by decide
  have n34 : ¬ (Fin.ofNat 123 : Byte).val = 34 := by decide
  have n125 : ¬ (Fin.ofNat 34 : Byte).val = 125 := by decide
  have hd' : ¬ json.maxNestingDepth < depth + 1 := by omega
  rw [skipSpace_cons _ _ (by decide)]
  simp only [e123, hd', if_false]
  rw [if_neg (by decide)]
  simp only [if_true]
  rw [skipSpace_cons _ _ (by decide)]
  simp only [n125, if_false]

theorem marshalCallbackInfo_plain (a b : Bytes) (ha : ∀ c ∈ a, json.isPlain c = true)
    (hb : ∀ c ∈ b, json.isPlain c = true) :
    marshalCallbackInfo ⟨a, b⟩ =
      Fin.ofNat 123 :: Fin.ofNat 34 :: (str "async_id" ++ Fin.ofNat 34 :: Fin.ofNat 58
        :: Fin.ofNat 34 :: (a ++ Fin.ofNat 34 :: Fin.ofNat 44 :: Fin.ofNat 34
        :: (str "base64_body" ++ Fin.ofNat 34 :: Fin.ofNat 58 :: Fin.ofNat 34
        :: (b ++ Fin.ofNat 34 :: Fin.ofNat 125 :: [])))) := by
  have e1 : str "\x7b\"async_id\":" = Fin.ofNat 123 :: Fin.ofNat 34
      :: (str "async_id" ++ [Fin.ofNat 34, Fin.ofNat 58]) := by decide
  have e2 : str ",\"base64_body\":" = Fin.ofNat 44 :: Fin.ofNat 34
      :: (str "base64_body" ++ [Fin.ofNat 34, Fin.ofNat 58]) := by decide
  have e3 : str "\x7d" = [Fin.ofNat 125] := by decide
  rw [marshalCallbackInfo, quote_plain a ha, quote_plain b hb, e1, e2, e3]
  simp

theorem async_id_plain : ∀ c ∈ str "async_id", json.isPlain c = true := by
  decide!

theorem base64_body_plain : ∀ c ∈ str "base64_body", json.isPlain c = true := by
  decide!

/-- JSON round trip of an envelope whose correlation ID and base64 body are plain text. -/
theorem unmarshal_marshal_plain (a b : Bytes) (ha : ∀ c ∈ a, json.isPlain c = true)
    (hb : ∀ c ∈ b, json.isPlain c = true) :
    unmarshalCallbackInfo (marshalCallbackInfo ⟨a, b⟩) = .ok ⟨a, b⟩ := by
  have hparse : json.parse (marshalCallbackInfo ⟨a, b⟩) =
      some (json.Value.object [(str "async_id", json.Value.string a),
        (str "base64_body", json.Value.string b)]) := by
    unfold json.parse
    rw [marshalCallbackInfo_plain a b ha hb]
    obtain ⟨f, hf⟩ := Nat.exists_eq_add_of_le (show 4 ≤ (Fin.ofNat 123 :: Fin.ofNat 34
        :: (str "async_id" ++ Fin.ofNat 34
        :: Fin.ofNat 58 :: Fin.ofNat 34 :: (a ++ Fin.ofNat 34 :: Fin.ofNat 44 :: Fin.ofNat 34
        :: (str "base64_body" ++ Fin.ofNat 34 :: Fin.ofNat 58 :: Fin.ofNat 34
        :: (b ++ Fin.ofNat 34 :: Fin.ofNat 125 :: []))))).length + 1 by simp; omega)
    rw [Nat.add_comm 4 f] at hf
    rw [hf, parseValue_object _ _ _ (by decide),
      parseMembers_more _ _ _ _ _ async_id_plain ha,
      parseMembers_last _ _ _ _ _ base64_body_plain hb]
    rfl
  unfold unmarshalCallbackInfo
  rw [hparse]
  have k1 : json.keyMatches (str "async_id") (str "async_id") = true := by decide
  have k2 : json.keyMatches (str "async_id") (str "base64_body") = false := by decide
  have k3 : json.keyMatches (str "base64_body") (str "base64_body") = true := by decide
  simp [storeMembers, k1, k2, k3]

theorem enc6_plain : ∀ n : Fin 64, json.isPlain (base64.enc6 n.val) = true := by
  decide

theorem EncodeToString_plain (B : Bytes) :
    ∀ c ∈ base64.EncodeToString B, json.isPlain c = true := by
  intro c hc
  rcases EncodeToString_alphabet B c hc with ⟨n, hn, rfl⟩ | rfl
  · exact enc6_plain ⟨n, hn⟩
  · decide

theorem hexDigitLower_plain : ∀ n : Fin 16, json.isPlain (uuid.hexDigitLower n.val) = true := by
  decide

theorem encodeHex_plain (bs : Bytes) : ∀ c ∈ uuid.encodeHex bs, json.isPlain c = true := by
  intro c hc
  simp only [uuid.encodeHex, List.mem_flatMap, List.mem_cons, List.mem_singleton,
    List.not_mem_nil, or_false] at hc
  obtain ⟨b, _, rfl | rfl⟩ := hc
  · exact hexDigitLower_plain ⟨b.val / 16, by omega⟩
  · exact hexDigitLower_plain ⟨b.val % 16, by omega⟩

/-- A correlation ID made by `uuid.NewString()` is plain text: hexadecimal digits and `-`. -/
theorem NewString_plain (rnd : Bytes) : ∀ c ∈ uuid.NewString rnd, json.isPlain c = true := by
  intro c hc
  have hdash : ∀ x ∈ str "-", json.isPlain x = true := by decide!
  simp only [uuid.NewString, List.mem_append] at hc
  rcases hc with (((((((hc | hc) | hc) | hc) | hc) | hc) | hc) | hc) | hc
  all_goals first
    | exact encodeHex_plain _ c hc
    | exact hdash c hc

/-- The envelope that the handler makes from a plain correlation ID and a body reads back as that
body. -/
theorem envelopeFor_marshal (asyncID body : Bytes) (hp : ∀ c ∈ asyncID, json.isPlain c = true) :
    envelopeFor asyncID (marshalCallbackInfo ⟨asyncID, base64.EncodeToString body⟩) =
      some body := by
  unfold envelopeFor
  rw [unmarshal_marshal_plain asyncID _ hp (EncodeToString_plain body)]
  simp [DecodeString_EncodeToString]

/-- Body fidelity below the largest limit. For a client with `0 < maxSize < 2^63 - 1`, a waiter
whose correlation ID is plain text (as every ID made by `uuid.NewString()` is) and a validly
signed callback with that ID whose readable body has at most `maxSize` bytes: the handler calls
`Pub` once, and `processMsg` on that payload, on any client that holds the waiter with an empty
channel, puts into the channel the message ID it was given and exactly the body posted. -/
theorem CallbackHandler_body_fidelity {μ ν : Type} (M : Messager μ) (c : Client μ)
    (c' : Client ν) (chans : Chans) (w : WaiterInfo) (r : http.Request) (msgID : Bytes)
    (hpos : 0 < c.maxSize) (hmax : c.maxSize < 2 ^ 63 - 1)
    (hreg : GoMap.lookup c'.waiters w.AsyncID = some w)
    (hempty : chans.get? w.ResultC = some [])
    (hplain : ∀ b ∈ w.AsyncID, json.isPlain b = true)
    (hid : r.URL.Query.Get (str "async_id") = w.AsyncID)
    (hsign : signature.CheckSign (r.URL.Query.Get (str "async_id"))
      (r.URL.Query.Get (str "random")) (r.URL.Query.Get (str "sign")) = true)
    (hread : r.Body.err = none) (hlen : (r.Body.data.length : Int) ≤ c.maxSize) :
    (c.CallbackHandler M r).trace =
        [Event.Pub (marshalCallbackInfo ⟨w.AsyncID, base64.EncodeToString r.Body.data⟩)]
    ∧ c'.processMsg chans msgID
          (marshalCallbackInfo ⟨w.AsyncID, base64.EncodeToString r.Body.data⟩) =
        ((str "success", none), chans.set w.ResultC [⟨msgID, r.Body.data⟩]) := by
  constructor
  · have hw : wrapInt64 (c.maxSize + 1) = c.maxSize + 1 := wrapInt64_small _ (by omega) (by omega)
    have hbuf : io.ReadAllLimit r.Body (c.maxSize + 1) = .ok r.Body.data := by
      unfold io.ReadAllLimit
      rw [if_neg (by omega), if_neg (by omega), hread]
    have hnot : ¬ ((r.Body.data.length : Int) > c.maxSize) := by omega
    rw [hid] at hsign
    unfold Client.CallbackHandler
    simp only [hid, hsign, hw, hbuf, Bool.not_true, Bool.false_eq_true, if_false]
    rw [if_neg hnot]
    rcases hp : M.Pub c.messager (marshalCallbackInfo
        ⟨w.AsyncID, base64.EncodeToString r.Body.data⟩) with ⟨res, m⟩
    cases res <;> rfl
  · rw [processMsg_of_envelope c' chans w.AsyncID msgID _ r.Body.data
      (envelopeFor_marshal _ _ hplain), hreg]
    simp only [hempty]

/-- Body fidelity on the test waiter: the callback that posts "A" against a limit of 10. -/
theorem CallbackHandler_body_fidelity_witness :
    (waitingClient.CallbackHandler logMessager signedWaiterCallback).trace =
        [Event.Pub (marshalCallbackInfo ⟨testWaiter.AsyncID, base64.EncodeToString (str "A")⟩)]
    ∧ waitingClient.processMsg [[]] (str "0-0")
          (marshalCallbackInfo ⟨testWaiter.AsyncID, base64.EncodeToString (str "A")⟩) =
        ((str "success", none), [[⟨str "0-0", str "A"⟩]]) :=
  CallbackHandler_body_fidelity logMessager waitingClient waitingClient [[]] testWaiter
    signedWaiterCallback (str "0-0") (by decide) (by decide) (by decide) (by decide)
    (by decide!) (by decide!) (by decide!) rfl (by decide)

/-! ## Maps stay ordered by key -/

theorem GoMap_mem_insert {V : Type} (m : GoMap V) (k : Bytes) (v : V) (e : Bytes × V)
    (h : e ∈ GoMap.insert m k v) : e = (k, v) ∨ e ∈ m := by
  induction m with
  | nil => simpa [GoMap.insert] using h
  | cons x t ih =>
    obtain ⟨k', v'⟩ := x
    by_cases h1 : k < k'
    · simp only [GoMap.insert, h1, if_true, List.mem_cons] at h
      rcases h with h | h | h
      · exact Or.inl h
      · exact Or.inr (by simp [h])
      · exact Or.inr (by simp [h])
    · by_cases h2 : k = k'
      · subst h2
        simp only [GoMap.insert, h1, if_false, if_true, List.mem_cons] at h
        rcases h with h | h
        · exact Or.inl h
        · exact Or.inr (by simp [h])
      · simp only [GoMap.insert, h1, h2, if_false, List.mem_cons] at h
        rcases h with h | h
        · exact Or.inr (by simp [h])
        · rcases ih h with h | h
          · exact Or.inl h
          · exact Or.inr (by simp [h])

/-- Writing a key keeps a map ordered by key, so `Encode`, which walks the map in order, writes
the keys sorted. -/
theorem GoMap_insert_ordered {V : Type} (m : GoMap V) (k : Bytes) (v : V) (h : GoMap.Ordered m) :
    GoMap.Ordered (GoMap.insert m k v) := by
  unfold GoMap.Ordered at *
  induction m with
  | nil => simp [GoMap.insert]
  | cons x t ih =>
    obtain ⟨k', v'⟩ := x
    rw [List.pairwise_cons] at h
    by_cases h1 : k < k'
    · simp only [GoMap.insert, h1, if_true]
      rw [List.pairwise_cons]
      refine ⟨?_, List.pairwise_cons.mpr h⟩
      intro e he
      rcases List.mem_cons.mp he with rfl | he
      · exact h1
      · exact lt_trans h1 (h.1 e he)
    · by_cases h2 : k = k'
      · subst h2
        simp only [GoMap.insert, h1, if_false, if_true]
        rw [List.pairwise_cons]
        exact ⟨fun e he => h.1 e he, h.2⟩
      · simp only [GoMap.insert, h1, h2, if_false]
        rw [List.pairwise_cons]
        refine ⟨?_, ih h.2⟩
        intro e he
        rcases GoMap_mem_insert t k v e he with rfl | he
        · rcases lt_trichotomy k k' with h3 | h3 | h3
          · exact absurd h3 h1
          · exact absurd h3 h2
          · exact h3
        · exact h.1 e he

theorem parseQuery_ordered (fuel : Nat) (m : url.Values) (query : Bytes) (h : GoMap.Ordered m) :
    GoMap.Ordered (url.parseQuery fuel m query) := by
  induction fuel generalizing m query with
  | zero => simpa [url.parseQuery] using h
  | succ f ih =>
    rw [url.parseQuery]
    split
    · exact h
    · simp only
      split
      · exact ih _ _ h
      · split
        · exact ih _ _ h
        · split
          · exact ih _ _ (GoMap_insert_ordered _ _ _ h)
          · exact ih _ _ h

/-- What `URL.Query()` returns is ordered by key. -/
theorem ParseQuery_ordered (query : Bytes) : GoMap.Ordered (url.ParseQuery query) :=
  parseQuery_ordered _ _ _ List.Pairwise.nil

/-! ## The stream messager -/

open messager

theorem MsgID_Gt_iff (a b : MsgID) :
    a.Gt b = true ↔
      (a.MsTimestamp > b.MsTimestamp ∨ (a.MsTimestamp = b.MsTimestamp ∧ a.Seq > b.Seq)) := by
  unfold MsgID.Gt
  by_cases h : a.MsTimestamp = b.MsTimestamp
  · simp [h]
  · simp [h]

theorem MsgID_Gt_false_iff (a b : MsgID) :
    a.Gt b = false ↔
      (a.MsTimestamp < b.MsTimestamp ∨ (a.MsTimestamp = b.MsTimestamp ∧ a.Seq ≤ b.Seq)) := by
  rw [← Bool.not_eq_true, MsgID_Gt_iff]
  constructor
  · intro h
    by_cases h1 : a.MsTimestamp = b.MsTimestamp
    · right
      refine ⟨h1, ?_⟩
      by_contra h2
      exact h (Or.inr ⟨h1, by omega⟩)
    · left
      by_contra h2
      exact h (Or.inl (by omega))
  · rintro (h | ⟨h1, h2⟩) (h3 | ⟨h3, h4⟩) <;> omega

theorem MsgID_Gt_irrefl (a : MsgID) : a.Gt a = false := by
  rw [MsgID_Gt_false_iff]; right; exact ⟨rfl, le_refl _⟩

theorem MsgID_Gt_trans (a b c : MsgID) (h1 : a.Gt b = true) (h2 : b.Gt c = true) :
    a.Gt c = true := by
  rw [MsgID_Gt_iff] at *
  rcases h1 with h1 | ⟨h1, h1'⟩ <;> rcases h2 with h2 | ⟨h2, h2'⟩
  · left; omega
  · left; omega
  · left; omega
  · right; exact ⟨by omega, by omega⟩

/-- A cursor that is not above `b` stays not above whatever is not below `b`. -/
theorem MsgID_not_Gt_trans (a b c : MsgID) (h1 : a.Gt b = false) (h2 : b.Gt c = false) :
    a.Gt c = false := by
  rw [MsgID_Gt_false_iff] at *
  rcases h1 with h1 | ⟨h1, h1'⟩ <;> rcases h2 with h2 | ⟨h2, h2'⟩
  · left; omega
  · left; omega
  · left; omega
  · right; exact ⟨by omega, by omega⟩

theorem MsgID_Gt_asymm (a b : MsgID) (h : a.Gt b = true) : b.Gt a = false := by
  rw [MsgID_Gt_iff] at h
  rw [MsgID_Gt_false_iff]
  rcases h with h | ⟨h, h'⟩
  · left; omega
  · right; exact ⟨h.symm, by omega⟩

theorem MsgID_Gt_total (a b : MsgID) (h : a ≠ b) : a.Gt b = true ∨ b.Gt a = true := by
  rw [MsgID_Gt_iff, MsgID_Gt_iff]
  rcases a with ⟨at_, as⟩
  rcases b with ⟨bt, bs⟩
  simp only [ne_eq, MsgID.mk.injEq, not_and] at h
  simp only
  by_cases h1 : at_ = bt
  · have := h h1
    rcases lt_or_gt_of_ne this with h2 | h2
    · right; right; exact ⟨h1.symm, h2⟩
    · left; right; exact ⟨h1, h2⟩
  · rcases lt_or_gt_of_ne h1 with h2 | h2
    · right; left; exact h2
    · left; left; exact h2

/-- Claim C16. `MsgID.Gt` is the strict lexicographic order on (MsTimestamp, Seq): it is
irreflexive and transitive, of two different IDs exactly one is greater than the other, and
`a.Gt(b)` holds exactly when the timestamp of `a` is greater, or the timestamps are equal and the
sequence number of `a` is greater. -/
theorem MsgID_Gt_strict_total_order :
    (∀ a : MsgID, a.Gt a = false)
    ∧ (∀ a b c : MsgID, a.Gt b = true → b.Gt c = true → a.Gt c = true)
    ∧ (∀ a b : MsgID, a ≠ b →
        (a.Gt b = true ∧ b.Gt a = false) ∨ (a.Gt b = false ∧ b.Gt a = true))
    ∧ (∀ a b : MsgID, a.Gt b = true ↔
        (a.MsTimestamp > b.MsTimestamp ∨ (a.MsTimestamp = b.MsTimestamp ∧ a.Seq > b.Seq))) := by
  refine ⟨MsgID_Gt_irrefl, MsgID_Gt_trans, ?_, MsgID_Gt_iff⟩
  intro a b h
  rcases MsgID_Gt_total a b h with h1 | h1
  · exact Or.inl ⟨h1, MsgID_Gt_asymm a b h1⟩
  · exact Or.inr ⟨MsgID_Gt_asymm b a h1, h1⟩

/-- Claim C16 at the IDs 5-9, 6-0 and 6-1, and at the ends of the int64 range. -/
theorem MsgID_Gt_strict_total_order_witness :
    MsgID.Gt ⟨6, 1⟩ ⟨5, 9⟩ = true
    ∧ MsgID.Gt ⟨9223372036854775807, 0⟩ ⟨-9223372036854775808, 9223372036854775807⟩ = true :=
  ⟨MsgID_Gt_strict_total_order.2.1 ⟨6, 1⟩ ⟨6, 0⟩ ⟨5, 9⟩ (by decide) (by decide),
   (MsgID_Gt_strict_total_order.2.2.2 _ _).2 (Or.inl (by decide))⟩

/-- The cursor update of `DupSub`, started at a cursor: it ends at a cursor that is not below the
old one, and when every ID parsed it ends at the greatest of the old cursor and the IDs. -/
theorem advanceCursor_spec (msgs : List XMessage) :
    ∀ cur : MsgID, ∃ cur1 : MsgID,
      (advanceCursor (some cur) msgs).2 = some cur1 ∧ cur.Gt cur1 = false
      ∧ ((advanceCursor (some cur) msgs).1 = none →
          ∃ ids : List MsgID,
            List.Forall₂ (fun (msg : XMessage) (id : MsgID) => ParseMsgID msg.ID = .ok id) msgs ids
            ∧ cur1 ∈ cur :: ids ∧ ∀ x ∈ cur :: ids, x.Gt cur1 = false) := by
  induction msgs with
  | nil =>
    intro cur
    refine ⟨cur, rfl, MsgID_Gt_irrefl cur, fun _ => ⟨[], List.Forall₂.nil, by simp, ?_⟩⟩
    intro x hx
    simp only [List.mem_singleton] at hx
    subst hx
    exact MsgID_Gt_irrefl x
  | cons msg rest ih =>
    intro cur
    cases hp : ParseMsgID msg.ID with
    | error e =>
      refine ⟨cur, ?_, MsgID_Gt_irrefl cur, ?_⟩
      · simp only [advanceCursor, hp]
      · simp only [advanceCursor, hp]
        intro h
        cases h
    | ok id =>
      have hstep : advanceCursor (some cur) (msg :: rest)
          = advanceCursor (some (if id.Gt cur then id else cur)) rest := by
        simp only [advanceCursor, hp]
        by_cases hg : id.Gt cur = true
        · simp only [hg, if_true]
        · simp only [hg, if_false]
          rfl
      have hcur : cur.Gt (if id.Gt cur then id else cur) = false := by
        by_cases hg : id.Gt cur = true
        · simp only [hg, if_true]
          exact MsgID_Gt_asymm id cur hg
        · simp only [hg, if_false]
          exact MsgID_Gt_irrefl cur
      have hid : id.Gt (if id.Gt cur then id else cur) = false := by
        by_cases hg : id.Gt cur = true
        · simp only [hg, if_true]
          exact MsgID_Gt_irrefl id
        · simp only [hg, if_false]
          simpa using hg
      obtain ⟨cur1, h1, h2, h3⟩ := ih (if id.Gt cur then id else cur)
      refine ⟨cur1, by rw [hstep]; exact h1, MsgID_not_Gt_trans _ _ _ hcur h2, ?_⟩
      rw [hstep]
      intro hnone
      obtain ⟨ids, hall, hmem, hmax⟩ := h3 hnone
      refine ⟨id :: ids, List.Forall₂.cons hp hall, ?_, ?_⟩
      · rcases List.mem_cons.1 hmem with h | h
        · by_cases hg : id.Gt cur = true
          · simp only [hg, if_true] at h
            rw [h]; simp
          · simp only [hg, if_false] at h
            rw [h]; simp
        · simp [h]
      · intro x hx
        rcases List.mem_cons.1 hx with h | h
        · subst h
          exact MsgID_not_Gt_trans _ _ _ hcur h2
        · rcases List.mem_cons.1 h with h | h
          · subst h
            exact MsgID_not_Gt_trans _ _ _ hid h2
          · exact hmax x (List.mem_cons_of_mem _ h)

/-- Claim C11. Cursor monotonicity of `DupSub`: from a messager that has a cursor, on every reply
of the broker (nothing read, an error, a message ID that does not parse, a batch) the cursor after
the call is not below the cursor before it; and when the call returns a batch of messages without
error, every message ID of the batch parsed and the cursor is the greatest of the old cursor and
those IDs. -/
theorem DupSub_cursor_monotone (r : RedisMessager) (cur : MsgID) (xread : XReadReply)
    (hcur : r.lastSubID = some cur) :
    ∃ cur1 : MsgID, (r.DupSub xread).r.lastSubID = some cur1 ∧ cur.Gt cur1 = false
      ∧ (∀ (first : XStream) (others : List XStream) (result : GoMap Bytes),
          xread = .ok (first :: others) → (r.DupSub xread).ret = .ok result →
          ∃ ids : List MsgID,
            List.Forall₂ (fun (msg : XMessage) (id : MsgID) => ParseMsgID msg.ID = .ok id)
              first.Messages ids
            ∧ cur1 ∈ cur :: ids ∧ ∀ x ∈ cur :: ids, x.Gt cur1 = false) := by
  cases xread with
  | Nil =>
    refine ⟨cur, ?_, MsgID_Gt_irrefl cur, ?_⟩
    · simp only [RedisMessager.DupSub, hcur]
    · intro first others result h
      cases h
  | error e =>
    refine ⟨cur, ?_, MsgID_Gt_irrefl cur, ?_⟩
    · simp only [RedisMessager.DupSub, hcur]
    · intro first others result h
      cases h
  | ok data =>
    cases data with
    | nil =>
      refine ⟨cur, ?_, MsgID_Gt_irrefl cur, ?_⟩
      · simp only [RedisMessager.DupSub, hcur]
      · intro first others result h
        cases h
    | cons first others =>
      obtain ⟨cur1, h1, h2, h3⟩ := advanceCursor_spec first.Messages cur
      have hrun : (r.DupSub (.ok (first :: others))).r.lastSubID = some cur1
          ∧ (∀ result, (r.DupSub (.ok (first :: others))).ret = .ok result →
              (advanceCursor (some cur) first.Messages).1 = none) := by
        simp only [RedisMessager.DupSub, hcur]
        rcases hadv : advanceCursor (some cur) first.Messages with ⟨err, c⟩
        rw [hadv] at h1
        simp only at h1
        cases err with
        | none => exact ⟨h1, fun _ _ => rfl⟩
        | some e =>
          refine ⟨h1, ?_⟩
          intro result h
          cases h
      refine ⟨cur1, hrun.1, h2, ?_⟩
      intro first1 others1 result heq hret
      have hfirst : first1 = first := by
        injection heq with h
        injection h with h _
        exact h.symm
      subst hfirst
      exact h3 (hrun.2 result hret)


/-! ## Publishing -/

theorem MsgID_String_ne_nil (m : MsgID) : m.String ≠ [] := by
  unfold MsgID.String
  intro h
  have := congrArg List.length h
  simp only [List.length_append, List.length_nil] at this
  have h1 : (str "-").length = 1 := by decide
  omega

/-- Claim C15 (what the code does). Whatever a messager has published so far, the request `Pub`
hands to `XAdd` names the stream, the entry and `Approx: true`, and its `MinID` is empty: after a
published ID was observed it is not that ID less a retention time (`MsgRetainDur` or any other),
so the broker is not asked to drop anything. -/
theorem Pub_sends_no_MinID (r : RedisMessager) (data : Bytes) (xadd : Except GoError Bytes) :
    (r.Pub data xadd).item = ⟨r.stream, false, 0, [], true, 0, [], [(str "data", data)]⟩
    ∧ (r.Pub data xadd).item.MinID = []
    ∧ ∀ (id : MsgID) (retain : Int), r.lastPubID = some id →
        (r.Pub data xadd).item.MinID ≠ (id.Add (-retain)).String := by
  have hitem : (r.Pub data xadd).item
      = ⟨r.stream, false, 0, [], true, 0, [], [(str "data", data)]⟩ := by
    unfold RedisMessager.Pub
    cases xadd with
    | error e => rfl
    | ok msgID =>
      simp only
      cases ParseMsgID msgID with
      | error e => rfl
      | ok newPubID => rfl
  refine ⟨hitem, by rw [hitem], ?_⟩
  intro id retain _
  rw [hitem]
  exact fun h => MsgID_String_ne_nil _ h.symm

/-- Claim C15 on a messager that published 1700000000000-0: the next request carries no `MinID`,
where the threshold ten minutes back reads 1699999400000-0. -/
theorem Pub_sends_no_MinID_witness :
    (testMessager.Pub (str "x") (.ok (str "1700000000001-0"))).item.MinID = []
    ∧ (testMessager.Pub (str "x") (.ok (str "1700000000001-0"))).item.MinID
        ≠ str "1699999400000-0"
    ∧ (MsgID.Add ⟨1700000000000, 0⟩ (-MsgRetainDur)).String = str "1699999400000-0" :=
  ⟨(Pub_sends_no_MinID testMessager (str "x") (.ok (str "1700000000001-0"))).2.1,
   (Pub_sends_no_MinID testMessager (str "x") (.ok (str "1700000000001-0"))).2.2
      ⟨1700000000000, 0⟩ MsgRetainDur rfl,
   by decide⟩

/-! ## Configuration -/

theorem RuneCount_pos (fuel : Nat) (c : Byte) (t : Bytes) :
    0 < utf8.RuneCount (fuel + 1) (c :: t) := by
  unfold utf8.RuneCount
  omega

theorem isGtString_zero (s : Bytes) : validator.isGtString s 0 = true ↔ s ≠ [] := by
  unfold validator.isGtString utf8.RuneCountInString
  cases s with
  | nil => simp [utf8.RuneCount]
  | cons c t =>
    have := RuneCount_pos t.length c t
    simp only [List.length_cons, gt_iff_lt, decide_eq_true_eq, ne_eq, reduceCtorEq,
      not_false_eq_true, iff_true]
    exact_mod_cast this

theorem hasScheme_nil : url.hasScheme [] = false := by decide

/-- Claim C14. `Config.Validate`, with a `url` rule of the validator that accepts, among the texts
`url.Parse` reads, only those written with a scheme: it returns an error when `CallbackURL` is
empty or has no scheme, when `MaxCallbackBytes` or `TimeoutSeconds` is zero or negative, and when
`Stream` is empty; and it returns no error when `url.Parse` and the `url` rule accept
`CallbackURL`, the two numbers are positive and `Stream` is not empty. -/
theorem Config_Validate_checks (syn : url.Syntax) (urlRule : Bytes → Bool) (c : Config)
    (hrule : ∀ s u, url.Parse syn s = .ok u → urlRule s = true → url.hasScheme s = true) :
    ((c.CallbackURL = [] ∨ url.hasScheme c.CallbackURL = false ∨ c.MaxCallbackBytes ≤ 0
        ∨ c.Stream = [] ∨ c.TimeoutSeconds ≤ 0) → (c.Validate syn urlRule).isSome = true)
    ∧ ((∃ u, url.Parse syn c.CallbackURL = .ok u) → urlRule c.CallbackURL = true →
        0 < c.MaxCallbackBytes → c.Stream ≠ [] → 0 < c.TimeoutSeconds →
        c.Validate syn urlRule = none) := by
  constructor
  · intro h
    unfold Config.Validate
    cases hp : url.Parse syn c.CallbackURL with
    | error e => rfl
    | ok u =>
      simp only
      have hfail : (urlRule c.CallbackURL && validator.isGtInt c.MaxCallbackBytes 0
          && validator.isGtString c.Stream 0 && validator.isGtInt c.TimeoutSeconds 0) = false := by
        rcases h with h | h | h | h | h
        · have : urlRule c.CallbackURL = false := by
            cases hu : urlRule c.CallbackURL with
            | false => rfl
            | true =>
              have := hrule _ u hp hu
              rw [h, hasScheme_nil] at this
              cases this
          simp [this]
        · have : urlRule c.CallbackURL = false := by
            cases hu : urlRule c.CallbackURL with
            | false => rfl
            | true =>
              have := hrule _ u hp hu
              rw [h] at this
              cases this
          simp [this]
        · have : validator.isGtInt c.MaxCallbackBytes 0 = false := by
            unfold validator.isGtInt
            simpa using h
          simp [this]
        · have : validator.isGtString c.Stream 0 = false := by
            rw [← Bool.not_eq_true, isGtString_zero]
            simp [h]
          simp [this]
        · have : validator.isGtInt c.TimeoutSeconds 0 = false := by
            unfold validator.isGtInt
            simpa using h
          simp [this]
      unfold Config.validateStruct
      rw [hfail]
      rfl
  · rintro ⟨u, hu⟩ hurl hmax hstream htime
    unfold Config.Validate
    rw [hu]
    simp only
    unfold Config.validateStruct
    have h1 : validator.isGtInt c.MaxCallbackBytes 0 = true := by
      unfold validator.isGtInt
      simpa using hmax
    have h2 : validator.isGtInt c.TimeoutSeconds 0 = true := by
      unfold validator.isGtInt
      simpa using htime
    rw [hurl, h1, h2, (isGtString_zero c.Stream).2 hstream]
    rfl

/-- Claim C14 on the configurations of `TestConfig_Validate`: the valid one passes, and the
callback URL "mhapi.com", which `url.Parse` reads and which has no scheme, does not. -/
theorem Config_Validate_checks_witness :
    testConfig.Validate url.asWritten testURLRule = none
    ∧ (Config.Validate url.asWritten testURLRule ⟨str "mhapi.com", 1, str "123", 10⟩).isSome
        = true :=
  ⟨(Config_Validate_checks url.asWritten testURLRule testConfig (fun _ _ _ h => h)).2
      ⟨⟨str "http://mhapi.com", true, [], []⟩, rfl⟩ (by decide) (by decide) (by decide)
      (by decide),
   (Config_Validate_checks url.asWritten testURLRule ⟨str "mhapi.com", 1, str "123", 10⟩
      (fun _ _ _ h => h)).1 (Or.inr (Or.inl (by decide)))⟩

/-- The other configurations `TestConfig_Validate` expects to fail do fail: an empty callback URL,
a limit of 0 and of -1, an empty stream name and a timeout of 0. -/
theorem Config_Validate_test_table :
    (Config.Validate url.asWritten testURLRule ⟨[], 1, str "123", 10⟩).isSome = true
    ∧ (Config.Validate url.asWritten testURLRule ⟨str "http://mhapi.com?", 0, str "123", 10⟩).isSome
        = true
    ∧ (Config.Validate url.asWritten testURLRule ⟨str "http://mhapi.com?", -1, str "123", 10⟩).isSome
        = true
    ∧ (Config.Validate url.asWritten testURLRule ⟨str "http://mhapi.com?", 1, [], 10⟩).isSome
        = true
    ∧ (Config.Validate url.asWritten testURLRule ⟨str "http://mhapi.com?", 1, str "123", 0⟩).isSome
        = true := by
  decide

/-! ## Locking -/

/-- The two writers keep the lock discipline: whenever `Regist` reaches the map it writes it
between `Lock` and `Unlock`, and so does `Release`. -/
theorem writers_guarded {σ μ : Type} (syn : url.Syntax) (R : ReqI σ) (c : Client μ)
    (chans : Chans) (req : σ) (rnd : Bytes) (random : Int) :
    guarded .no (c.RegistLocking syn R chans req rnd random) = true
    ∧ guarded .no Client.ReleaseLocking = true := by
  constructor
  · unfold Client.RegistLocking
    cases (c.Regist syn R chans req rnd random).ret <;> rfl
  · rfl

/-- Claim C17 (what the code does). Whenever the envelope decodes, `processMsg` reads the waiter
index and takes no lock for it: its run is the one step `ReadWaiters`, with no `RLock` before
it, so the lock discipline is broken. -/
theorem processMsg_lookup_unguarded (asyncID buf body : Bytes)
    (henv : envelopeFor asyncID buf = some body) :
    Client.processMsgLocking buf = [LockOp.ReadWaiters]
    ∧ guarded .no (Client.processMsgLocking buf) = false := by
  have h : Client.processMsgLocking buf = [LockOp.ReadWaiters] := by
    unfold envelopeFor at henv
    unfold Client.processMsgLocking
    cases hu : unmarshalCallbackInfo buf with
    | error e => simp [hu] at henv
    | ok info =>
      simp only [hu] at henv
      by_cases hid : info.AsyncID = asyncID
      · simp only [hid, if_true] at henv
        simp only [henv]
      · simp [hid] at henv
  rw [h]
  exact ⟨rfl, rfl⟩

/-- Claim C17 on the test envelope; under `RLock` and `RUnlock` the same read would keep the
discipline. -/
theorem processMsg_lookup_unguarded_witness :
    guarded .no (Client.processMsgLocking testEnvelope) = false
    ∧ guarded .no [LockOp.RLock, LockOp.ReadWaiters, LockOp.RUnlock] = true :=
  ⟨(processMsg_lookup_unguarded testWaiter.AsyncID testEnvelope (str "\x7b\"msg\":1\x7d")
      (by decide!)).2, by decide⟩

/-! ## Release and per-call options -/

theorem GoMap_lookup_delete_ne {V : Type} (m : GoMap V) (k j : Bytes) (h : j ≠ k) :
    GoMap.lookup (GoMap.delete m k) j = GoMap.lookup m j := by
  induction m with
  | nil => rfl
  | cons e t ih =>
    rcases e with ⟨k', v⟩
    by_cases hk : k' = k
    · subst hk
      have h1 : GoMap.delete ((k', v) :: t) k' = GoMap.delete t k' := by
        simp [GoMap.delete]
      rw [h1, ih]
      simp only [GoMap.lookup]
      rw [if_neg (fun h2 => h h2.symm)]
    · have h1 : GoMap.delete ((k', v) :: t) k = (k', v) :: GoMap.delete t k := by
        simp [GoMap.delete, hk]
      rw [h1]
      simp only [GoMap.lookup]
      rw [ih]

/-- What a successful `Regist` does to the client: it writes the waiter under its own correlation
ID and changes nothing else. -/
theorem Regist_ok_client {σ μ : Type} (syn : url.Syntax) (R : ReqI σ) (c : Client μ)
    (chans : Chans) (req : σ) (rnd : Bytes) (random : Int) (w : WaiterInfo)
    (h : (c.Regist syn R chans req rnd random).ret = .ok w) :
    (c.Regist syn R chans req rnd random).client
      = { c with waiters := GoMap.insert c.waiters w.AsyncID w } := by
  unfold Client.Regist at h ⊢
  by_cases h1 : R.GetCallbackURL req ≠ []
  · rw [if_pos h1] at h
    cases h
  · rw [if_neg h1] at h ⊢
    cases hp : url.Parse syn c.callbackURL with
    | error e =>
      rw [hp] at h
      cases h
    | ok newURL =>
      rw [hp] at h
      simp only at h ⊢
      split at h
      · cases h
      · rename_i h2
        rw [if_neg h2]
        simp only [Ret.ok.injEq] at h
        subst h
        rfl

/-- The paths of `ToSync` after a successful `Regist`: on each of them the call ends on the client
`Regist` left, less the waiter (and with the messager as `Ack` left it), and the calls made start
with those of `Regist` followed by the submission under the context with the resolved timeout. -/
theorem ToSync_after_Regist {σ μ V : Type} (syn : url.Syntax) (M : Messager μ) (R : ReqI σ)
    (T : reflect.GoType) (decode : Bytes → Except GoError V)
    (defaultClient : Option (Client μ)) (chans : Chans) (env : Env) (ctx : Context) (req : σ)
    (async : Context → σ → σ × Option GoError) (opts : List (Option (CallOption μ)))
    (opt : CallOption μ) (client : Client μ) (w : WaiterInfo)
    (hopts : mergeOptions opts = .ok opt)
    (hclient : (if opt.Client.isSome then opt.Client else defaultClient) = some client)
    (htype : checkType T = .ok ())
    (hreg : (client.Regist syn R chans req env.rnd env.random).ret = .ok w) :
    (∃ after : Client μ,
      (ToSync syn M R T decode defaultClient chans env ctx req async opts).client = some after
      ∧ after.waiters
          = GoMap.delete (client.Regist syn R chans req env.rnd env.random).client.waiters w.AsyncID
      ∧ after.callbackURL = client.callbackURL ∧ after.maxSize = client.maxSize
      ∧ after.timeout = client.timeout)
    ∧ (∃ tail : List Event,
        (ToSync syn M R T decode defaultClient chans env ctx req async opts).trace
          = (client.Regist syn R chans req env.rnd env.random).trace
            ++ Event.Async
                (ctx.WithTimeout env.now (if opt.Timeout > 0 then opt.Timeout else client.timeout))
                (R.GetCallbackURL (client.Regist syn R chans req env.rnd env.random).req)
              :: tail) := by
  have hc := Regist_ok_client syn R client chans req env.rnd env.random w hreg
  have hurl : (client.Regist syn R chans req env.rnd env.random).client.callbackURL
      = client.callbackURL := by rw [hc]
  have hmax : (client.Regist syn R chans req env.rnd env.random).client.maxSize
      = client.maxSize := by rw [hc]
  have htime : (client.Regist syn R chans req env.rnd env.random).client.timeout
      = client.timeout := by rw [hc]
  unfold ToSync
  simp only [hopts]
  rw [hclient]
  simp only [htype, hreg]
  split
  · exact ⟨⟨_, rfl, rfl, hurl, hmax, htime⟩, ⟨[], by simp⟩⟩
  · split
    · exact ⟨⟨_, rfl, rfl, hurl, hmax, htime⟩, ⟨[], by simp⟩⟩
    · split
      · exact ⟨⟨_, rfl, rfl, hurl, hmax, htime⟩, ⟨_, by simp; rfl⟩⟩
      · split
        · exact ⟨⟨_, rfl, rfl, hurl, hmax, htime⟩, ⟨_, by simp; rfl⟩⟩
        · exact ⟨⟨_, rfl, rfl, hurl, hmax, htime⟩, ⟨_, by simp; rfl⟩⟩

theorem GoMap_delete_insert_self {V : Type} (m : GoMap V) (k : Bytes) (v : V) :
    GoMap.delete (GoMap.insert m k v) k = GoMap.delete m k := by
  induction m with
  | nil => simp [GoMap.insert, GoMap.delete]
  | cons e t ih =>
    rcases e with ⟨k', v'⟩
    simp only [GoMap.insert]
    by_cases h1 : k < k'
    · rw [if_pos h1]
      simp [GoMap.delete]
    · rw [if_neg h1]
      by_cases h2 : k = k'
      · rw [if_pos h2]
        subst h2
        simp [GoMap.delete]
      · rw [if_neg h2]
        have h3 : ¬ k' = k := fun h => h2 h.symm
        have ih' : List.filter (fun e => !decide (e.1 = k)) (GoMap.insert t k v)
            = List.filter (fun e => !decide (e.1 = k)) t := ih
        simp [GoMap.delete, h3, ih']

/-- The loop of `mergeOptions` over options that are all non-nil, one more option at the end. -/
theorem mergeOptionsFrom_append {μ : Type} (os : List (CallOption μ)) (o acc : CallOption μ) :
    mergeOptionsFrom ((os ++ [o]).map some) acc
      = match mergeOptionsFrom (os.map some) acc with
        | .ok r => .ok ⟨if o.Client.isSome then o.Client else r.Client,
            if o.Timeout > 0 then o.Timeout else r.Timeout⟩
        | .error e => .error e
        | .panic t => .panic t := by
  induction os generalizing acc with
  | nil => rfl
  | cons a t ih =>
    simp only [List.cons_append, List.map_cons, mergeOptionsFrom]
    exact ih _

theorem mergeOptions_eq_last {μ : Type} (os : List (CallOption μ)) :
    mergeOptions (os.map some) = .ok ⟨lastClient os, lastTimeout os⟩ := by
  unfold mergeOptions
  induction os using List.reverseRecOn with
  | nil => rfl
  | append_singleton os o ih =>
    rw [mergeOptionsFrom_append, ih]
    simp only
    congr 2
    · unfold lastClient
      rw [List.filterMap_append]
      cases hc : o.Client with
      | none => simp [hc]
      | some c => simp [hc]
    · unfold lastTimeout
      rw [List.map_append, List.filter_append]
      by_cases ht : o.Timeout > 0
      · simp [ht]
      · simp [ht]

/-- A nil `*Option` in the list makes the merge panic, whatever stands before and after it. -/
theorem mergeOptionsFrom_nil_panics {μ : Type} (os : List (CallOption μ))
    (rest : List (Option (CallOption μ))) (acc : CallOption μ) :
    mergeOptionsFrom (os.map some ++ none :: rest) acc
      = .panic (str "runtime error: invalid memory address or nil pointer dereference") := by
  induction os generalizing acc with
  | nil => rfl
  | cons a t ih =>
    simp only [List.map_cons, List.cons_append, mergeOptionsFrom]
    exact ih _

/-- Claim C11 on the test batch: from the cursor 5-0 the IDs 7-1, 6-1 and 7-0 move the cursor to
7-1, which is not below 5-0. -/
theorem DupSub_cursor_monotone_witness :
    ∃ cur1 : MsgID, (testMessager.DupSub testBatch).r.lastSubID = some cur1
      ∧ MsgID.Gt ⟨5, 0⟩ cur1 = false ∧ cur1 = ⟨7, 1⟩ :=
  (DupSub_cursor_monotone testMessager ⟨5, 0⟩ testBatch rfl).elim
    (fun cur1 h => ⟨cur1, h.1, h.2.1, Option.some.inj (h.1.symm.trans (by decide))⟩)

/-- A messager without a cursor cannot subscribe: `DupSub` panics on the nil cursor and leaves
the messager as it was. -/
theorem DupSub_nil_cursor_panics (r : RedisMessager) (xread : XReadReply)
    (h : r.lastSubID = none) :
    (r.DupSub xread).ret
        = .panic (str "runtime error: invalid memory address or nil pointer dereference")
      ∧ (r.DupSub xread).r = r := by
  unfold RedisMessager.DupSub
  rw [h]
  exact ⟨rfl, rfl⟩

/-- The messager `NewRedisMessager` makes has a cursor: one second before the server's clock. -/
theorem NewRedisMessager_cursor (stream : Bytes) (t : Int) :
    ∃ r, NewRedisMessager stream (.ok t) = .ok r
      ∧ r.lastSubID = some ⟨Int.tdiv (wrapInt64 (t - 1000000000)) 1000000, 0⟩ :=
  ⟨_, rfl, rfl⟩

/-- Claim C12. The waiter is released on every path of `ToSync` that follows a successful
`Regist`: whatever the submission, the deliveries, the context, `Ack` and the decoding do, the
call ends on a client whose index does not hold the call's correlation ID and reads at every other
key what the index read before the call; it is the index the call found, less that ID. -/
theorem ToSync_releases_waiter {σ μ V : Type} (syn : url.Syntax) (M : Messager μ) (R : ReqI σ)
    (T : reflect.GoType) (decode : Bytes → Except GoError V)
    (defaultClient : Option (Client μ)) (chans : Chans) (env : Env) (ctx : Context) (req : σ)
    (async : Context → σ → σ × Option GoError) (opts : List (Option (CallOption μ)))
    (opt : CallOption μ) (client : Client μ) (w : WaiterInfo)
    (hopts : mergeOptions opts = .ok opt)
    (hclient : (if opt.Client.isSome then opt.Client else defaultClient) = some client)
    (htype : checkType T = .ok ())
    (hreg : (client.Regist syn R chans req env.rnd env.random).ret = .ok w) :
    ∃ after : Client μ,
      (ToSync syn M R T decode defaultClient chans env ctx req async opts).client = some after
      ∧ GoMap.lookup after.waiters w.AsyncID = none
      ∧ (∀ k, k ≠ w.AsyncID → GoMap.lookup after.waiters k = GoMap.lookup client.waiters k)
      ∧ after.waiters = GoMap.delete client.waiters w.AsyncID := by
  obtain ⟨⟨after, h1, h2, _⟩, _⟩ := ToSync_after_Regist syn M R T decode defaultClient chans env
    ctx req async opts opt client w hopts hclient htype hreg
  rw [Regist_ok_client syn R client chans req env.rnd env.random w hreg] at h2
  simp only at h2
  rw [GoMap_delete_insert_self] at h2
  refine ⟨after, h1, ?_, ?_, h2⟩
  · rw [h2]
    exact GoMap_lookup_delete_self _ _
  · intro k hk
    rw [h2]
    exact GoMap_lookup_delete_ne _ _ _ hk

/-- Claim C12 on the test client, with nothing delivered before the deadline: the call ends with
the deadline error and the index is empty again. -/
theorem ToSync_releases_waiter_witness :
    ∃ after : Client (List Bytes),
      (ToSync (V := Bytes) url.plain logMessager TestReq.reqI
        (reflect.GoType.mk reflect.Kind.Struct (str "tosync.TestCallbackData") none)
        (fun b => .ok b) (some testClient) [] quietEnv ⟨none⟩ ⟨[]⟩ (fun _ r => (r, none))
        []).client = some after
      ∧ GoMap.lookup after.waiters testWaiter.AsyncID = none
      ∧ after.waiters = [] :=
  (ToSync_releases_waiter url.plain logMessager TestReq.reqI
      (reflect.GoType.mk reflect.Kind.Struct (str "tosync.TestCallbackData") none)
      (fun b => .ok b) (some testClient) [] quietEnv ⟨none⟩ ⟨[]⟩ (fun _ r => (r, none)) []
      ⟨none, 0⟩ testClient testWaiter rfl rfl (by decide) Regist_testClient.1).elim
    (fun after h => ⟨after, h.1, h.2.1, h.2.2.2⟩)

/-- Claim C13 (counterexample). A nil `*Option` in the list: `mergeOptions` dereferences it and
panics, so no merged option is returned, and `ToSync` panics with it. -/
theorem mergeOptions_nil_option_panics :
    mergeOptions ([none] : List (Option (CallOption (List Bytes))))
        = .panic (str "runtime error: invalid memory address or nil pointer dereference")
    ∧ (ToSync (V := Bytes) url.plain logMessager TestReq.reqI
        (reflect.GoType.mk reflect.Kind.Struct (str "tosync.TestCallbackData") none)
        (fun b => .ok b) (some testClient) [] quietEnv ⟨none⟩ ⟨[]⟩ (fun _ r => (r, none))
        [none]).ret
        = .panic (str "runtime error: invalid memory address or nil pointer dereference") :=
  ⟨rfl, rfl⟩

/-- Claim C13 (amended). Per-call options merge last-writer-wins over a list of non-nil options:
`mergeOptions` returns the last non-nil `Client` (nil when there is none) and the last strictly
positive `Timeout` (zero when there is none). `ToSync` then works on that client when it is
non-nil and on the default client otherwise: with neither it returns "client not inited", and
after a successful `Regist` on the chosen client it ends on that client less the waiter and has
submitted the request under the context whose timeout is the merged one when positive and the
client's own otherwise. -/
theorem mergeOptions_last_writer_wins {σ μ V : Type} (syn : url.Syntax) (M : Messager μ)
    (R : ReqI σ) (T : reflect.GoType) (decode : Bytes → Except GoError V)
    (defaultClient : Option (Client μ)) (chans : Chans) (env : Env) (ctx : Context) (req : σ)
    (async : Context → σ → σ × Option GoError) (opts : List (Option (CallOption μ)))
    (os : List (CallOption μ)) (hnonnil : opts = os.map some) :
    mergeOptions opts = .ok ⟨lastClient os, lastTimeout os⟩
    ∧ ((if (lastClient os).isSome then lastClient os else defaultClient) = none →
        ToSync syn M R T decode defaultClient chans env ctx req async opts
          = ⟨none, .error (GoError.new (str "client not inited")), req, none, chans, []⟩)
    ∧ (∀ (client : Client μ) (w : WaiterInfo),
        (if (lastClient os).isSome then lastClient os else defaultClient) = some client →
        checkType T = .ok () →
        (client.Regist syn R chans req env.rnd env.random).ret = .ok w →
        ∃ (after : Client μ) (tail : List Event),
          (ToSync syn M R T decode defaultClient chans env ctx req async opts).client = some after
          ∧ after.waiters = GoMap.delete client.waiters w.AsyncID
          ∧ after.callbackURL = client.callbackURL ∧ after.maxSize = client.maxSize
          ∧ after.timeout = client.timeout
          ∧ (ToSync syn M R T decode defaultClient chans env ctx req async opts).trace
              = (client.Regist syn R chans req env.rnd env.random).trace
                ++ Event.Async
                    (ctx.WithTimeout env.now
                      (if lastTimeout os > 0 then lastTimeout os else client.timeout))
                    (R.GetCallbackURL (client.Regist syn R chans req env.rnd env.random).req)
                  :: tail) := by
  subst hnonnil
  have hm := mergeOptions_eq_last os
  refine ⟨hm, ?_, ?_⟩
  · intro hnone
    unfold ToSync
    simp only [hm]
    rw [hnone]
  · intro client w hclient htype hreg
    obtain ⟨⟨after, h1, h2, h3, h4, h5⟩, ⟨tail, h6⟩⟩ := ToSync_after_Regist syn M R T decode
      defaultClient chans env ctx req async (os.map some) ⟨lastClient os, lastTimeout os⟩ client w
      hm hclient htype hreg
    rw [Regist_ok_client syn R client chans req env.rnd env.random w hreg] at h2
    simp only at h2
    rw [GoMap_delete_insert_self] at h2
    exact ⟨after, tail, h1, h2, h3, h4, h5, h6⟩

/-- Claim C13 (amended) on the test's call with the timeout shortened to 500 ms: the two options
merge to the later timeout, and the submission runs under the deadline 500 ms from the start,
where the client's own timeout is 10 s. -/
theorem mergeOptions_last_writer_wins_witness :
    mergeOptions [some (⟨none, 1500000000⟩ : CallOption (List Bytes)), some ⟨none, 500000000⟩]
        = .ok ⟨none, 500000000⟩
    ∧ ∃ tail : List Event,
        (ToSync (V := Bytes) url.plain logMessager TestReq.reqI
          (reflect.GoType.mk reflect.Kind.Struct (str "tosync.TestCallbackData") none)
          (fun b => .ok b) (some testClient) [] quietEnv ⟨none⟩ ⟨[]⟩ (fun _ r => (r, none))
          [some ⟨none, 1500000000⟩, some ⟨none, 500000000⟩]).trace
        = (testClient.Regist url.plain TestReq.reqI [] ⟨[]⟩ (List.replicate 16 0) 1).trace
          ++ Event.Async ⟨some 500000000⟩
              (TestReq.reqI.GetCallbackURL
                (testClient.Regist url.plain TestReq.reqI [] ⟨[]⟩ (List.replicate 16 0) 1).req)
            :: tail :=
  ⟨(mergeOptions_last_writer_wins url.plain logMessager TestReq.reqI
      (reflect.GoType.mk reflect.Kind.Struct (str "tosync.TestCallbackData") none)
      (fun (b : Bytes) => (.ok b : Except GoError Bytes)) (some testClient) [] quietEnv ⟨none⟩
      ⟨[]⟩ (fun _ r => (r, none)) _ [⟨none, 1500000000⟩, ⟨none, 500000000⟩] rfl).1,
   ((mergeOptions_last_writer_wins url.plain logMessager TestReq.reqI
      (reflect.GoType.mk reflect.Kind.Struct (str "tosync.TestCallbackData") none)
      (fun (b : Bytes) => (.ok b : Except GoError Bytes)) (some testClient) [] quietEnv ⟨none⟩
      ⟨[]⟩ (fun _ r => (r, none)) _ [⟨none, 1500000000⟩, ⟨none, 500000000⟩] rfl).2.2
      testClient testWaiter rfl (by decide) Regist_testClient.1).elim
    (fun _ h => h.elim (fun tail h => ⟨tail, h.2.2.2.2.2⟩))⟩

/-! ## Message IDs as `Sscanf` reads them -/

/-- The function `ParseMsgID` on sample texts: an ID as the broker writes it; text after the
second number is not looked at, spaces before a number are skipped and a sign is read; at the end
of the input the first and the second number give `io.EOF` and the `-` gives
`io.ErrUnexpectedEOF`. -/
theorem ParseMsgID_examples :
    ParseMsgID (str "1700000000000-5") = .ok ⟨1700000000000, 5⟩
    ∧ ParseMsgID (str "1-2_") = .ok ⟨1, 2⟩
    ∧ ParseMsgID (str "9-0_") = .ok ⟨9, 0⟩
    ∧ ParseMsgID (str " +17-  -5xyz") = .ok ⟨17, -5⟩
    ∧ ParseMsgID [] = .error (GoError.ext "io.EOF")
    ∧ ParseMsgID (str "1") = .error (GoError.ext "io.ErrUnexpectedEOF")
    ∧ ParseMsgID (str "1-") = .error (GoError.ext "io.EOF")
    ∧ ParseMsgID (str "x-1") = .error (GoError.new (str "expected integer"))
    ∧ ParseMsgID (str "1_0-5") = .error (GoError.new (str "input does not match format"))
    ∧ ParseMsgID (str "9223372036854775808-1")
        = .error (GoError.ext "strconv.ParseInt: value out of range") :=
  ⟨rfl, rfl, rfl, rfl, rfl, rfl, rfl, rfl, rfl, rfl⟩

/-- A message ID with text after the second number is read as the ID before that text: `DupSub`
returns the batch and moves the cursor from 5-0 to 9-0. -/
theorem DupSub_trailing_text :
    (testMessager.DupSub (.ok [⟨str "tosync", [⟨str "9-0_", []⟩]⟩])).r.lastSubID = some ⟨9, 0⟩
    ∧ (testMessager.DupSub (.ok [⟨str "tosync", [⟨str "9-0_", []⟩]⟩])).ret
        = .ok [(str "9-0_", [])] := by
  decide


theorem isNumberByte_ofNat (d : Nat) (h : d < 10) : fmt.isNumberByte (Fin.ofNat (48 + d)) = true := by
  have : ∀ d : Fin 10, fmt.isNumberByte (Fin.ofNat (48 + d.val)) = true := by decide
  exact this ⟨d, h⟩

theorem digit_val_ofNat (d : Nat) (h : d < 10) : ((Fin.ofNat (48 + d) : Byte).val - 48) = d := by
  have : ∀ d : Fin 10, ((Fin.ofNat (48 + d.val) : Byte).val - 48) = d.val := by decide
  exact this ⟨d, h⟩

/-- The digits `%d` writes are decimal digits, at least one, and read back as the number. -/
theorem decDigits_spec (fuel : Nat) : ∀ n : Nat, n < fuel →
    (∀ b ∈ fmt.decDigits fuel n, fmt.isNumberByte b = true)
    ∧ fmt.decDigits fuel n ≠ []
    ∧ ∀ acc : Nat, (fmt.decDigits fuel n).foldl (fun a b => a * 10 + (b.val - 48)) acc
        = acc * 10 ^ (fmt.decDigits fuel n).length + n := by
  induction fuel with
  | zero => intro n h; omega
  | succ fuel ih =>
    intro n hn
    unfold fmt.decDigits
    by_cases h10 : n < 10
    · rw [if_pos h10]
      refine ⟨?_, by simp, ?_⟩
      · intro b hb
        simp only [List.mem_singleton] at hb
        subst hb
        exact isNumberByte_ofNat n h10
      · intro acc
        simp only [List.foldl_cons, List.foldl_nil, List.length_singleton, pow_one]
        rw [digit_val_ofNat n h10]
    · rw [if_neg h10]
      obtain ⟨h1, h2, h3⟩ := ih (n / 10) (by omega)
      refine ⟨?_, by simp, ?_⟩
      · intro b hb
        rcases List.mem_append.1 hb with hb | hb
        · exact h1 b hb
        · simp only [List.mem_singleton] at hb
          subst hb
          exact isNumberByte_ofNat _ (Nat.mod_lt _ (by decide))
      · intro acc
        rw [List.foldl_append, h3 acc]
        simp only [List.foldl_cons, List.foldl_nil, List.length_append, List.length_singleton]
        rw [digit_val_ofNat _ (Nat.mod_lt _ (by decide)), pow_succ]
        have := Nat.div_add_mod n 10
        nlinarith [Nat.div_add_mod n 10]

theorem takeWhile_digits (ds rest : Bytes) (hd : ∀ b ∈ ds, fmt.isNumberByte b = true)
    (hr : rest.head?.map fmt.isNumberByte ≠ some true) :
    (ds ++ rest).takeWhile fmt.isNumberByte = ds
    ∧ (ds ++ rest).dropWhile fmt.isNumberByte = rest := by
  induction ds with
  | nil =>
    cases rest with
    | nil => exact ⟨rfl, rfl⟩
    | cons c t =>
      have hc : fmt.isNumberByte c = false := by
        cases h : fmt.isNumberByte c with
        | false => rfl
        | true => simp [h] at hr
      simp [List.takeWhile, List.dropWhile, hc]
  | cons d ds ih =>
    have hd0 := hd d (List.mem_cons_self _ _)
    obtain ⟨h1, h2⟩ := ih (fun b hb => hd b (List.mem_cons_of_mem _ hb))
    simp [List.takeWhile, List.dropWhile, hd0, h1, h2]

theorem SkipSpace_ascii (fuel : Nat) (c : Byte) (t : Bytes)
    (hc : fmt.isNumberByte c = true ∨ c.val = 45) :
    fmt.SkipSpace (fuel + 1) (c :: t) = .ok (c :: t) := by
  have hfacts : ∀ c : Byte, (fmt.isNumberByte c = true ∨ c.val = 45) →
      c.val < 128 ∧ c.val ≠ 13 ∧ c.val ≠ 10 ∧ fmt.isSpace c.val = false := by decide!
  obtain ⟨h1, h2, h3, h4⟩ := hfacts c hc
  have hdec : utf8.DecodeRune (c :: t) = (c.val, 1) := by
    unfold utf8.DecodeRune
    simp [h1]
  unfold fmt.SkipSpace
  simp only [hdec]
  rw [if_neg (by intro h; exact h2 h.1), if_neg h3]
  simp [h4]

/-- Verb `%d` reads back what verb `%d` wrote, for a number an `int64` holds, and stops in front
of what follows when that is not a digit. -/
theorem scanInt_d (n : Int) (rest : Bytes) (hlo : -(2 : Int) ^ 63 ≤ n) (hhi : n < (2 : Int) ^ 63)
    (hr : rest.head?.map fmt.isNumberByte ≠ some true) :
    fmt.scanInt (fmt.d n ++ rest) = .ok (n, rest) := by
  obtain ⟨hdig, hne, hval⟩ := decDigits_spec (n.natAbs + 1) n.natAbs (by omega)
  have hval0 := hval 0
  simp only [zero_mul, zero_add] at hval0
  obtain ⟨c, ds, hcd⟩ := List.exists_cons_of_ne_nil hne
  have htw := takeWhile_digits (fmt.decDigits (n.natAbs + 1) n.natAbs) rest hdig hr
  by_cases hneg : n < 0
  · have hd : fmt.d n = Fin.ofNat 45 :: fmt.decDigits (n.natAbs + 1) n.natAbs := by
      unfold fmt.d
      rw [if_pos hneg]
    unfold fmt.scanInt
    rw [hd, List.cons_append, List.length_cons, SkipSpace_ascii _ _ _ (Or.inr (by decide))]
    simp only
    have hsigned : (decide ((Fin.ofNat 45 : Byte).val = 43)
        || decide ((Fin.ofNat 45 : Byte).val = 45)) = true := by decide
    rw [hsigned]
    simp only [if_true]
    rw [htw.1, htw.2, hval0]
    have hbody : ¬ (fmt.decDigits (n.natAbs + 1) n.natAbs ++ rest = []) := by
      simp [hne]
    rw [if_neg hbody, if_neg hne]
    have h45 : (Fin.ofNat 45 : Byte).val = 45 := by decide
    simp only [h45, if_true]
    have hv : -((n.natAbs : Nat) : Int) = n := by omega
    rw [hv, if_neg (by omega)]
  · have hd : fmt.d n = fmt.decDigits (n.natAbs + 1) n.natAbs := by
      unfold fmt.d
      rw [if_neg hneg]
    have hc : fmt.isNumberByte c = true := hdig c (by rw [hcd]; exact List.mem_cons_self _ _)
    have hcfacts : ∀ c : Byte, fmt.isNumberByte c = true → c.val ≠ 43 ∧ c.val ≠ 45 := by decide!
    obtain ⟨hc1, hc2⟩ := hcfacts c hc
    unfold fmt.scanInt
    rw [hd, hcd, List.cons_append, List.length_cons, SkipSpace_ascii _ _ _ (Or.inl hc)]
    simp only [hc1, hc2, decide_False, Bool.or_self, Bool.false_eq_true, if_false]
    rw [← List.cons_append, ← hcd, htw.1, htw.2, hval0]
    have hbody : ¬ (fmt.decDigits (n.natAbs + 1) n.natAbs ++ rest = []) := by
      simp [hne]
    rw [if_neg hbody, if_neg hne]
    have hv : ((n.natAbs : Nat) : Int) = n := by omega
    rw [hv, if_neg (by omega)]

/-- Round trip of message IDs. `ParseMsgID` reads back every ID that `String` wrote, for fields an
`int64` holds, also when text that does not start with a digit follows. -/
theorem ParseMsgID_String (m : MsgID) (rest : Bytes)
    (h1 : -(2 : Int) ^ 63 ≤ m.MsTimestamp) (h2 : m.MsTimestamp < (2 : Int) ^ 63)
    (h3 : -(2 : Int) ^ 63 ≤ m.Seq) (h4 : m.Seq < (2 : Int) ^ 63)
    (hr : rest.head?.map fmt.isNumberByte ≠ some true) :
    ParseMsgID (m.String ++ rest) = .ok m := by
  unfold ParseMsgID MsgID.String
  have hdash : str "-" = [Fin.ofNat 45] := by decide
  rw [hdash, List.append_assoc, List.append_assoc,
    scanInt_d m.MsTimestamp _ h1 h2 (by simp; decide)]
  simp only [List.singleton_append]
  have h45 : ¬ ((Fin.ofNat 45 : Byte).val ≠ 45) := by decide
  rw [if_neg h45, scanInt_d m.Seq rest h3 h4 hr]

/-! ## The size limit and the published envelope -/


theorem EncodeToString_injective (a b : Bytes)
    (h : base64.EncodeToString a = base64.EncodeToString b) : a = b := by
  have ha := DecodeString_EncodeToString a
  rw [h, DecodeString_EncodeToString] at ha
  exact (Option.some.inj ha).symm

/-- Two envelopes for one correlation ID are the same text only when they carry the same body. -/
theorem marshalCallbackInfo_body_injective (asyncID a b : Bytes)
    (h : marshalCallbackInfo ⟨asyncID, base64.EncodeToString a⟩
      = marshalCallbackInfo ⟨asyncID, base64.EncodeToString b⟩) : a = b := by
  unfold marshalCallbackInfo at h
  simp only [quote_plain _ (EncodeToString_plain a), quote_plain _ (EncodeToString_plain b)] at h
  have h1 := List.append_cancel_right h
  have h2 := List.append_cancel_left h1
  have h3 := List.cons.inj h2
  exact EncodeToString_injective a b (List.append_cancel_right h3.2)

/-- Below the largest limit the body is published. For a client with `0 < maxSize < 2^63 - 1` and
a validly signed callback whose readable body has at most `maxSize` bytes, one of exactly
`maxSize` bytes included: the handler calls `Pub` once, on the envelope of the body posted, and
returns what `Pub` returns (nil, or its error wrapped); read back under a plain correlation ID the
envelope yields exactly that body. -/
theorem CallbackHandler_within_limit_publishes_body {μ : Type} (M : Messager μ) (c : Client μ)
    (r : http.Request) (hpos : 0 < c.maxSize) (hmax : c.maxSize < 2 ^ 63 - 1)
    (hsign : signature.CheckSign (r.URL.Query.Get (str "async_id"))
      (r.URL.Query.Get (str "random")) (r.URL.Query.Get (str "sign")) = true)
    (hread : r.Body.err = none) (hlen : (r.Body.data.length : Int) ≤ c.maxSize) :
    (c.CallbackHandler M r).trace
        = [Event.Pub (marshalCallbackInfo
            ⟨r.URL.Query.Get (str "async_id"), base64.EncodeToString r.Body.data⟩)]
    ∧ (c.CallbackHandler M r).err
        = (match (M.Pub c.messager (marshalCallbackInfo
              ⟨r.URL.Query.Get (str "async_id"), base64.EncodeToString r.Body.data⟩)).1 with
            | .ok _ => none
            | .error e => some (GoError.wrap e (str "pub")))
    ∧ ((∀ b ∈ r.URL.Query.Get (str "async_id"), json.isPlain b = true) →
        envelopeFor (r.URL.Query.Get (str "async_id"))
          (marshalCallbackInfo
            ⟨r.URL.Query.Get (str "async_id"), base64.EncodeToString r.Body.data⟩)
          = some r.Body.data) := by
  have hw : wrapInt64 (c.maxSize + 1) = c.maxSize + 1 := wrapInt64_small _ (by omega) (by omega)
  have hbuf : io.ReadAllLimit r.Body (c.maxSize + 1) = .ok r.Body.data := by
    unfold io.ReadAllLimit
    rw [if_neg (by omega), if_neg (by omega), hread]
  have hnot : ¬ ((r.Body.data.length : Int) > c.maxSize) := by omega
  have hres : c.CallbackHandler M r =
      (match M.Pub c.messager (marshalCallbackInfo
          ⟨r.URL.Query.Get (str "async_id"), base64.EncodeToString r.Body.data⟩) with
        | (.error e, m) =>
          ⟨some (GoError.wrap e (str "pub")), { c with messager := m },
            [Event.Pub (marshalCallbackInfo
              ⟨r.URL.Query.Get (str "async_id"), base64.EncodeToString r.Body.data⟩)]⟩
        | (.ok _, m) =>
          ⟨none, { c with messager := m },
            [Event.Pub (marshalCallbackInfo
              ⟨r.URL.Query.Get (str "async_id"), base64.EncodeToString r.Body.data⟩)]⟩) := by
    unfold Client.CallbackHandler
    simp only [hsign, hw, hbuf, Bool.not_true, Bool.false_eq_true, if_false]
    rw [if_neg hnot]
    all_goals rfl
  refine ⟨?_, ?_, ?_⟩
  · rw [hres]
    rcases hp : M.Pub c.messager (marshalCallbackInfo
        ⟨r.URL.Query.Get (str "async_id"), base64.EncodeToString r.Body.data⟩) with ⟨res, m⟩
    cases res <;> rfl
  · rw [hres]
    rcases hp : M.Pub c.messager (marshalCallbackInfo
        ⟨r.URL.Query.Get (str "async_id"), base64.EncodeToString r.Body.data⟩) with ⟨res, m⟩
    cases res <;> rfl
  · intro hplain
    exact envelopeFor_marshal _ _ hplain

/-- The test's callback that posts "A" against a limit of 10: the envelope of "A" is published. -/
theorem CallbackHandler_within_limit_publishes_body_example :
    (waitingClient.CallbackHandler logMessager signedWaiterCallback).trace
        = [Event.Pub (str ("\x7b\"async_id\":\"00000000-0000-4000-8000-000000000000\","
            ++ "\"base64_body\":\"QQ==\"\x7d"))]
    ∧ (waitingClient.CallbackHandler logMessager signedWaiterCallback).err = none :=
  ⟨(CallbackHandler_within_limit_publishes_body logMessager waitingClient signedWaiterCallback
      (by decide) (by decide) (by decide!) rfl (by decide)).1.trans (by decide!),
   (CallbackHandler_within_limit_publishes_body logMessager waitingClient signedWaiterCallback
      (by decide) (by decide) (by decide!) rfl (by decide)).2.1.trans (by decide!)⟩

/-- Claim C9 (what the code does at the largest limit). With `maxSize = 9223372036854775807` the
read limit `maxSize + 1` wraps to a negative number and nothing is read: for every validly signed
callback with a non-empty body, one of exactly `maxSize` bytes included, the handler does not fail
on the size, calls `Pub` once and returns what `Pub` returns, and the envelope it publishes is the
one of the empty body, which is not the envelope of the body posted; read back under a plain
correlation ID it yields the empty body. The body is accepted and not published. -/
theorem CallbackHandler_max_limit_drops_body {μ : Type} (M : Messager μ) (c : Client μ)
    (r : http.Request) (hmax : c.maxSize = 9223372036854775807)
    (hsign : signature.CheckSign (r.URL.Query.Get (str "async_id"))
      (r.URL.Query.Get (str "random")) (r.URL.Query.Get (str "sign")) = true)
    (hbody : r.Body.data ≠ []) :
    (c.CallbackHandler M r).trace
        = [Event.Pub (marshalCallbackInfo
            ⟨r.URL.Query.Get (str "async_id"), base64.EncodeToString []⟩)]
    ∧ (c.CallbackHandler M r).err
        = (match (M.Pub c.messager (marshalCallbackInfo
              ⟨r.URL.Query.Get (str "async_id"), base64.EncodeToString []⟩)).1 with
            | .ok _ => none
            | .error e => some (GoError.wrap e (str "pub")))
    ∧ marshalCallbackInfo ⟨r.URL.Query.Get (str "async_id"), base64.EncodeToString []⟩
        ≠ marshalCallbackInfo ⟨r.URL.Query.Get (str "async_id"),
            base64.EncodeToString r.Body.data⟩
    ∧ ((∀ b ∈ r.URL.Query.Get (str "async_id"), json.isPlain b = true) →
        envelopeFor (r.URL.Query.Get (str "async_id"))
          (marshalCallbackInfo ⟨r.URL.Query.Get (str "async_id"), base64.EncodeToString []⟩)
          = some []) := by
  have hw : wrapInt64 (c.maxSize + 1) = -9223372036854775808 := by
    rw [hmax]
    decide
  have hbuf : io.ReadAllLimit r.Body (-9223372036854775808) = .ok [] := by
    unfold io.ReadAllLimit
    rw [if_pos (by decide)]
  have hnot : ¬ ((([] : Bytes).length : Int) > c.maxSize) := by
    rw [hmax]
    decide
  have hres : c.CallbackHandler M r =
      (match M.Pub c.messager (marshalCallbackInfo
          ⟨r.URL.Query.Get (str "async_id"), base64.EncodeToString []⟩) with
        | (.error e, m) =>
          ⟨some (GoError.wrap e (str "pub")), { c with messager := m },
            [Event.Pub (marshalCallbackInfo
              ⟨r.URL.Query.Get (str "async_id"), base64.EncodeToString []⟩)]⟩
        | (.ok _, m) =>
          ⟨none, { c with messager := m },
            [Event.Pub (marshalCallbackInfo
              ⟨r.URL.Query.Get (str "async_id"), base64.EncodeToString []⟩)]⟩) := by
    unfold Client.CallbackHandler
    simp only [hsign, hw, hbuf, Bool.not_true, Bool.false_eq_true, if_false]
    rw [if_neg hnot]
    all_goals rfl
  refine ⟨?_, ?_, ?_, ?_⟩
  · rw [hres]
    rcases hp : M.Pub c.messager (marshalCallbackInfo
        ⟨r.URL.Query.Get (str "async_id"), base64.EncodeToString []⟩) with ⟨res, m⟩
    cases res <;> rfl
  · rw [hres]
    rcases hp : M.Pub c.messager (marshalCallbackInfo
        ⟨r.URL.Query.Get (str "async_id"), base64.EncodeToString []⟩) with ⟨res, m⟩
    cases res <;> rfl
  · intro h
    exact hbody (marshalCallbackInfo_body_injective _ _ _ h).symm
  · intro hplain
    exact envelopeFor_marshal _ _ hplain

/-- Claim C9 at the largest limit, on a callback whose body has exactly `maxSize` bytes: the
handler returns nil and publishes the envelope of the empty body. -/
theorem CallbackHandler_max_limit_drops_body_witness :
    fullSizeCallback.Body.data.length = 9223372036854775807
    ∧ maxLimitClient.maxSize = 9223372036854775807
    ∧ (maxLimitClient.CallbackHandler logMessager fullSizeCallback).trace
        = [Event.Pub (str ("\x7b\"async_id\":\"00000000-0000-4000-8000-000000000000\","
            ++ "\"base64_body\":\"\"\x7d"))]
    ∧ (maxLimitClient.CallbackHandler logMessager fullSizeCallback).err = none :=
  ⟨List.length_replicate _ _, rfl,
   (CallbackHandler_max_limit_drops_body logMessager maxLimitClient fullSizeCallback rfl
      (by decide!) (fun h => absurd (congrArg List.length h) (by
        rw [show fullSizeCallback.Body.data
          = List.replicate 9223372036854775807 (Fin.ofNat 65) from rfl, List.length_replicate]
        decide))).1.trans (by decide!),
   (CallbackHandler_max_limit_drops_body logMessager maxLimitClient fullSizeCallback rfl
      (by decide!) (fun h => absurd (congrArg List.length h) (by
        rw [show fullSizeCallback.Body.data
          = List.replicate 9223372036854775807 (Fin.ofNat 65) from rfl, List.length_replicate]
        decide))).2.1.trans (by decide!)⟩
